import Mathlib

/-!
Verification of the SAGE fusion core (entity-resolution registry,
relationship graph, fusion orchestrator) against its specification.

The Python code in `src/fusion/` is shallowly embedded here:

* Python dynamic values are modelled by the inductive type `Value`
  (`None`, strings, numbers, lists, dicts).  Python floats are modelled
  exactly by `Rat`; the numeric rendering of `str(...)` on non-string
  values is abstracted (no theorem depends on it, only on its
  determinism).
* Python dicts are modelled by insertion-ordered association lists
  (`AttrMap`) with the update-in-place / append-if-new semantics of
  CPython dicts.
* Operations that can raise (`TypeError` on mixed-type arithmetic or
  comparisons, `AttributeError` on `.append` of a non-list, `KeyError`)
  return `Option`; `none` models an exception escaping the operation.
* `difflib.SequenceMatcher.ratio` is modelled by the
  longest-matching-block recursion it implements.  The autojunk
  heuristic (which only activates when the second string has at least
  200 characters) is not modelled; every theorem below that depends on
  the value of a ratio keeps the relevant strings below that bound.
* The source's row-based Levenshtein dynamic program computes the
  classical Levenshtein distance, modelled by Mathlib's `levenshtein`
  with `Levenshtein.defaultCost`.
* `datetime.now().isoformat()` is modelled by an explicit `now : String`
  argument, `datetime.fromisoformat` by an abstract
  `parse : String → Option Rat` argument (seconds), and `str(datetime)`
  by an abstract `render : Rat → String` argument.
* Python `list.sort` is a stable ascending sort; it is modelled by a
  stable insertion sort (`pySort`).
-/

/-- Model of a Python runtime value as stored in attribute bundles and
entities: `None`, `str`, numbers (`int`/`float`, modelled exactly as
rationals), lists and dicts. -/
inductive Value where
  | none : Value
  | str (s : String) : Value
  | num (q : Rat) : Value
  | list (l : List Value) : Value
  | dict (m : List (String × Value)) : Value
  deriving Repr

mutual
/-- Structural equality of values, modelling Python `==` on this value
universe. -/
def Value.beq : Value → Value → Bool
  | .none, .none => true
  | .str a, .str b => a == b
  | .num a, .num b => a == b
  | .list a, .list b => Value.beqL a b
  | .dict a, .dict b => Value.beqD a b
  | _, _ => false
/-- Elementwise equality of lists of values. -/
def Value.beqL : List Value → List Value → Bool
  | [], [] => true
  | a::as, b::bs => Value.beq a b && Value.beqL as bs
  | _, _ => false
/-- Entrywise equality of dicts. -/
def Value.beqD : List (String × Value) → List (String × Value) → Bool
  | [], [] => true
  | (k,v)::as, (l,w)::bs => k == l && Value.beq v w && Value.beqD as bs
  | _, _ => false
end

mutual
theorem Value.beq_iff : ∀ a b : Value, Value.beq a b = true ↔ a = b
  | .none, .none => by simp [Value.beq]
  | .none, .str _ | .none, .num _ | .none, .list _ | .none, .dict _ => by simp [Value.beq]
  | .str _, .none | .str _, .num _ | .str _, .list _ | .str _, .dict _ => by simp [Value.beq]
  | .num _, .none | .num _, .str _ | .num _, .list _ | .num _, .dict _ => by simp [Value.beq]
  | .list _, .none | .list _, .str _ | .list _, .num _ | .list _, .dict _ => by simp [Value.beq]
  | .dict _, .none | .dict _, .str _ | .dict _, .num _ | .dict _, .list _ => by simp [Value.beq]
  | .str a, .str b => by simp [Value.beq]
  | .num a, .num b => by simp [Value.beq]
  | .list a, .list b => by simp [Value.beq, Value.beqL_iff a b]
  | .dict a, .dict b => by simp [Value.beq, Value.beqD_iff a b]
theorem Value.beqL_iff : ∀ a b : List Value, Value.beqL a b = true ↔ a = b
  | [], [] => by simp [Value.beqL]
  | [], _::_ | _::_, [] => by simp [Value.beqL]
  | a::as, b::bs => by
      simp [Value.beqL, Value.beq_iff a b, Value.beqL_iff as bs]
theorem Value.beqD_iff : ∀ a b : List (String × Value), Value.beqD a b = true ↔ a = b
  | [], [] => by simp [Value.beqD]
  | [], _::_ | _::_, [] => by simp [Value.beqD]
  | (k,v)::as, (l,w)::bs => by
      simp [Value.beqD, Value.beq_iff v w, Value.beqD_iff as bs]
end

instance : DecidableEq Value := fun a b =>
  decidable_of_iff (Value.beq a b = true) (Value.beq_iff a b)

/-- Python truthiness on this value universe (`None`, `""`, `0`, `[]`,
`{}` are falsy). -/
def Value.truthy : Value → Bool
  | .none => false
  | .str s => !s.isEmpty
  | .num q => q != 0
  | .list l => !l.isEmpty
  | .dict m => !m.isEmpty

mutual
/-- Model of Python `repr(...)` on this value universe, used inside the
rendering of containers.  Exact for strings up to quoting; numeric
rendering is abstract (deterministic, which is all any theorem uses). -/
def Value.pyRepr : Value → String
  | .none => "None"
  | .str s => "\x27" ++ s ++ "\x27"
  | .num q => toString q
  | .list l => "[" ++ Value.pyReprL l ++ "]"
  | .dict m => "\x7b" ++ Value.pyReprD m ++ "\x7d"
/-- Comma-separated renderings of the elements of a list. -/
def Value.pyReprL : List Value → String
  | [] => ""
  | [a] => Value.pyRepr a
  | a::as => Value.pyRepr a ++ ", " ++ Value.pyReprL as
/-- Comma-separated renderings of the entries of a dict. -/
def Value.pyReprD : List (String × Value) → String
  | [] => ""
  | [(k,v)] => "\x27" ++ k ++ "\x27: " ++ Value.pyRepr v
  | (k,v)::as => "\x27" ++ k ++ "\x27: " ++ Value.pyRepr v ++ ", " ++ Value.pyReprD as
end

/-- Model of Python `str(...)`, as applied by the normalisation helpers
to possibly non-string identifier values. -/
def Value.pyStr : Value → String
  | .str s => s
  | v => Value.pyRepr v

/-- Python `a or b` (first operand if truthy, else second). -/
def pyOr (a b : Value) : Value := if a.truthy then a else b

/-- Addition of rationals through `mkRat`, definitionally equal to `+`
on `Rat` but kernel-reducible (the core `Rat.add` is `irreducible`,
which would block `decide` on concrete runs of the embedded code). -/
def ratAdd (a b : Rat) : Rat :=
  mkRat (a.num * (b.den : Int) + b.num * (a.den : Int)) (a.den * b.den)

/-- Multiplication of rationals through `mkRat` (kernel-reducible). -/
def ratMul (a b : Rat) : Rat := mkRat (a.num * b.num) (a.den * b.den)

/-- Division of rationals through `mkRat` (kernel-reducible); division
by zero yields zero, a case no embedded code path reaches. -/
def ratDiv (a b : Rat) : Rat :=
  if 0 ≤ b.num then mkRat (a.num * (b.den : Int)) (a.den * b.num.toNat)
  else mkRat (-(a.num * (b.den : Int))) (a.den * (-b.num).toNat)

theorem ratAdd_eq (a b : Rat) : ratAdd a b = a + b := by
  have had : ((a.den : Rat)) ≠ 0 := by exact_mod_cast a.den_nz
  have hbd : ((b.den : Rat)) ≠ 0 := by exact_mod_cast b.den_nz
  rw [ratAdd, Rat.mkRat_eq_div]
  push_cast
  conv_rhs => rw [← Rat.num_div_den a, ← Rat.num_div_den b]
  field_simp

theorem ratMul_eq (a b : Rat) : ratMul a b = a * b := by
  have had : ((a.den : Rat)) ≠ 0 := by exact_mod_cast a.den_nz
  have hbd : ((b.den : Rat)) ≠ 0 := by exact_mod_cast b.den_nz
  rw [ratMul, Rat.mkRat_eq_div]
  push_cast
  conv_rhs => rw [← Rat.num_div_den a, ← Rat.num_div_den b]
  field_simp

theorem ratDiv_eq (a b : Rat) : ratDiv a b = a / b := by
  have had : ((a.den : Rat)) ≠ 0 := by exact_mod_cast a.den_nz
  have hbd : ((b.den : Rat)) ≠ 0 := by exact_mod_cast b.den_nz
  rcases lt_trichotomy b.num 0 with h | h | h
  · have hq : ((((-b.num).toNat : Nat)) : Rat) = -(b.num : Rat) := by
      have := Int.toNat_of_nonneg (a := -b.num) (by omega)
      exact_mod_cast congrArg (fun z : Int => (z : Rat)) this
    have hbnum : ((b.num : Rat)) ≠ 0 := by exact_mod_cast h.ne
    rw [ratDiv, if_neg (not_le.mpr h), Rat.mkRat_eq_div]
    push_cast
    rw [hq]
    conv_rhs => rw [← Rat.num_div_den a, ← Rat.num_div_den b]
    field_simp
  · have hb : b = 0 := by
      have := Rat.num_div_den b
      rw [h] at this
      simpa using this.symm
    subst hb
    simp [ratDiv, Rat.mkRat_eq_div]
  · have hq : (((b.num.toNat : Nat)) : Rat) = (b.num : Rat) := by
      have := Int.toNat_of_nonneg (a := b.num) h.le
      exact_mod_cast congrArg (fun z : Int => (z : Rat)) this
    have hbnum : ((b.num : Rat)) ≠ 0 := by exact_mod_cast h.ne.symm
    rw [ratDiv, if_pos h.le, Rat.mkRat_eq_div]
    push_cast
    rw [hq]
    conv_rhs => rw [← Rat.num_div_den a, ← Rat.num_div_den b]
    field_simp

/-- Python `a + b`; `none` models a `TypeError` on incompatible
operands. -/
def pyAdd : Value → Value → Option Value
  | .num a, .num b => some (.num (ratAdd a b))
  | .str a, .str b => some (.str (a ++ b))
  | .list a, .list b => some (.list (a ++ b))
  | _, _ => .none

/-- Python `a / 2` as used on an averaged confidence; `none` models a
`TypeError` on a non-numeric operand. -/
def pyHalf : Value → Option Value
  | .num a => some (.num (ratDiv a (mkRat 2 1)))
  | _ => .none

/-- Python `a > b`; `none` models a `TypeError` on operands of
incomparable types (lists are compared elementwise in Python, but no
code path in this development compares list confidences, so they are
conservatively mapped to an error). -/
def pyGT : Value → Value → Option Bool
  | .num a, .num b => some (decide (b < a))
  | .str a, .str b => some (decide (b < a))
  | _, _ => .none

/-- Python `q * v` for a float literal `q`; `none` models the
`TypeError` raised when `v` is not numeric. -/
def pyScale (q : Rat) : Value → Option Value
  | .num a => some (.num (ratMul q a))
  | _ => .none

/-- Python `v + 1` as applied to `merged_count`; `none` models a
`TypeError` on a non-numeric count. -/
def pyInc : Value → Option Value
  | .num a => some (.num (ratAdd a (mkRat 1 1)))
  | _ => .none

/-- Python `x in container` for the containers that appear in the merge
path: membership for lists, substring test for strings, key membership
for dicts; `none` models a `TypeError` on other containers. -/
def pyContains (container x : Value) : Option Bool
  := match container with
  | .list l => some (decide (x ∈ l))
  | .str s =>
      match x with
      | .str t => some (decide (t.toList <:+: s.toList))
      | _ => .none
  | .dict m =>
      match x with
      | .str k => some (m.any (fun p => p.1 == k))
      | _ => some false
  | _ => .none

/-- Python `container.append(x)`; `none` models the `AttributeError`
raised when the receiver is not a list. -/
def pyAppend (container x : Value) : Option Value
  := match container with
  | .list l => some (.list (l ++ [x]))
  | _ => .none

/-- Insertion-ordered association list modelling a Python dict of
attributes. -/
abbrev AttrMap := List (String × Value)

/-- First binding of a key in an association list (dict lookup). -/
def alGet {κ α : Type} [DecidableEq κ] : List (κ × α) → κ → Option α
  | [], _ => .none
  | (k1, v)::t, k => if k1 = k then some v else alGet t k

/-- Generic association-list update with CPython dict semantics
(existing key keeps its position, new key appended). -/
def alSet {κ α : Type} [DecidableEq κ] : List (κ × α) → κ → α → List (κ × α)
  | [], k, v => [(k, v)]
  | (k1, v1)::t, k, v => if k1 = k then (k, v)::t else (k1, v1)::alSet t k v

/-- Model of `d.get(k)` / `d[k]` presence: first binding of `k`. -/
def amGet (m : AttrMap) (k : String) : Option Value := alGet m k

/-- Model of `d.get(k, default)` collapsed to `None` for absence, as the
fusion code does with `d.get(k)`. -/
def dget (m : AttrMap) (k : String) : Value := (amGet m k).getD .none

/-- Model of `d.get(k, default)` with an explicit default. -/
def dgetD (m : AttrMap) (k : String) (dflt : Value) : Value := (amGet m k).getD dflt

/-- Model of `d[k] = v` on a CPython dict: an existing key keeps its
position, a new key is appended. -/
def amSet (m : AttrMap) (k : String) (v : Value) : AttrMap := alSet m k v

/-- Keys of an attribute map. -/
def amKeys (m : AttrMap) : List String := m.map Prod.fst

/-- Code-point comparison of characters, modelling Python `<` on
single characters (`ord(a) < ord(b)`). -/
def charLt (a b : Char) : Bool := a.toNat < b.toNat

/-- Lexicographic code-point comparison of character lists, modelling
Python `<=` on strings. -/
def lexLe : List Char → List Char → Bool
  | [], _ => true
  | _::_, [] => false
  | a::as, b::bs => if a = b then lexLe as bs else charLt a b

/-- Python `a <= b` on strings. -/
def strLe (a b : String) : Bool := lexLe a.toList b.toList

/-- Python `a < b` on strings. -/
def strLt (a b : String) : Bool := !strLe b a

/-- EntityRegistry._normalize_phone: strip non-digit characters from
`str(phone)` and keep the last 11 digits. -/
def normalize_phone (v : Value) : String :=
  let digits := v.pyStr.toList.filter Char.isDigit
  String.mk (if digits.length > 11 then digits.drop (digits.length - 11) else digits)

/-- ASCII lowercasing of a string, modelling `str.lower()` on the
identifier alphabets exercised here (kernel-reducible, unlike
`String.toLower`). -/
def pyLower (s : String) : String := String.mk (s.toList.map Char.toLower)

/-- Model of `str.strip()`: drop leading and trailing whitespace. -/
def pyStrip (s : String) : String :=
  String.mk (((s.toList.dropWhile Char.isWhitespace).reverse.dropWhile
    Char.isWhitespace).reverse)

/-- EntityRegistry._normalize_name: `str(name).strip().lower()`. -/
def normalize_name (v : Value) : String :=
  pyLower (pyStrip v.pyStr)

/-- EntityRegistry._normalize_wechat: `str(handle).strip().lower()`. -/
def normalize_wechat (v : Value) : String :=
  pyLower (pyStrip v.pyStr)

/-- EntityRegistry._normalize_idcard: strip all whitespace, uppercase. -/
def normalize_idcard (v : Value) : String :=
  String.mk ((v.pyStr.toList.filter (fun c => !c.isWhitespace)).map Char.toUpper)

/-- EntityRegistry._normalize_account: strip all whitespace. -/
def normalize_account (v : Value) : String :=
  String.mk (v.pyStr.toList.filter (fun c => !c.isWhitespace))

/-- Length of the common run of `a` starting at `i` and `b` starting at
`j`, truncated at `ahi` and `bhi` (difflib matching-run length). -/
def runLenF (a b : List Char) (ahi bhi : Nat) : Nat → Nat → Nat → Nat
  | 0, _, _ => 0
  | fuel+1, i, j =>
      if i < ahi && j < bhi && i < a.length && j < b.length
          && (a.getD i ' ' == b.getD j ' ') then
        1 + runLenF a b ahi bhi fuel (i+1) (j+1)
      else 0

/-- Candidate start positions for matching blocks of
`a[alo:ahi]` / `b[blo:bhi]`, enumerated in difflib's search order
(first coordinate ascending, then second ascending). -/
def flmPairs (alo ahi blo bhi : Nat) : List (Nat × Nat) :=
  (List.range (ahi - alo)).flatMap
    (fun di => (List.range (bhi - blo)).map (fun dj => (alo + di, blo + dj)))

/-- SequenceMatcher.find_longest_match on `a[alo:ahi]` / `b[blo:bhi]`
(no junk): the longest matching block, ties resolved toward the
earliest start in `a` and then in `b`, exactly difflib's tie-breaking.
Returns `(i, j, size)`. -/
def find_longest_match (a b : List Char) (alo ahi blo bhi : Nat) : Nat × Nat × Nat :=
  (flmPairs alo ahi blo bhi).foldl
    (fun best p =>
      let k := runLenF a b ahi bhi (ahi - p.1) p.1 p.2
      if k > best.2.2 then (p.1, p.2, k) else best)
    (alo, blo, 0)

/-- Total size of the matching blocks of `a[alo:ahi]` / `b[blo:bhi]`:
the recursive decomposition performed by
SequenceMatcher.get_matching_blocks. -/
def matchSizeF (a b : List Char) : Nat → Nat → Nat → Nat → Nat → Nat
  | 0, _, _, _, _ => 0
  | fuel+1, alo, ahi, blo, bhi =>
      let r := find_longest_match a b alo ahi blo bhi
      if r.2.2 = 0 then 0
      else r.2.2 + matchSizeF a b fuel alo r.1 blo r.2.1
            + matchSizeF a b fuel (r.1 + r.2.2) ahi (r.2.1 + r.2.2) bhi

/-- Total matched size over the full strings. -/
def matchSize (a b : List Char) : Nat :=
  matchSizeF a b (a.length + 1) 0 a.length 0 b.length

/-- SequenceMatcher(None, a, b).ratio(): `2*M / (len(a)+len(b))`, and
`1.0` when both strings are empty. -/
def seqRatio (a b : String) : Rat :=
  let t := a.length + b.length
  if t = 0 then 1
  else mkRat (2 * (matchSize a.toList b.toList : Int)) t

/-- EntityRegistry._levenshtein_distance: the source's row dynamic
program computes the classical Levenshtein distance, modelled by
Mathlib's `levenshtein` with unit costs. -/
def levenshtein_distance (a b : String) : Nat :=
  levenshtein Levenshtein.defaultCost a.toList b.toList

/-- Distinct characters of a string in first-occurrence order,
modelling `set(s)` up to enumeration order (only cardinalities of set
algebra are ever used). -/
def charSet (s : String) : List Char := s.toList.eraseDups

/-- Character-set Jaccard overlap of two strings:
`|set(a) ∩ set(b)| / |set(a) ∪ set(b)|`, `0.0` when both are empty. -/
def jaccard (a b : String) : Rat :=
  let sa := charSet a
  let sb := charSet b
  let inter := sa.filter (fun c => c ∈ sb)
  let union := sa ++ sb.filter (fun c => c ∉ sa)
  if union.isEmpty then 0
  else mkRat (inter.length : Int) union.length

/-- Combined name-similarity score of _find_best_name_match:
`0.5*seq_ratio + 0.3*lev_ratio + 0.2*jaccard` where `lev_ratio` is one
minus the length-normalised edit distance (`0.0` for two empty
strings). -/
def combinedScore (name existing : String) : Rat :=
  let seq := seqRatio name existing
  let maxLen := max name.length existing.length
  let levRatio : Rat :=
    if maxLen > 0 then
      ratAdd (mkRat 1 1) (mkRat (-(levenshtein_distance name existing : Int)) maxLen)
    else 0
  ratAdd (ratMul (mkRat 5 10) seq)
    (ratAdd (ratMul (mkRat 3 10) levRatio) (ratMul (mkRat 2 10) (jaccard name existing)))

example : normalize_phone (.str "+86 138-0000-1111x") = "13800001111" := by decide
example : normalize_phone (.str "138-0000-0000") = "13800000000" := by decide
example : normalize_name (.str "  Zhang San ") = "zhang san" := by decide
example : seqRatio "abc" "abcd" = mkRat 6 7 := by decide
example : seqRatio "abc" "abc" = 1 := by decide
example : levenshtein_distance "abc" "abcd" = 1 := by decide
example : jaccard "abc" "abcd" = mkRat 3 4 := by decide
example : combinedScore "abc" "abcd" = mkRat 45 56 := by decide
example : mkRat 75 100 ≤ mkRat 45 56 ∧ mkRat 45 56 < mkRat 85 100 := by decide

/-- Negation of a rational (kernel-reducible). -/
def ratNeg (a : Rat) : Rat := mkRat (-a.num) a.den

/-- Subtraction of rationals (kernel-reducible). -/
def ratSub (a b : Rat) : Rat := ratAdd a (ratNeg b)

theorem ratNeg_eq (a : Rat) : ratNeg a = -a := by
  have := ratMul_eq (mkRat (-1) 1) a
  rw [show mkRat (-1) 1 = (-1 : Rat) by rfl] at this
  rw [← neg_one_mul, ← this, ratMul, ratNeg]
  simp

theorem ratSub_eq (a b : Rat) : ratSub a b = a - b := by
  rw [ratSub, ratAdd_eq, ratNeg_eq, sub_eq_add_neg]

/-- EntityConflictResolver.resolve_conflict: identical values average
the confidences; an empty (falsy) side yields the other; otherwise the
higher new confidence wins with ties keeping the existing value.
Returns `(resolved_value, resolved_confidence, strategy)`; `none`
models a `TypeError` escaping the comparison/arithmetic on
incompatible confidence values. -/
def resolve_conflict (existing_value new_value conf_existing conf_new : Value) :
    Option (Value × Value × String) :=
  if existing_value = new_value then do
    let s ← pyAdd conf_existing conf_new
    let avg ← pyHalf s
    some (existing_value, avg, "identical")
  else if !existing_value.truthy then some (new_value, conf_new, "new_value")
  else if !new_value.truthy then some (existing_value, conf_existing, "existing_value")
  else do
    let gt ← pyGT conf_new conf_existing
    if gt then some (new_value, conf_new, "confidence_based")
    else some (existing_value, conf_existing, "confidence_based")

/-- One iteration of the merge loop of EntityRegistry._merge_entity for
an incoming key/value pair. -/
def mergeStep (newConf : Value) (entity : AttrMap) (kv : String × Value) :
    Option AttrMap :=
  match amGet entity kv.1 with
  | some existing =>
      if existing.truthy = true ∧ existing ≠ kv.2 then do
        let existingConf := dgetD entity "confidence" (.num 1)
        let r ← resolve_conflict existing kv.2 existingConf newConf
        let entity1 := amSet entity kv.1 r.1
        let histKey := kv.1 ++ "_conflict_history"
        let hist := dgetD entity1 histKey (.list [])
        let entry : Value := .dict [("existing", existing), ("new", kv.2),
          ("resolved", r.1), ("strategy", .str r.2.2)]
        let hist1 ← pyAppend hist entry
        some (amSet entity1 histKey hist1)
      else if existing.truthy = false ∧ kv.2.truthy = true then
        some (amSet entity kv.1 kv.2)
      else some entity
  | none => some (amSet entity kv.1 kv.2)

/-- The merge loop of EntityRegistry._merge_entity over all incoming
key/value pairs, in dict order. -/
def mergeLoop (newConf : Value) : AttrMap → List (String × Value) → Option AttrMap
  | entity, [] => some entity
  | entity, kv :: rest => do
      let e1 ← mergeStep newConf entity kv
      mergeLoop newConf e1 rest

/-- Registry state of EntityRegistry: entities and the five identifier
indices are insertion-ordered dicts, `next_id` the id counter. -/
structure Registry where
  entities : List (String × AttrMap)
  phone_index : List (String × String)
  name_index : List (String × String)
  wechat_index : List (String × String)
  idcard_index : List (String × String)
  account_index : List (String × String)
  next_id : Nat
  deriving Repr, DecidableEq

/-- The freshly constructed registry (EntityRegistry.__init__). -/
def emptyRegistry : Registry :=
  { entities := [], phone_index := [], name_index := [], wechat_index := []
    idcard_index := [], account_index := [], next_id := 1 }

/-- The entity-level body of EntityRegistry._merge_entity: run the
merge loop, then append a novel source tag, bump `merged_count`,
append the match record, stamp `last_updated` and blend
`confidence = 0.3*new + 0.7*stored`.  `none` models an exception
escaping any of these steps. -/
def merge_attrs (entity : AttrMap) (new_data : AttrMap) (match_info : Value)
    (now : String) : Option AttrMap := do
  let newConf := dgetD new_data "confidence" (.num 1)
  let e1 ← mergeLoop newConf entity new_data
  let newSource := dgetD new_data "source" (.str "unknown")
  let sourcesV ← amGet e1 "sources"
  let isMem ← pyContains sourcesV newSource
  let e2 ←
    if isMem then some e1
    else do
      let s1 ← pyAppend sourcesV newSource
      some (amSet e1 "sources" s1)
  let mc ← amGet e2 "merged_count"
  let mc1 ← pyInc mc
  let e3 := amSet e2 "merged_count" mc1
  let mh ← amGet e3 "match_history"
  let mh1 ← pyAppend mh match_info
  let e4 := amSet e3 "match_history" mh1
  let e5 := amSet e4 "last_updated" (.str now)
  let cur ← amGet e5 "confidence"
  let t1 ← pyScale (mkRat 3 10) newConf
  let t2 ← pyScale (mkRat 7 10) cur
  let conf ← pyAdd t1 t2
  some (amSet e5 "confidence" conf)

/-- EntityRegistry._merge_entity: apply the entity-level merge to the
stored entity and write it back; the identifier indices are not
touched. -/
def merge_entity (reg : Registry) (entity_id : String) (new_data : AttrMap)
    (match_info : Value) (now : String) : Option Registry := do
  let entity ← alGet reg.entities entity_id
  let e6 ← merge_attrs entity new_data match_info now
  some { reg with entities := alSet reg.entities entity_id e6 }

/-- The `phone` identifier read of register_entity:
`entity_data.get('phone') or entity_data.get('phone_number')`. -/
def phoneVal (d : AttrMap) : Value := pyOr (dget d "phone") (dget d "phone_number")

/-- The `wechat` identifier read of register_entity. -/
def wechatVal (d : AttrMap) : Value :=
  pyOr (pyOr (dget d "wechat") (dget d "wechat_id")) (dget d "handle")

/-- The `idcard` identifier read of register_entity. -/
def idcardVal (d : AttrMap) : Value :=
  pyOr (dget d "id_card") (dget d "id_card_number")

/-- The `account` identifier read of register_entity. -/
def accountVal (d : AttrMap) : Value :=
  pyOr (pyOr (dget d "account") (dget d "bank_account")) (dget d "payment_account")

/-- The tier-1 phone probe: some entity id iff the phone field is
truthy and its normalisation is indexed. -/
def phoneHit (reg : Registry) (d : AttrMap) : Option String :=
  if (phoneVal d).truthy then alGet reg.phone_index (normalize_phone (phoneVal d))
  else none

/-- The tier-1 wechat probe. -/
def wechatHit (reg : Registry) (d : AttrMap) : Option String :=
  if (wechatVal d).truthy then alGet reg.wechat_index (normalize_wechat (wechatVal d))
  else none

/-- The tier-1 idcard probe. -/
def idcardHit (reg : Registry) (d : AttrMap) : Option String :=
  if (idcardVal d).truthy then alGet reg.idcard_index (normalize_idcard (idcardVal d))
  else none

/-- The tier-1 account probe. -/
def accountHit (reg : Registry) (d : AttrMap) : Option String :=
  if (accountVal d).truthy then alGet reg.account_index (normalize_account (accountVal d))
  else none

/-- The deterministic tier of register_entity: probe the four indices
in priority order phone, wechat, idcard, account; a hit returns the
matching field, entity id and tier-1 confidence. -/
def tier1 (reg : Registry) (d : AttrMap) : Option (String × String × Rat) :=
  match phoneHit reg d with
  | some id => some ("phone", id, mkRat 1 1)
  | none =>
  match wechatHit reg d with
  | some id => some ("wechat", id, mkRat 1 1)
  | none =>
  match idcardHit reg d with
  | some id => some ("idcard", id, mkRat 95 100)
  | none =>
  match accountHit reg d with
  | some id => some ("account", id, mkRat 9 10)
  | none => none

/-- One candidate comparison of _find_best_name_match: keep the
candidate when its combined score strictly beats the best so far and
clears the adaptive threshold. -/
def bestStep (norm_name : String) (best : Option String × Rat)
    (p : String × String) : Option String × Rat :=
  let score := combinedScore norm_name p.1
  let adaptive := ratSub (mkRat 85 100)
    (if norm_name.length ≤ 3 then mkRat 1 10 else mkRat 0 1)
  if score > best.2 ∧ score ≥ adaptive then (some p.2, score) else best

/-- EntityRegistry._find_best_name_match: fold over the name index
keeping the best combined score that clears the adaptive threshold
(0.85, minus 0.1 when the incoming normalised name has length at most
3). -/
def find_best_name_match (reg : Registry) (norm_name : String) :
    Option String × Rat :=
  if norm_name.isEmpty then (none, 0)
  else reg.name_index.foldl (bestStep norm_name) (none, 0)

/-- One candidate comparison of _find_cross_modal_match: skip entities
without a truthy name or with name similarity below 0.75 or with no
shared secondary identifiers; otherwise keep the best combined
confidence. -/
def crossStep (entity_data : AttrMap) (norm_name : String)
    (best : Option String × Rat) (p : String × AttrMap) : Option String × Rat :=
  let entity := p.2
  let existing_name := dget entity "name"
  if !existing_name.truthy then best
  else
    let name_sim := seqRatio norm_name (normalize_name existing_name)
    if name_sim < mkRat 75 100 then best
    else
      let phonePair := (dget entity_data "phone").truthy && (dget entity "phone").truthy
      let acctPair := (dget entity_data "account").truthy && (dget entity "account").truthy
      let c1 : Nat × Nat :=
        if phonePair then
          (if normalize_phone (dget entity_data "phone")
              = normalize_phone (dget entity "phone") then (1,1) else (0,1))
        else (0,0)
      let c2 : Nat × Nat :=
        if acctPair then
          (if normalize_account (dget entity_data "account")
              = normalize_account (dget entity "account") then (1,1) else (0,1))
        else (0,0)
      let matching := c1.1 + c2.1
      let total := c1.2 + c2.2
      if total = 0 then best
      else
        let secondary := mkRat (matching : Int) total
        let combined := ratAdd (ratMul (mkRat 6 10) name_sim)
          (ratMul (mkRat 4 10) secondary)
        if combined > best.2 then (some p.1, combined) else best

/-- EntityRegistry._find_cross_modal_match: scan all entities with a
truthy name whose name similarity is at least 0.75, score secondary
agreement over phone and account, and keep the best combined
confidence; accept only at 0.75 or above. -/
def find_cross_modal_match (reg : Registry) (entity_data : AttrMap) :
    Option (String × Rat) :=
  let name := dget entity_data "name"
  if !name.truthy then none
  else
    let best := reg.entities.foldl
      (crossStep entity_data (normalize_name name))
      ((none : Option String), (0 : Rat))
    match best with
    | (some id, conf) => if conf ≥ mkRat 75 100 then some (id, conf) else none
    | _ => none

/-- The match-record dict, with the key order of its construction in
register_entity. -/
def mkMatchInfo (level matched conf field strategy : Value) : Value :=
  .dict [("match_level", level), ("matched_entity_id", matched),
    ("confidence", conf), ("matching_field", field), ("strategy", strategy)]

/-- Entity-id rendering `f"ENTITY_{next_id:06d}"`. -/
def entityName (n : Nat) : String :=
  let s := toString n
  "ENTITY_" ++ String.mk (List.replicate (6 - s.length) '0') ++ s

/-- The seeded entity map of the tier-0 path:
`{**entity_data, entity_id, sources, merged_count, confidence,
match_history, created_at, last_updated}`. -/
def seedEntity (d : AttrMap) (id now : String) (info : Value) : AttrMap :=
  let overrides : List (String × Value) :=
    [("entity_id", .str id),
     ("sources", .list [dgetD d "source" (.str "unknown")]),
     ("merged_count", .num 1),
     ("confidence", dgetD d "confidence" (.num 1)),
     ("match_history", .list [info]),
     ("created_at", .str now),
     ("last_updated", .str now)]
  overrides.foldl (fun e kv => amSet e kv.1 kv.2) d

/-- The tier-0 path of register_entity: allocate a fresh id, seed the
entity map `{**entity_data, bookkeeping...}`, index every truthy
normalised identifier, and return the new-entity match record. -/
def create_entity (reg : Registry) (d : AttrMap) (now : String) :
    String × Value × Registry :=
  let phone := phoneVal d
  let name := dget d "name"
  let wechat := wechatVal d
  let idcard := idcardVal d
  let account := accountVal d
  let id := entityName reg.next_id
  let info := mkMatchInfo (.num 0) .none (.num 1) .none (.str "new_entity")
  let entity := seedEntity d id now info
  let reg1 : Registry :=
    { entities := alSet reg.entities id entity
      next_id := reg.next_id + 1
      phone_index :=
        if phone.truthy then alSet reg.phone_index (normalize_phone phone) id
        else reg.phone_index
      name_index :=
        if name.truthy then alSet reg.name_index (normalize_name name) id
        else reg.name_index
      wechat_index :=
        if wechat.truthy then alSet reg.wechat_index (normalize_wechat wechat) id
        else reg.wechat_index
      idcard_index :=
        if idcard.truthy then alSet reg.idcard_index (normalize_idcard idcard) id
        else reg.idcard_index
      account_index :=
        if account.truthy then alSet reg.account_index (normalize_account account) id
        else reg.account_index }
  (id, info, reg1)

/-- EntityRegistry.register_entity: deterministic tier, then semantic
name tier (gated at 0.85), then cross-modal tier (gated at 0.75), then
new-entity creation.  Returns `(entity_id, match_record, state)`;
`none` models an exception escaping a merge. -/
def register_entity (reg : Registry) (d : AttrMap) (now : String) :
    Option (String × Value × Registry) :=
  match tier1 reg d with
  | some (field, id, conf) =>
      let info := mkMatchInfo (.num 1) (.str id) (.num conf) (.str field)
        (.str "deterministic")
      (merge_entity reg id d info now).map (fun r => (id, info, r))
  | none =>
    let name := dget d "name"
    let t2 : Option (String × Rat) :=
      if name.truthy then
        match find_best_name_match reg (normalize_name name) with
        | (some id, score) =>
            if score ≥ mkRat 85 100 then some (id, score) else none
        | _ => none
      else none
    match t2 with
    | some (id, score) =>
        let info := mkMatchInfo (.num 2) (.str id) (.num score) (.str "name")
          (.str "semantic")
        (merge_entity reg id d info now).map (fun r => (id, info, r))
    | none =>
      match find_cross_modal_match reg d with
      | some (id, conf) =>
          if conf ≥ mkRat 75 100 then
            let info := mkMatchInfo (.num 3) (.str id) (.num conf)
              (.str "cross_modal") (.str "cross_modal")
            (merge_entity reg id d info now).map (fun r => (id, info, r))
          else some (create_entity reg d now)
      | none => some (create_entity reg d now)

/-- Projection of a dict value to its entries (used only to inspect
match records in statements). -/
def Value.asDict : Value → AttrMap
  | .dict m => m
  | _ => []

/-- Field read on a match record. -/
def infoGet (info : Value) (k : String) : Value := dget info.asDict k

example : entityName 1 = "ENTITY_000001" := by decide

example :
    (register_entity emptyRegistry [] "T0").map (fun r => r.1)
      = some "ENTITY_000001" := by decide

example :
    (do
      let r1 ← register_entity emptyRegistry [("phone", .str "13800000000"),
        ("name", .str "Zhang San")] "T0"
      let r2 ← register_entity r1.2.2 [("phone", .str "138 0000 0000"),
        ("name", .str "Li Si")] "T1"
      some (r1.1, r2.1, infoGet r2.2.1 "match_level"))
      = some ("ENTITY_000001", "ENTITY_000001", Value.num 1) := by decide

/-- Absolute value of a rational (kernel-reducible). -/
def ratAbs (a : Rat) : Rat := if a.num < 0 then ratNeg a else a

theorem ratAbs_eq (a : Rat) : ratAbs a = |a| := by
  rw [ratAbs]
  split
  · rename_i h
    have ha : a < 0 := by
      by_contra hc
      exact absurd (Rat.num_nonneg.mpr (not_lt.mp hc)) (not_le.mpr h)
    rw [ratNeg_eq, abs_of_neg ha]
  · rename_i h
    have ha : 0 ≤ a := Rat.num_nonneg.mp (not_lt.mp h)
    rw [abs_of_nonneg ha]

/-- Edge object of RelationshipGraph (RelationshipEdge): endpoints as
given at creation, first-assigned relation type, accumulating weight,
earliest-seen timestamp, metadata of the creating call, and a
frequency counter. -/
structure EdgeData where
  source : String
  target : String
  relation_type : String
  weight : Rat
  timestamp : String
  metadata : AttrMap
  frequency : Nat
  deriving Repr, DecidableEq

/-- Graph state of RelationshipGraph.  Mutable edge objects shared
between `edges`, `edge_map`, the adjacency lists and the two
secondary indices are modelled by storing the unordered-pair key
everywhere and keeping the data itself only in `edge_map`. -/
structure RelationshipGraph where
  nodes : List String
  edges : List (String × String)
  adjacency : List (String × List (String × (String × String)))
  edge_map : List ((String × String) × EdgeData)
  relation_type_index : List (String × List (String × String))
  temporal_index : List (String × List (String × String))
  deriving Repr, DecidableEq

/-- The freshly constructed graph (RelationshipGraph.__init__). -/
def graphInit : RelationshipGraph :=
  { nodes := [], edges := [], adjacency := [], edge_map := []
    relation_type_index := [], temporal_index := [] }

/-- RelationshipGraph.add_node: insert the node into the node set and
materialise an empty adjacency list if absent. -/
def addNode (g : RelationshipGraph) (node_id : String) : RelationshipGraph :=
  { g with
    nodes := if node_id ∈ g.nodes then g.nodes else g.nodes ++ [node_id]
    adjacency :=
      if (alGet g.adjacency node_id).isSome then g.adjacency
      else alSet g.adjacency node_id [] }

/-- The unordered-pair edge key: endpoints sorted lexicographically, as
in add_edge. -/
def edgeKey (s t : String) : String × String := if strLe s t then (s, t) else (t, s)

/-- Append an entry to a node's adjacency list. -/
def adjAppend (adj : List (String × List (String × (String × String))))
    (n : String) (entry : String × (String × String)) :
    List (String × List (String × (String × String))) :=
  alSet adj n ((alGet adj n).getD [] ++ [entry])

/-- Append an edge key to a keyed index list (relation-type or
temporal index). -/
def idxAppend (idx : List (String × List (String × String))) (k : String)
    (key : String × String) : List (String × List (String × String)) :=
  alSet idx k ((alGet idx k).getD [] ++ [key])

/-- RelationshipGraph.add_edge.  An existing edge for the unordered
pair accumulates weight and frequency and keeps the earlier truthy
timestamp; a fresh pair creates the edge (timestamp defaulting to
`now`), registers it in both adjacency lists (once for a self-loop)
and in the edge list.  Both branches then append the edge to the
relation-type index and, when a truthy timestamp was passed, to the
temporal index. -/
def addEdge (g0 : RelationshipGraph) (source target relation_type : String)
    (weight : Rat) (timestamp : Option String) (metadata : AttrMap)
    (now : String) : RelationshipGraph :=
  let g := addNode (addNode g0 source) target
  let key := edgeKey source target
  let g1 :=
    match alGet g.edge_map key with
    | some e =>
        let e1 := { e with weight := ratAdd e.weight weight
                           frequency := e.frequency + 1 }
        let e2 :=
          match timestamp with
          | some ts =>
              if !ts.isEmpty && strLt ts e1.timestamp then { e1 with timestamp := ts }
              else e1
          | none => e1
        { g with edge_map := alSet g.edge_map key e2 }
    | none =>
        let e : EdgeData :=
          { source := source, target := target, relation_type := relation_type
            weight := weight
            timestamp :=
              match timestamp with
              | some ts => if ts.isEmpty then now else ts
              | none => now
            metadata := metadata, frequency := 1 }
        let adj1 := adjAppend g.adjacency source (target, key)
        let adj2 := if source ≠ target then adjAppend adj1 target (source, key) else adj1
        { g with
          edges := g.edges ++ [key]
          edge_map := alSet g.edge_map key e
          adjacency := adj2 }
  let g2 := { g1 with
    relation_type_index := idxAppend g1.relation_type_index relation_type key }
  match timestamp with
  | some ts =>
      if !ts.isEmpty then { g2 with temporal_index := idxAppend g2.temporal_index ts key }
      else g2
  | none => g2

/-- RelationshipGraph.get_neighbors: the adjacency entries of a node
with the current weight of the shared edge object. -/
def get_neighbors (g : RelationshipGraph) (node_id : String) : List (String × Rat) :=
  ((alGet g.adjacency node_id).getD []).map
    (fun p => (p.1, ((alGet g.edge_map p.2).map EdgeData.weight).getD 0))

/-- A call against the graph: add_node or add_edge with its arguments
(`now` is the wall-clock reading of the call). -/
inductive GraphOp where
  | node (id : String)
  | edge (source target relation_type : String) (weight : Rat)
      (timestamp : Option String) (metadata : AttrMap) (now : String)

/-- Interpretation of one graph call. -/
def applyOp (g : RelationshipGraph) : GraphOp → RelationshipGraph
  | .node id => addNode g id
  | .edge s t rt w ts md now => addEdge g s t rt w ts md now

/-- Interpretation of a sequence of graph calls. -/
def applyOps (g : RelationshipGraph) (ops : List GraphOp) : RelationshipGraph :=
  ops.foldl applyOp g

/-- The earlier of two timestamps under Python string comparison. -/
def strMin (a b : String) : String := if strLe a b then a else b

/-- Stable insertion of an element into a sorted list: the new element
goes after every earlier element that compares less-or-equal, matching
the tie behaviour of Python's stable sort. -/
def insertStable (le : α → α → Bool) (a : α) : List α → List α
  | [] => [a]
  | b::t => if le b a then b :: insertStable le a t else a::b::t

/-- Stable ascending sort, the model of Python `list.sort`. -/
def pySort (le : α → α → Bool) (l : List α) : List α :=
  l.foldl (fun acc a => insertStable le a acc) []

theorem insertStable_perm (le : α → α → Bool) (a : α) (l : List α) :
    List.Perm (insertStable le a l) (a :: l) := by
  induction l with
  | nil => exact List.Perm.refl _
  | cons b t ih =>
    simp only [insertStable]
    split
    · exact (ih.cons b).trans (List.Perm.swap a b t)
    · exact List.Perm.refl _

theorem pySort_perm (le : α → α → Bool) (l : List α) : List.Perm (pySort le l) l := by
  suffices h : ∀ acc, List.Perm (l.foldl (fun acc a => insertStable le a acc) acc)
      (acc ++ l) by
    simpa [pySort] using h []
  induction l with
  | nil => simp
  | cons a t ih =>
    intro acc
    simp only [List.foldl_cons]
    refine (ih _).trans ?_
    refine ((insertStable_perm le a acc).append_right t).trans ?_
    simpa using (@List.perm_middle _ a acc t).symm

theorem insertStable_sorted (le : α → α → Bool)
    (htot : ∀ a b, le a b = true ∨ le b a = true)
    (htrans : ∀ x y z, le x y = true → le y z = true → le x z = true) (a : α)
    (l : List α) (h : List.Pairwise (fun x y => le x y = true) l) :
    List.Pairwise (fun x y => le x y = true) (insertStable le a l) := by
  induction l with
  | nil => simp [insertStable]
  | cons b t ih =>
    simp only [insertStable]
    rcases List.pairwise_cons.mp h with ⟨hb, ht⟩
    split
    · rename_i hba
      refine List.pairwise_cons.mpr ⟨?_, ih ht⟩
      intro y hy
      rcases List.mem_cons.mp ((insertStable_perm le a t).mem_iff.mp hy) with hy | hy
      · subst hy; exact hba
      · exact hb y hy
    · rename_i hba
      have hab : le a b = true := by
        rcases htot a b with h2 | h2
        · exact h2
        · exact absurd h2 hba
      refine List.pairwise_cons.mpr ⟨?_, h⟩
      intro y hy
      rcases List.mem_cons.mp hy with hy | hy
      · subst hy; exact hab
      · exact htrans a b y hab (hb y hy)

theorem pySort_sorted (le : α → α → Bool)
    (htot : ∀ a b, le a b = true ∨ le b a = true)
    (htrans : ∀ x y z, le x y = true → le y z = true → le x z = true)
    (l : List α) : List.Pairwise (fun x y => le x y = true) (pySort le l) := by
  suffices h : ∀ acc, List.Pairwise (fun x y => le x y = true) acc →
      List.Pairwise (fun x y => le x y = true)
        (l.foldl (fun acc a => insertStable le a acc) acc) by
    simpa [pySort] using h [] (by simp)
  induction l with
  | nil => intro acc hacc; simpa using hacc
  | cons a t ih =>
    intro acc hacc
    simp only [List.foldl_cons]
    exact ih _ (insertStable_sorted le htot htrans a acc hacc)

theorem lexLe_total (a b : List Char) : lexLe a b = true ∨ lexLe b a = true := by
  induction a generalizing b with
  | nil => left; simp [lexLe]
  | cons x xs ih =>
    cases b with
    | nil => right; simp [lexLe]
    | cons y ys =>
      by_cases hxy : x = y
      · subst hxy
        rcases ih ys with h | h
        · left; simpa [lexLe] using h
        · right; simpa [lexLe] using h
      · rcases Nat.lt_or_ge x.toNat y.toNat with h | h
        · left
          simp [lexLe, hxy, charLt]
          omega
        · have hne : y ≠ x := fun hc => hxy hc.symm
          have hlt : y.toNat < x.toNat := by
            rcases Nat.lt_or_ge y.toNat x.toNat with h2 | h2
            · exact h2
            · have hveq : x.val.toNat = y.val.toNat := by
                have hx : x.toNat = x.val.toNat := rfl
                have hy : y.toNat = y.val.toNat := rfl
                omega
              exact absurd (Char.ext (UInt32.ext hveq)).symm hne
          right
          simp [lexLe, hne, charLt]
          omega

theorem lexLe_trans (a b c : List Char) (h1 : lexLe a b = true)
    (h2 : lexLe b c = true) : lexLe a c = true := by
  induction a generalizing b c with
  | nil => simp [lexLe]
  | cons x xs ih =>
    cases b with
    | nil => simp [lexLe] at h1
    | cons y ys =>
      cases c with
      | nil => simp [lexLe] at h2
      | cons z zs =>
        by_cases hxy : x = y
        · subst hxy
          by_cases hyz : x = z
          · subst hyz
            simp only [lexLe, if_pos rfl] at h1 h2 ⊢
            exact ih ys zs h1 h2
          · simp only [lexLe, if_pos rfl] at h1
            simp only [lexLe, if_neg hyz] at h2 ⊢
            exact h2
        · simp only [lexLe, if_neg hxy] at h1
          by_cases hyz : y = z
          · subst hyz
            simp only [lexLe, if_neg hxy] at h1 ⊢
            exact h1
          · simp only [lexLe, if_neg hyz] at h2
            have l1 : x.toNat < y.toNat := by simpa [charLt] using h1
            have l2 : y.toNat < z.toNat := by simpa [charLt] using h2
            have hxz : x ≠ z := by
              intro hc
              subst hc
              omega
            simp only [lexLe, if_neg hxz]
            simp [charLt]
            omega

theorem strLe_total (a b : String) : strLe a b = true ∨ strLe b a = true :=
  lexLe_total a.toList b.toList

theorem strLe_trans (a b c : String) (h1 : strLe a b = true)
    (h2 : strLe b c = true) : strLe a c = true :=
  lexLe_trans a.toList b.toList c.toList h1 h2

/-- The subset of UIDNStatistics.edge_counts affected by
build_relationship_graph. -/
structure FusionStats where
  cooccurrence : Nat
  temporal : Nat
  multimodal : Nat
  deriving Repr, DecidableEq

/-- Truth of the temporal-edge guard of build_relationship_graph for a
pair of entities: both timestamps truthy strings, both parseable, and
the absolute delta in seconds strictly between 0 and 86400. -/
def temporalOK (parse : String → Option Rat) (e1 e2 : AttrMap) : Bool :=
  match dget e1 "timestamp", dget e2 "timestamp" with
  | .str sa, .str sb =>
      !sa.isEmpty && !sb.isEmpty &&
      (match parse sa, parse sb with
       | some t1, some t2 =>
          decide (0 < ratAbs (ratSub t1 t2) ∧ ratAbs (ratSub t1 t2) < mkRat 86400 1)
       | _, _ => false)
  | _, _ => false

/-- The body of build_relationship_graph for one entity pair: the
co-occurrence edge for shared sources, the temporal edge for truthy
parseable timestamps less than a day apart (weight `1/(1+Δh)`,
timestamp the rendering of the earlier instant; parse failures are
caught and skipped), and the fixed-weight multi-modal edge for
differing modalities with truthy match histories.  `none` models an
uncaught exception (missing `entity_id`/`sources`, or a non-list
`sources`). -/
def processPair (parse : String → Option Rat) (render : Rat → String)
    (now : String) (st : RelationshipGraph × FusionStats) (e1 e2 : AttrMap) :
    Option (RelationshipGraph × FusionStats) := do
  let id1V ← amGet e1 "entity_id"
  let id2V ← amGet e2 "entity_id"
  let id1 ← (match id1V with | .str s => some s | _ => .none)
  let id2 ← (match id2V with | .str s => some s | _ => .none)
  let s1 ← amGet e1 "sources"
  let s2 ← amGet e2 "sources"
  let l1 ← (match s1 with | .list l => some l | _ => .none)
  let l2 ← (match s2 with | .list l => some l | _ => .none)
  let common := l1.eraseDups.filter (fun v => v ∈ l2)
  let st1 : RelationshipGraph × FusionStats :=
    if !common.isEmpty then
      (addEdge st.1 id1 id2 "co-occurrence" (mkRat (common.length : Int) 1)
        .none [("common_sources", Value.list common)] now,
       { st.2 with cooccurrence := st.2.cooccurrence + 1 })
    else st
  let ts1 := dget e1 "timestamp"
  let ts2 := dget e2 "timestamp"
  let st2 : RelationshipGraph × FusionStats :=
    if ts1.truthy && ts2.truthy then
      match ts1, ts2 with
      | .str sa, .str sb =>
          match parse sa, parse sb with
          | some t1, some t2 =>
              let diff := ratAbs (ratSub t1 t2)
              if 0 < diff ∧ diff < mkRat 86400 1 then
                (addEdge st1.1 id1 id2 "temporal"
                  (ratDiv (mkRat 1 1) (ratAdd (mkRat 1 1) (ratDiv diff (mkRat 3600 1))))
                  (some (render (if t1 ≤ t2 then t1 else t2))) [] now,
                 { st1.2 with temporal := st1.2.temporal + 1 })
              else st1
          | _, _ => st1
      | _, _ => st1
    else st1
  let mod1 := dget e1 "modality"
  let mod2 := dget e2 "modality"
  if mod1.truthy && mod2.truthy && mod1 ≠ mod2 then
    if (dget e1 "match_history").truthy && (dget e2 "match_history").truthy then
      some (addEdge st2.1 id1 id2 "multi-modal" (mkRat 8 10) .none [] now,
        { st2.2 with multimodal := st2.2.multimodal + 1 })
    else some st2
  else some st2

/-- All ordered pairs `(l[i], l[j])` with `i < j`, in the nested-loop
order of build_relationship_graph. -/
def allPairs : List α → List (α × α)
  | [] => []
  | x :: rest => rest.map (fun y => (x, y)) ++ allPairs rest

/-- UIDN.build_relationship_graph restricted to its graph-building
pass: fold the pair body over all entity pairs. -/
def build_relationship_graph (parse : String → Option Rat)
    (render : Rat → String) (now : String) (entities : List AttrMap)
    (g0 : RelationshipGraph) (st0 : FusionStats) :
    Option (RelationshipGraph × FusionStats) :=
  (allPairs entities).foldlM (fun st p => processPair parse render now st p.1 p.2)
    (g0, st0)

/-- One timeline entry of UIDN.generate_timeline. -/
structure TimelineEvent where
  timestamp : Value
  entity_id : Value
  entity_name : Value
  event_type : String
  modality : Value
  source : Value
  confidence : Value
  details : AttrMap
  deriving Repr, DecidableEq

/-- The sort key `x['timestamp'] or ''` of generate_timeline,
restricted to string timestamps. -/
def eventKey (ev : TimelineEvent) : String :=
  match ev.timestamp with
  | .str s => s
  | _ => ""

/-- Whether an entity passes the generate_timeline filter: confidence
(default 1.0) at least the threshold, and a truthy timestamp. -/
def timelineEligible (minConf : Rat) (e : AttrMap) : Bool :=
  match dgetD e "confidence" (.num 1) with
  | .num q => decide (minConf ≤ q) && (dget e "timestamp").truthy
  | _ => false

/-- The event built from an entity by generate_timeline. -/
def mkEvent (e : AttrMap) : TimelineEvent :=
  { timestamp := dget e "timestamp"
    entity_id := dget e "entity_id"
    entity_name := dgetD e "name" (.str "unknown")
    event_type := "entity_activity"
    modality := dget e "modality"
    source := dget e "source"
    confidence := dgetD e "confidence" (.num 1)
    details := e }

/-- UIDN.generate_timeline: one event per entity with confidence at
least `min_confidence` and a truthy timestamp, sorted ascending by
timestamp.  `none` models a `TypeError` from a non-numeric confidence
or from sorting non-string timestamp keys. -/
def generate_timeline (reg : Registry) (min_confidence : Rat) :
    Option (List TimelineEvent) := do
  let events ← reg.entities.foldlM
    (fun acc p => do
      let e := p.2
      let conf ← (match dgetD e "confidence" (.num 1) with
        | .num q => some q
        | _ => (.none : Option Rat))
      if min_confidence ≤ conf then
        if (dget e "timestamp").truthy then some (acc ++ [mkEvent e])
        else some acc
      else some acc)
    ([] : List TimelineEvent)
  if events.all (fun ev => match ev.timestamp with | .str _ => true | _ => false) then
    some (pySort (fun a b => strLe (eventKey a) (eventKey b)) events)
  else .none

example :
    (generate_timeline
      { emptyRegistry with entities :=
          [("E1", [("timestamp", .str "2024-02-01"), ("confidence", .num (mkRat 9 10))]),
           ("E2", [("timestamp", .str "2024-01-01")]),
           ("E3", [("timestamp", .str "2024-03-01"), ("confidence", .num (mkRat 2 10))])] }
      (mkRat 5 10)).map (fun l => l.map eventKey)
    = some ["2024-01-01", "2024-02-01"] := by decide

theorem alGet_alSet_self {κ α : Type} [DecidableEq κ] (m : List (κ × α)) (k : κ) (v : α) :
    alGet (alSet m k v) k = some v := by
  induction m with
  | nil => simp [alGet, alSet]
  | cons p t ih =>
    obtain ⟨k1, v1⟩ := p
    by_cases h : k1 = k
    · subst h; simp [alGet, alSet]
    · simp only [alSet, if_neg h, alGet]
      exact ih

theorem alGet_alSet_ne {κ α : Type} [DecidableEq κ] (m : List (κ × α)) (k k1 : κ) (v : α)
    (h : k1 ≠ k) : alGet (alSet m k v) k1 = alGet m k1 := by
  induction m with
  | nil =>
    simp only [alSet, alGet]
    rw [if_neg (fun hc => h hc.symm)]
  | cons p t ih =>
    obtain ⟨k2, v2⟩ := p
    by_cases h2 : k2 = k
    · subst h2
      simp only [alSet, if_pos rfl, alGet]
      rw [if_neg (fun hc => h hc.symm), if_neg (fun hc => h hc.symm)]
    · simp only [alSet, if_neg h2, alGet]
      split
      · rfl
      · exact ih

theorem amGet_amSet_self (m : AttrMap) (k : String) (v : Value) :
    amGet (amSet m k v) k = some v := alGet_alSet_self m k v

theorem amGet_amSet_ne (m : AttrMap) (k k1 : String) (v : Value) (h : k1 ≠ k) :
    amGet (amSet m k v) k1 = amGet m k1 := alGet_alSet_ne m k k1 v h

theorem tier1_phone (reg : Registry) (d : AttrMap) (id : String)
    (h : phoneHit reg d = some id) : tier1 reg d = some ("phone", id, mkRat 1 1) := by
  simp [tier1, h]

theorem tier1_wechat (reg : Registry) (d : AttrMap) (id : String)
    (hp : phoneHit reg d = .none) (h : wechatHit reg d = some id) :
    tier1 reg d = some ("wechat", id, mkRat 1 1) := by
  simp [tier1, hp, h]

theorem tier1_idcard (reg : Registry) (d : AttrMap) (id : String)
    (hp : phoneHit reg d = .none) (hw : wechatHit reg d = .none)
    (h : idcardHit reg d = some id) :
    tier1 reg d = some ("idcard", id, mkRat 95 100) := by
  simp [tier1, hp, hw, h]

theorem tier1_account (reg : Registry) (d : AttrMap) (id : String)
    (hp : phoneHit reg d = .none) (hw : wechatHit reg d = .none)
    (hi : idcardHit reg d = .none) (h : accountHit reg d = some id) :
    tier1 reg d = some ("account", id, mkRat 9 10) := by
  simp [tier1, hp, hw, hi, h]

theorem register_tier1 (reg : Registry) (d : AttrMap) (now f id : String) (c : Rat)
    (h : tier1 reg d = some (f, id, c)) :
    register_entity reg d now =
      (merge_entity reg id d
        (mkMatchInfo (.num 1) (.str id) (.num c) (.str f) (.str "deterministic")) now).map
        (fun r => (id,
          mkMatchInfo (.num 1) (.str id) (.num c) (.str f) (.str "deterministic"), r)) := by
  simp [register_entity, h]

/-- Any deterministic hit leads either to an exception or to the
indexed entity id with the tier-1 record fields. -/
theorem register_det_conclusion (reg : Registry) (d : AttrMap) (now f id : String)
    (c : Rat) (r : String × Value × Registry)
    (h : tier1 reg d = some (f, id, c))
    (hr : register_entity reg d now = some r) :
    r.1 = id ∧ infoGet r.2.1 "match_level" = .num 1 ∧
      infoGet r.2.1 "confidence" = .num c ∧
      infoGet r.2.1 "matching_field" = .str f ∧
      infoGet r.2.1 "strategy" = .str "deterministic" := by
  rw [register_tier1 reg d now f id c h] at hr
  rcases Option.map_eq_some'.mp hr with ⟨reg1, hm, hr1⟩
  subst hr1
  refine ⟨rfl, ?_, ?_, ?_, ?_⟩ <;>
    simp [infoGet, mkMatchInfo, Value.asDict, dget, amGet, alGet]

theorem find_best_name_match_nil (reg : Registry) (nn : String)
    (h : reg.name_index = []) : find_best_name_match reg nn = (.none, 0) := by
  rw [find_best_name_match, h]
  split <;> simp

theorem find_cross_modal_match_nil (reg : Registry) (d : AttrMap)
    (h : reg.entities = []) : find_cross_modal_match reg d = .none := by
  rw [find_cross_modal_match, h]
  split
  · rfl
  · simp

/-- Registration that misses every tier falls through to new-entity
creation. -/
theorem register_all_miss (reg : Registry) (d : AttrMap) (now : String)
    (h1 : tier1 reg d = .none)
    (h2 : find_best_name_match reg (normalize_name (dget d "name")) = (.none, 0))
    (h3 : find_cross_modal_match reg d = .none) :
    register_entity reg d now = some (create_entity reg d now) := by
  rw [register_entity, h1]
  simp [h2, h3]

/-- Registration against the fresh registry always creates the first
entity. -/
theorem register_emptyRegistry (d : AttrMap) (now : String) :
    register_entity emptyRegistry d now = some (create_entity emptyRegistry d now) := by
  refine register_all_miss emptyRegistry d now ?_ ?_ ?_
  · simp [tier1, phoneHit, wechatHit, idcardHit, accountHit, emptyRegistry, alGet]
  · exact find_best_name_match_nil _ _ rfl
  · exact find_cross_modal_match_nil _ _ rfl

theorem create_entity_id (reg : Registry) (d : AttrMap) (now : String) :
    (create_entity reg d now).1 = entityName reg.next_id := rfl

theorem create_entity_phone_index (reg : Registry) (d : AttrMap) (now : String)
    (h : (phoneVal d).truthy = true) :
    (create_entity reg d now).2.2.phone_index =
      alSet reg.phone_index (normalize_phone (phoneVal d)) (entityName reg.next_id) := by
  simp [create_entity, h]

/-- C1: two bundles with equal normalised phone numbers resolve to the
same entity id through a tier-1 deterministic phone match regardless of
their names, and the deterministic indices are probed in the priority
order phone, wechat, idcard, account with hit confidences 1.0, 1.0,
0.95 and 0.9. -/
theorem C1_deterministic_tier :
    (∀ (reg : Registry) (d : AttrMap) (now id : String) (r : String × Value × Registry),
        phoneHit reg d = some id → register_entity reg d now = some r →
        r.1 = id ∧ infoGet r.2.1 "match_level" = .num 1 ∧
          infoGet r.2.1 "confidence" = .num 1 ∧
          infoGet r.2.1 "matching_field" = .str "phone" ∧
          infoGet r.2.1 "strategy" = .str "deterministic")
    ∧ (∀ (reg : Registry) (d : AttrMap) (now id : String) (r : String × Value × Registry),
        phoneHit reg d = .none → wechatHit reg d = some id →
        register_entity reg d now = some r →
        r.1 = id ∧ infoGet r.2.1 "match_level" = .num 1 ∧
          infoGet r.2.1 "confidence" = .num 1 ∧
          infoGet r.2.1 "matching_field" = .str "wechat" ∧
          infoGet r.2.1 "strategy" = .str "deterministic")
    ∧ (∀ (reg : Registry) (d : AttrMap) (now id : String) (r : String × Value × Registry),
        phoneHit reg d = .none → wechatHit reg d = .none →
        idcardHit reg d = some id → register_entity reg d now = some r →
        r.1 = id ∧ infoGet r.2.1 "match_level" = .num 1 ∧
          infoGet r.2.1 "confidence" = .num (mkRat 95 100) ∧
          infoGet r.2.1 "matching_field" = .str "idcard" ∧
          infoGet r.2.1 "strategy" = .str "deterministic")
    ∧ (∀ (reg : Registry) (d : AttrMap) (now id : String) (r : String × Value × Registry),
        phoneHit reg d = .none → wechatHit reg d = .none → idcardHit reg d = .none →
        accountHit reg d = some id → register_entity reg d now = some r →
        r.1 = id ∧ infoGet r.2.1 "match_level" = .num 1 ∧
          infoGet r.2.1 "confidence" = .num (mkRat 9 10) ∧
          infoGet r.2.1 "matching_field" = .str "account" ∧
          infoGet r.2.1 "strategy" = .str "deterministic")
    ∧ (∀ (d1 d2 : AttrMap) (now1 now2 : String),
        (phoneVal d1).truthy = true → (phoneVal d2).truthy = true →
        normalize_phone (phoneVal d1) = normalize_phone (phoneVal d2) →
        ∃ id1 i1 st1, register_entity emptyRegistry d1 now1 = some (id1, i1, st1) ∧
          ∀ r2 : String × Value × Registry, register_entity st1 d2 now2 = some r2 →
            r2.1 = id1 ∧ infoGet r2.2.1 "match_level" = .num 1 ∧
              infoGet r2.2.1 "confidence" = .num 1 ∧
              infoGet r2.2.1 "matching_field" = .str "phone") := by
  have h11 : Value.num (mkRat 1 1) = Value.num 1 := by decide
  refine ⟨?_, ?_, ?_, ?_, ?_⟩
  · intro reg d now id r h hr
    have hc := register_det_conclusion reg d now "phone" id (mkRat 1 1) r
      (tier1_phone reg d id h) hr
    exact ⟨hc.1, hc.2.1, by rw [← h11]; exact hc.2.2.1, hc.2.2.2.1, hc.2.2.2.2⟩
  · intro reg d now id r hp h hr
    have hc := register_det_conclusion reg d now "wechat" id (mkRat 1 1) r
      (tier1_wechat reg d id hp h) hr
    exact ⟨hc.1, hc.2.1, by rw [← h11]; exact hc.2.2.1, hc.2.2.2.1, hc.2.2.2.2⟩
  · intro reg d now id r hp hw h hr
    exact register_det_conclusion reg d now "idcard" id (mkRat 95 100) r
      (tier1_idcard reg d id hp hw h) hr
  · intro reg d now id r hp hw hi h hr
    exact register_det_conclusion reg d now "account" id (mkRat 9 10) r
      (tier1_account reg d id hp hw hi h) hr
  · intro d1 d2 now1 now2 h1 h2 heq
    refine ⟨(create_entity emptyRegistry d1 now1).1,
      (create_entity emptyRegistry d1 now1).2.1,
      (create_entity emptyRegistry d1 now1).2.2, ?_, ?_⟩
    · rw [register_emptyRegistry]
    · intro r2 hr2
      have hhit : phoneHit (create_entity emptyRegistry d1 now1).2.2 d2 =
          some (create_entity emptyRegistry d1 now1).1 := by
        rw [phoneHit, if_pos h2]
        rw [create_entity_phone_index emptyRegistry d1 now1 h1, ← heq,
          create_entity_id]
        exact alGet_alSet_self _ _ _
      have hc := register_det_conclusion _ d2 now2 "phone" _ (mkRat 1 1) r2
        (tier1_phone _ d2 _ hhit) hr2
      exact ⟨hc.1, hc.2.1, by rw [← h11]; exact hc.2.2.1, hc.2.2.2.1⟩

/-- Concrete instantiation of C1: both deterministic-path branches and
the two-bundle phone scenario evaluated on explicit inputs. -/
theorem C1_deterministic_tier_witness :
    ∃ r2 : String × Value × Registry,
      register_entity (create_entity emptyRegistry
          [("phone", .str "13800000000"), ("name", .str "Zhang San")] "T0").2.2
        [("phone", .str "138-0000-0000"), ("name", .str "Wang Wu")] "T1" = some r2 ∧
      r2.1 = "ENTITY_000001" ∧ infoGet r2.2.1 "match_level" = .num 1 ∧
        infoGet r2.2.1 "confidence" = .num 1 ∧
        infoGet r2.2.1 "matching_field" = .str "phone" := by
  obtain ⟨id1, i1, st1, hreg, hcc⟩ :=
    C1_deterministic_tier.2.2.2.2
      [("phone", .str "13800000000"), ("name", .str "Zhang San")]
      [("phone", .str "138-0000-0000"), ("name", .str "Wang Wu")] "T0" "T1"
      (by decide) (by decide) (by decide)
  have hid : id1 = "ENTITY_000001" := by
    have : register_entity emptyRegistry
        [("phone", .str "13800000000"), ("name", .str "Zhang San")] "T0"
        = some (id1, i1, st1) := hreg
    rw [register_emptyRegistry] at this
    have h1 := congrArg (fun o => (Option.map (fun r : String × Value × Registry => r.1) o)) this
    simpa [create_entity_id] using h1.symm
  have hst : st1 = (create_entity emptyRegistry
      [("phone", .str "13800000000"), ("name", .str "Zhang San")] "T0").2.2 := by
    rw [register_emptyRegistry] at hreg
    have h1 := congrArg (fun o => (Option.map
      (fun r : String × Value × Registry => r.2.2) o)) hreg
    simpa using h1.symm
  subst hst
  obtain ⟨r2, hr2⟩ : ∃ r2, register_entity (create_entity emptyRegistry
      [("phone", .str "13800000000"), ("name", .str "Zhang San")] "T0").2.2
      [("phone", .str "138-0000-0000"), ("name", .str "Wang Wu")] "T1" = some r2 :=
    Option.isSome_iff_exists.mp (by decide)
  have := hcc r2 hr2
  exact ⟨r2, hr2, by rw [← hid]; exact this.1, this.2.1, this.2.2.1, this.2.2.2⟩

theorem merge_entity_shape (reg : Registry) (id : String) (d : AttrMap)
    (info : Value) (now : String) (reg1 : Registry)
    (h : merge_entity reg id d info now = some reg1) :
    ∃ e, reg1 = { reg with entities := alSet reg.entities id e } := by
  rw [merge_entity] at h
  rcases hx : alGet reg.entities id with _ | ent
  · rw [hx] at h; simp at h
  · rw [hx] at h
    simp only [Option.bind_eq_bind, Option.some_bind] at h
    rcases hm : merge_attrs ent d info now with _ | e6
    · rw [hm] at h; simp at h
    · rw [hm] at h
      simp only [Option.some_bind, Option.some.injEq] at h
      exact ⟨e6, h.symm⟩

theorem register_indices_dichotomy (reg : Registry) (d : AttrMap) (now : String)
    (r : String × Value × Registry) (h : register_entity reg d now = some r) :
    (infoGet r.2.1 "match_level" = .num 0 ∧ r = create_entity reg d now)
    ∨ (r.2.2.phone_index = reg.phone_index ∧ r.2.2.name_index = reg.name_index ∧
       r.2.2.wechat_index = reg.wechat_index ∧ r.2.2.idcard_index = reg.idcard_index ∧
       r.2.2.account_index = reg.account_index) := by
  rw [register_entity] at h
  cases ht : tier1 reg d with
  | some fic =>
    obtain ⟨f, id, c⟩ := fic
    rw [ht] at h
    simp only [Option.map_eq_some'] at h
    obtain ⟨reg1, hm, hr⟩ := h
    obtain ⟨e, he⟩ := merge_entity_shape reg id d _ now reg1 hm
    right
    rw [← hr, he]
    exact ⟨rfl, rfl, rfl, rfl, rfl⟩
  | none =>
    rw [ht] at h
    simp only at h
    rcases hb : (if (dget d "name").truthy = true then
        match find_best_name_match reg (normalize_name (dget d "name")) with
        | (some id, score) => if mkRat 85 100 ≤ score then some (id, score) else .none
        | _ => .none
      else (.none : Option (String × Rat))) with _ | p
    · rw [hb] at h
      dsimp only at h
      cases hc : find_cross_modal_match reg d with
      | some ic =>
        obtain ⟨id, conf⟩ := ic
        rw [hc] at h
        dsimp only at h
        by_cases hcc : mkRat 75 100 ≤ conf
        · rw [if_pos hcc] at h
          simp only [Option.map_eq_some'] at h
          obtain ⟨reg1, hm, hr⟩ := h
          obtain ⟨e, he⟩ := merge_entity_shape reg id d _ now reg1 hm
          right
          rw [← hr, he]
          exact ⟨rfl, rfl, rfl, rfl, rfl⟩
        · rw [if_neg hcc] at h
          left
          obtain rfl := (Option.some.injEq _ _).mp h.symm
          exact ⟨by simp [create_entity, infoGet, mkMatchInfo, Value.asDict, dget,
            amGet, alGet], rfl⟩
      | none =>
        rw [hc] at h
        dsimp only at h
        left
        obtain rfl := (Option.some.injEq _ _).mp h.symm
        exact ⟨by simp [create_entity, infoGet, mkMatchInfo, Value.asDict, dget,
          amGet, alGet], rfl⟩
    · obtain ⟨id, score⟩ := p
      rw [hb] at h
      dsimp only at h
      simp only [Option.map_eq_some'] at h
      obtain ⟨reg1, hm, hr⟩ := h
      obtain ⟨e, he⟩ := merge_entity_shape reg id d _ now reg1 hm
      right
      rw [← hr, he]
      exact ⟨rfl, rfl, rfl, rfl, rfl⟩

theorem find_cross_modal_no_name (reg : Registry) (d : AttrMap)
    (h : (dget d "name").truthy = false) : find_cross_modal_match reg d = .none := by
  simp [find_cross_modal_match, h]

theorem register_no_name_all_miss (reg : Registry) (d : AttrMap) (now : String)
    (h1 : tier1 reg d = .none) (hn : (dget d "name").truthy = false)
    (h3 : find_cross_modal_match reg d = .none) :
    register_entity reg d now = some (create_entity reg d now) := by
  rw [register_entity, h1]
  simp [hn, h3]

/-- C10: the identifier indices are written only when a new entity is
created at tier 0: a merging registration (match level other than 0)
leaves all five indices unchanged, so a later bundle whose only
identifier is a phone number that was never indexed misses every
deterministic probe and is created as a distinct new entity. -/
theorem C10_indices_only_on_create :
    (∀ (reg : Registry) (d : AttrMap) (now : String) (r : String × Value × Registry),
        register_entity reg d now = some r →
        infoGet r.2.1 "match_level" ≠ .num 0 →
        r.2.2.phone_index = reg.phone_index ∧ r.2.2.name_index = reg.name_index ∧
          r.2.2.wechat_index = reg.wechat_index ∧
          r.2.2.idcard_index = reg.idcard_index ∧
          r.2.2.account_index = reg.account_index)
    ∧ (∀ (reg : Registry) (d : AttrMap) (now : String) (r : String × Value × Registry),
        register_entity reg d now = some r →
        infoGet r.2.1 "match_level" ≠ .num 0 →
        ∀ (d2 : AttrMap) (now2 : String),
          (phoneVal d2).truthy = true →
          alGet reg.phone_index (normalize_phone (phoneVal d2)) = .none →
          (wechatVal d2).truthy = false → (idcardVal d2).truthy = false →
          (accountVal d2).truthy = false → (dget d2 "name").truthy = false →
          register_entity r.2.2 d2 now2 = some (create_entity r.2.2 d2 now2) ∧
            infoGet (create_entity r.2.2 d2 now2).2.1 "match_level" = .num 0 ∧
            infoGet (create_entity r.2.2 d2 now2).2.1 "strategy" = .str "new_entity") := by
  have hmain : ∀ (reg : Registry) (d : AttrMap) (now : String)
      (r : String × Value × Registry),
      register_entity reg d now = some r →
      infoGet r.2.1 "match_level" ≠ .num 0 →
      r.2.2.phone_index = reg.phone_index ∧ r.2.2.name_index = reg.name_index ∧
        r.2.2.wechat_index = reg.wechat_index ∧
        r.2.2.idcard_index = reg.idcard_index ∧
        r.2.2.account_index = reg.account_index := by
    intro reg d now r h hne
    rcases register_indices_dichotomy reg d now r h with ⟨h0, _⟩ | hind
    · exact absurd h0 hne
    · exact hind
  refine ⟨hmain, ?_⟩
  intro reg d now r h hne d2 now2 hp2 hmiss hw2 hi2 ha2 hn2
  obtain ⟨hpi, hni, hwi, hii, hai⟩ := hmain reg d now r h hne
  have ht1 : tier1 r.2.2 d2 = .none := by
    have hph : phoneHit r.2.2 d2 = .none := by
      rw [phoneHit, if_pos hp2, hpi, hmiss]
    have hwh : wechatHit r.2.2 d2 = .none := by
      rw [wechatHit, hw2]
      simp
    have hih : idcardHit r.2.2 d2 = .none := by
      rw [idcardHit, hi2]
      simp
    have hah : accountHit r.2.2 d2 = .none := by
      rw [accountHit, ha2]
      simp
    simp [tier1, hph, hwh, hih, hah]
  refine ⟨register_no_name_all_miss r.2.2 d2 now2 ht1 hn2
    (find_cross_modal_no_name r.2.2 d2 hn2), ?_, ?_⟩ <;>
    simp [create_entity, infoGet, mkMatchInfo, Value.asDict, dget, amGet, alGet]

/-- Concrete instantiation of C10: a bundle carrying a known wechat and
a fresh phone merges at tier 1 without indexing the phone, and a later
phone-only bundle becomes a distinct new entity. -/
theorem C10_indices_only_on_create_witness :
    ∃ r : String × Value × Registry,
      register_entity (create_entity emptyRegistry [("wechat", .str "w1")] "T0").2.2
        [("wechat", .str "w1"), ("phone", .str "139")] "T1" = some r ∧
      infoGet r.2.1 "match_level" ≠ .num 0 ∧
      r.2.2.phone_index = (create_entity emptyRegistry
        [("wechat", .str "w1")] "T0").2.2.phone_index ∧
      register_entity r.2.2 [("phone", .str "139")] "T2"
        = some (create_entity r.2.2 [("phone", .str "139")] "T2") ∧
      infoGet (create_entity r.2.2 [("phone", .str "139")] "T2").2.1 "match_level"
        = .num 0 := by
  obtain ⟨r, hr⟩ : ∃ r, register_entity (create_entity emptyRegistry
      [("wechat", .str "w1")] "T0").2.2
      [("wechat", .str "w1"), ("phone", .str "139")] "T1" = some r :=
    Option.isSome_iff_exists.mp (by decide)
  have hne : infoGet r.2.1 "match_level" ≠ .num 0 := by
    have hlvl : (register_entity (create_entity emptyRegistry
        [("wechat", .str "w1")] "T0").2.2
        [("wechat", .str "w1"), ("phone", .str "139")] "T1").map
          (fun x => infoGet x.2.1 "match_level") = some (.num 1) := by decide
    rw [hr] at hlvl
    simp only [Option.map_some', Option.some.injEq] at hlvl
    rw [hlvl]
    decide
  have hmain := (C10_indices_only_on_create.1) _ _ "T1" r hr hne
  have hcons := (C10_indices_only_on_create.2) _ _ "T1" r hr hne
    [("phone", .str "139")] "T2" (by decide) ?_ (by decide) (by decide) (by decide)
    (by decide)
  · exact ⟨r, hr, hne, hmain.1, hcons.1, hcons.2.1⟩
  · decide

theorem infoGet_level (a b c f g : Value) :
    infoGet (mkMatchInfo a b c f g) "match_level" = a := by
  simp [infoGet, mkMatchInfo, Value.asDict, dget, amGet, alGet]

theorem infoGet_matched (a b c f g : Value) :
    infoGet (mkMatchInfo a b c f g) "matched_entity_id" = b := by
  simp [infoGet, mkMatchInfo, Value.asDict, dget, amGet, alGet]

theorem infoGet_conf (a b c f g : Value) :
    infoGet (mkMatchInfo a b c f g) "confidence" = c := by
  simp [infoGet, mkMatchInfo, Value.asDict, dget, amGet, alGet]

theorem infoGet_field (a b c f g : Value) :
    infoGet (mkMatchInfo a b c f g) "matching_field" = f := by
  simp [infoGet, mkMatchInfo, Value.asDict, dget, amGet, alGet]

theorem infoGet_strategy (a b c f g : Value) :
    infoGet (mkMatchInfo a b c f g) "strategy" = g := by
  simp [infoGet, mkMatchInfo, Value.asDict, dget, amGet, alGet]

/-- C2 counterexample: against a registry holding only the name
"abcd", the incoming 3-character name "abc" scores 45/56, which clears
the relaxed 0.75 threshold for short names but not 0.85 — and
register_entity does NOT match it at tier 2: it creates a second
entity.  The claim requires a short-name pair scoring at or above 0.75
to match. -/
theorem C2_threshold_counterexample :
    (normalize_name (.str "abc")).length ≤ 3 ∧
    find_best_name_match
        (create_entity emptyRegistry [("name", .str "abcd")] "T0").2.2
        (normalize_name (.str "abc"))
      = (some "ENTITY_000001", mkRat 45 56) ∧
    mkRat 75 100 ≤ mkRat 45 56 ∧ mkRat 45 56 < mkRat 85 100 ∧
    register_entity emptyRegistry [("name", .str "abcd")] "T0"
      = some (create_entity emptyRegistry [("name", .str "abcd")] "T0") ∧
    (register_entity (create_entity emptyRegistry [("name", .str "abcd")] "T0").2.2
        [("name", .str "abc")] "T1").map
        (fun r => (r.1, infoGet r.2.1 "match_level"))
      = some ("ENTITY_000002", .num 0) := by
  refine ⟨by decide, by decide, by decide, by decide, register_emptyRegistry _ _, by decide⟩

/-- C2 amended: register_entity accepts a tier-2 semantic match exactly
when the best combined score reaches 0.85, regardless of name length;
the relaxed 0.75 threshold only filters which candidate
_find_best_name_match may return and never lowers the acceptance
gate. -/
theorem C2_semantic_gate (reg : Registry) (d : AttrMap) (now : String)
    (r : String × Value × Registry)
    (ht1 : tier1 reg d = .none) (hn : (dget d "name").truthy = true)
    (hr : register_entity reg d now = some r) :
    ((infoGet r.2.1 "match_level" = .num 2) ↔
      (∃ id, (find_best_name_match reg (normalize_name (dget d "name"))).1 = some id
        ∧ mkRat 85 100 ≤ (find_best_name_match reg (normalize_name (dget d "name"))).2))
    ∧ (∀ id, (find_best_name_match reg (normalize_name (dget d "name"))).1 = some id →
        mkRat 85 100 ≤ (find_best_name_match reg (normalize_name (dget d "name"))).2 →
        r.1 = id ∧
        infoGet r.2.1 "confidence"
          = .num (find_best_name_match reg (normalize_name (dget d "name"))).2 ∧
        infoGet r.2.1 "matching_field" = .str "name" ∧
        infoGet r.2.1 "strategy" = .str "semantic") := by
  rw [register_entity, ht1] at hr
  dsimp only [ge_iff_le] at hr
  rw [hn] at hr
  rcases hfb : find_best_name_match reg (normalize_name (dget d "name")) with ⟨optId, score⟩
  rw [hfb] at hr
  simp only [if_true] at hr
  cases optId with
  | some id =>
    dsimp only [ge_iff_le] at hr
    by_cases hsc : mkRat 85 100 ≤ score
    · rw [if_pos hsc] at hr
      simp only [Option.map_eq_some'] at hr
      obtain ⟨reg1, hm, hreq⟩ := hr
      subst hreq
      constructor
      · simp only [infoGet_level]
        constructor
        · intro _; exact ⟨id, rfl, hsc⟩
        · intro _; trivial
      · intro id2 hid2 _
        simp only [Option.some.injEq] at hid2
        subst hid2
        exact ⟨rfl, by simp [infoGet_conf], by simp [infoGet_field],
          by simp [infoGet_strategy]⟩
    · rw [if_neg hsc] at hr
      dsimp only [ge_iff_le] at hr
      have hlvl : infoGet r.2.1 "match_level" ≠ Value.num 2 := by
        cases hc : find_cross_modal_match reg d with
        | some ic =>
          obtain ⟨cid, conf⟩ := ic
          rw [hc] at hr
          dsimp only [ge_iff_le] at hr
          by_cases hcc : mkRat 75 100 ≤ conf
          · rw [if_pos hcc] at hr
            simp only [Option.map_eq_some'] at hr
            obtain ⟨reg1, hm, hreq⟩ := hr
            subst hreq
            simp [infoGet_level]
          · rw [if_neg hcc] at hr
            obtain rfl := (Option.some.injEq _ _).mp hr.symm
            simp [create_entity, infoGet_level]
        | none =>
          rw [hc] at hr
          dsimp only [ge_iff_le] at hr
          obtain rfl := (Option.some.injEq _ _).mp hr.symm
          simp [create_entity, infoGet_level]
      constructor
      · constructor
        · intro h2; exact absurd h2 hlvl
        · rintro ⟨id2, hid2, hsc2⟩
          simp only [Option.some.injEq] at hid2
          exact absurd hsc2 hsc
      · intro id2 hid2 hsc2
        simp only [Option.some.injEq] at hid2
        exact absurd hsc2 hsc
  | none =>
    dsimp only [ge_iff_le] at hr
    have hlvl : infoGet r.2.1 "match_level" ≠ Value.num 2 := by
      cases hc : find_cross_modal_match reg d with
      | some ic =>
        obtain ⟨cid, conf⟩ := ic
        rw [hc] at hr
        dsimp only [ge_iff_le] at hr
        by_cases hcc : mkRat 75 100 ≤ conf
        · rw [if_pos hcc] at hr
          simp only [Option.map_eq_some'] at hr
          obtain ⟨reg1, hm, hreq⟩ := hr
          subst hreq
          simp [infoGet_level]
        · rw [if_neg hcc] at hr
          obtain rfl := (Option.some.injEq _ _).mp hr.symm
          simp [create_entity, infoGet_level]
      | none =>
        rw [hc] at hr
        dsimp only [ge_iff_le] at hr
        obtain rfl := (Option.some.injEq _ _).mp hr.symm
        simp [create_entity, infoGet_level]
    refine ⟨⟨fun h2 => absurd h2 hlvl, ?_⟩, ?_⟩
    · rintro ⟨id2, hid2, _⟩
      simp at hid2
    · intro id2 hid2 _
      simp at hid2

/-- Concrete instantiation of C2 amended: an exact name repetition
scores 1.0 at or above the gate and merges at tier 2. -/
theorem C2_semantic_gate_witness :
    ∃ r : String × Value × Registry,
      register_entity (create_entity emptyRegistry [("name", .str "bob")] "T0").2.2
        [("name", .str "bob")] "T1" = some r ∧
      (infoGet r.2.1 "match_level" = .num 2 ↔
        (∃ id, (find_best_name_match
            (create_entity emptyRegistry [("name", .str "bob")] "T0").2.2
            (normalize_name (dget [("name", .str "bob")] "name"))).1 = some id
          ∧ mkRat 85 100 ≤ (find_best_name_match
            (create_entity emptyRegistry [("name", .str "bob")] "T0").2.2
            (normalize_name (dget [("name", .str "bob")] "name"))).2)) ∧
      infoGet r.2.1 "match_level" = .num 2 := by
  obtain ⟨r, hr⟩ : ∃ r, register_entity (create_entity emptyRegistry
      [("name", .str "bob")] "T0").2.2 [("name", .str "bob")] "T1" = some r :=
    Option.isSome_iff_exists.mp (by decide)
  have hiff := C2_semantic_gate _ _ "T1" r (by decide) (by decide) hr
  have hlvl : infoGet r.2.1 "match_level" = .num 2 := by
    have h2 : (register_entity (create_entity emptyRegistry
        [("name", .str "bob")] "T0").2.2 [("name", .str "bob")] "T1").map
        (fun x => infoGet x.2.1 "match_level") = some (.num 2) := by decide
    rw [hr] at h2
    simpa using h2
  exact ⟨r, hr, hiff.1, hlvl⟩

theorem alGet_mem {κ α : Type} [DecidableEq κ] (m : List (κ × α)) (k : κ) (v : α)
    (h : alGet m k = some v) : (k, v) ∈ m := by
  induction m with
  | nil => simp [alGet] at h
  | cons p t ih =>
    obtain ⟨k1, v1⟩ := p
    rw [alGet] at h
    by_cases hk : k1 = k
    · rw [if_pos hk] at h
      obtain rfl := (Option.some.injEq _ _).mp h
      subst hk
      exact List.mem_cons_self _ _
    · rw [if_neg hk] at h
      exact List.mem_cons_of_mem _ (ih h)

theorem mem_alGet_isSome {κ α : Type} [DecidableEq κ] (m : List (κ × α)) (k : κ) (v : α)
    (h : (k, v) ∈ m) : (alGet m k).isSome = true := by
  induction m with
  | nil => simp at h
  | cons p t ih =>
    obtain ⟨k1, v1⟩ := p
    rw [alGet]
    by_cases hk : k1 = k
    · rw [if_pos hk]; rfl
    · rw [if_neg hk]
      rcases List.mem_cons.mp h with h1 | h1
      · obtain ⟨h2, h3⟩ := Prod.mk.injEq .. ▸ h1
        exact absurd (by injection h1 with ha hb; exact ha.symm) hk
      · exact ih h1

/-- Whether a key is a conflict-history key (ends in
"_conflict_history"). -/
def hasCHSuffix (k : String) : Bool :=
  "_conflict_history".toList.isSuffixOf k.toList

theorem hasCHSuffix_append (k : String) :
    hasCHSuffix (k ++ "_conflict_history") = true := by
  rw [hasCHSuffix]
  have hdata : (k ++ "_conflict_history").toList = k.toList ++ "_conflict_history".toList := by
    show (k ++ "_conflict_history").data = k.data ++ "_conflict_history".data
    simp
  rw [hdata]
  rw [List.isSuffixOf_iff_suffix]
  exact List.suffix_append _ _

theorem ne_append_ch (k : String) : k ≠ k ++ "_conflict_history" := by
  intro h
  have := congrArg String.length h
  rw [String.length_append] at this
  have h17 : ("_conflict_history" : String).length = 17 := by decide
  omega

/-- A value of list shape. -/
def Value.isList : Value → Bool
  | .list _ => true
  | _ => false

/-- A value of numeric shape. -/
def Value.isNum : Value → Bool
  | .num _ => true
  | _ => false

/-- Shape test on an optional value. -/
def optIs (f : Value → Bool) : Option Value → Bool
  | some v => f v
  | .none => false

/-- Typing discipline on bundle entries: the bookkeeping keys that the
merge path does arithmetic or list operations on carry values of the
matching type; all other keys are unconstrained. -/
def keyTyped (k : String) (v : Value) : Bool :=
  if k = "confidence" || k = "merged_count" then v.isNum
  else if k = "sources" || k = "match_history" then v.isList
  else if hasCHSuffix k then v.isList
  else true

/-- Well-typed bundle: every entry respects `keyTyped`. -/
def WFd (d : AttrMap) : Bool := d.all (fun kv => keyTyped kv.1 kv.2)

/-- Well-formed stored entity: numeric `confidence` and `merged_count`,
list-valued `sources` and `match_history`, and list-valued
conflict-history entries. -/
def WFe (e : AttrMap) : Bool :=
  optIs Value.isNum (amGet e "confidence") &&
  optIs Value.isNum (amGet e "merged_count") &&
  optIs Value.isList (amGet e "sources") &&
  optIs Value.isList (amGet e "match_history") &&
  e.all (fun kv => !hasCHSuffix kv.1 || kv.2.isList)

/-- Well-formed registry: every stored entity is well-formed and every
identifier-index target is a stored entity. -/
def WFreg (reg : Registry) : Bool :=
  reg.entities.all (fun p => WFe p.2) &&
  (reg.phone_index ++ reg.name_index ++ reg.wechat_index ++ reg.idcard_index
    ++ reg.account_index).all (fun p => (alGet reg.entities p.2).isSome)

theorem hasCHSuffix_confidence : hasCHSuffix "confidence" = false := by decide

theorem hasCHSuffix_merged_count : hasCHSuffix "merged_count" = false := by decide

theorem hasCHSuffix_sources : hasCHSuffix "sources" = false := by decide

theorem hasCHSuffix_match_history : hasCHSuffix "match_history" = false := by decide

theorem hasCHSuffix_last_updated : hasCHSuffix "last_updated" = false := by decide

theorem isNum_iff (v : Value) : v.isNum = true ↔ ∃ q, v = .num q := by
  cases v <;> simp [Value.isNum]

theorem isList_iff (v : Value) : v.isList = true ↔ ∃ l, v = .list l := by
  cases v <;> simp [Value.isList]

theorem keyTyped_of_ch (k : String) (v : Value) (hk : hasCHSuffix k = true)
    (hv : v.isList = true) : keyTyped k v = true := by
  rw [keyTyped]
  have h1 : ¬ (k = "confidence" || k = "merged_count") = true := by
    intro hc
    rcases Bool.or_eq_true _ _ |>.mp hc with h | h
    · rw [decide_eq_true_iff] at h; subst h
      rw [hasCHSuffix_confidence] at hk; exact Bool.false_ne_true hk
    · rw [decide_eq_true_iff] at h; subst h
      rw [hasCHSuffix_merged_count] at hk; exact Bool.false_ne_true hk
  have h2 : ¬ (k = "sources" || k = "match_history") = true := by
    intro hc
    rcases Bool.or_eq_true _ _ |>.mp hc with h | h
    · rw [decide_eq_true_iff] at h; subst h
      rw [hasCHSuffix_sources] at hk; exact Bool.false_ne_true hk
    · rw [decide_eq_true_iff] at h; subst h
      rw [hasCHSuffix_match_history] at hk; exact Bool.false_ne_true hk
  rw [if_neg h1, if_neg h2, if_pos hk]
  exact hv

theorem keyTyped_ch_list (k : String) (v : Value) (hk : hasCHSuffix k = true)
    (ht : keyTyped k v = true) : v.isList = true := by
  rw [keyTyped] at ht
  have h1 : ¬ (k = "confidence" || k = "merged_count") = true := by
    intro hc
    rcases Bool.or_eq_true _ _ |>.mp hc with h | h
    · rw [decide_eq_true_iff] at h; subst h
      rw [hasCHSuffix_confidence] at hk; exact Bool.false_ne_true hk
    · rw [decide_eq_true_iff] at h; subst h
      rw [hasCHSuffix_merged_count] at hk; exact Bool.false_ne_true hk
  have h2 : ¬ (k = "sources" || k = "match_history") = true := by
    intro hc
    rcases Bool.or_eq_true _ _ |>.mp hc with h | h
    · rw [decide_eq_true_iff] at h; subst h
      rw [hasCHSuffix_sources] at hk; exact Bool.false_ne_true hk
    · rw [decide_eq_true_iff] at h; subst h
      rw [hasCHSuffix_match_history] at hk; exact Bool.false_ne_true hk
  rw [if_neg h1, if_neg h2, if_pos hk] at ht
  exact ht

theorem WFe_conf (e : AttrMap) (h : WFe e = true) :
    ∃ q, amGet e "confidence" = some (.num q) := by
  rw [WFe] at h
  simp only [Bool.and_eq_true] at h
  rcases hg : amGet e "confidence" with _ | v
  · rw [hg] at h; simp [optIs] at h
  · rw [hg] at h
    obtain ⟨q, hq⟩ := (isNum_iff v).mp h.1.1.1.1
    exact ⟨q, by rw [hq]⟩

theorem WFe_mc (e : AttrMap) (h : WFe e = true) :
    ∃ q, amGet e "merged_count" = some (.num q) := by
  rw [WFe] at h
  simp only [Bool.and_eq_true] at h
  rcases hg : amGet e "merged_count" with _ | v
  · rw [hg] at h; simp [optIs] at h
  · rw [hg] at h
    obtain ⟨q, hq⟩ := (isNum_iff v).mp h.1.1.1.2
    exact ⟨q, by rw [hq]⟩

theorem WFe_src (e : AttrMap) (h : WFe e = true) :
    ∃ l, amGet e "sources" = some (.list l) := by
  rw [WFe] at h
  simp only [Bool.and_eq_true] at h
  rcases hg : amGet e "sources" with _ | v
  · rw [hg] at h; simp [optIs] at h
  · rw [hg] at h
    obtain ⟨l, hl⟩ := (isList_iff v).mp h.1.1.2
    exact ⟨l, by rw [hl]⟩

theorem WFe_mh (e : AttrMap) (h : WFe e = true) :
    ∃ l, amGet e "match_history" = some (.list l) := by
  rw [WFe] at h
  simp only [Bool.and_eq_true] at h
  rcases hg : amGet e "match_history" with _ | v
  · rw [hg] at h; simp [optIs] at h
  · rw [hg] at h
    obtain ⟨l, hl⟩ := (isList_iff v).mp h.1.2
    exact ⟨l, by rw [hl]⟩

theorem WFe_ch (e : AttrMap) (h : WFe e = true) (k : String)
    (hk : hasCHSuffix k = true) :
    amGet e k = .none ∨ ∃ l, amGet e k = some (.list l) := by
  rcases hg : amGet e k with _ | v
  · exact Or.inl rfl
  · right
    have hmem : (k, v) ∈ e := alGet_mem e k v hg
    rw [WFe] at h
    simp only [Bool.and_eq_true, List.all_eq_true] at h
    have h3 := h.2 (k, v) hmem
    rw [hk] at h3
    simp only [Bool.not_true, Bool.false_or] at h3
    obtain ⟨l, hl⟩ := (isList_iff v).mp h3
    exact ⟨l, by rw [hl]⟩

theorem alSet_mem {κ α : Type} [DecidableEq κ] (m : List (κ × α)) (k : κ) (v : α)
    (p : κ × α) (h : p ∈ alSet m k v) : p = (k, v) ∨ p ∈ m := by
  induction m with
  | nil => simpa [alSet] using h
  | cons q t ih =>
    obtain ⟨k1, v1⟩ := q
    rw [alSet] at h
    by_cases hk : k1 = k
    · rw [if_pos hk] at h
      rcases List.mem_cons.mp h with h1 | h1
      · exact Or.inl h1
      · exact Or.inr (List.mem_cons_of_mem _ h1)
    · rw [if_neg hk] at h
      rcases List.mem_cons.mp h with h1 | h1
      · exact Or.inr (h1 ▸ List.mem_cons_self _ _)
      · rcases ih h1 with h2 | h2
        · exact Or.inl h2
        · exact Or.inr (List.mem_cons_of_mem _ h2)

theorem WFe_amSet (e : AttrMap) (k : String) (v : Value) (he : WFe e = true)
    (ht : keyTyped k v = true) : WFe (amSet e k v) = true := by
  rw [WFe] at he ⊢
  simp only [Bool.and_eq_true] at he ⊢
  obtain ⟨⟨⟨⟨h1, h2⟩, h3⟩, h4⟩, h5⟩ := he
  refine ⟨⟨⟨⟨?_, ?_⟩, ?_⟩, ?_⟩, ?_⟩
  · by_cases hk : k = "confidence"
    · subst hk
      rw [amGet_amSet_self]
      rw [keyTyped, if_pos (by simp)] at ht
      exact ht
    · rw [amGet_amSet_ne e k "confidence" v (fun hc => hk hc.symm)]
      exact h1
  · by_cases hk : k = "merged_count"
    · subst hk
      rw [amGet_amSet_self]
      rw [keyTyped, if_pos (by simp)] at ht
      exact ht
    · rw [amGet_amSet_ne e k "merged_count" v (fun hc => hk hc.symm)]
      exact h2
  · by_cases hk : k = "sources"
    · subst hk
      rw [amGet_amSet_self]
      rw [keyTyped, if_neg (by simp), if_pos (by simp)] at ht
      exact ht
    · rw [amGet_amSet_ne e k "sources" v (fun hc => hk hc.symm)]
      exact h3
  · by_cases hk : k = "match_history"
    · subst hk
      rw [amGet_amSet_self]
      rw [keyTyped, if_neg (by simp), if_pos (by simp)] at ht
      exact ht
    · rw [amGet_amSet_ne e k "match_history" v (fun hc => hk hc.symm)]
      exact h4
  · simp only [List.all_eq_true] at h5 ⊢
    intro p hp
    rcases alSet_mem e k v p hp with h6 | h6
    · subst h6
      by_cases hs : hasCHSuffix k = true
      · simp only [hs, Bool.not_true, Bool.false_or]
        exact keyTyped_ch_list k v hs ht
      · simp only [Bool.not_eq_true] at hs
        simp [hs]
    · exact h5 p h6

theorem keyTyped_stored (e : AttrMap) (k : String) (existing : Value)
    (he : WFe e = true) (hg : amGet e k = some existing) :
    keyTyped k existing = true := by
  rw [keyTyped]
  by_cases hc : k = "confidence"
  · subst hc
    obtain ⟨q, hq⟩ := WFe_conf e he
    rw [hg] at hq
    obtain rfl := (Option.some.injEq _ _).mp hq
    simp [Value.isNum]
  · by_cases hm : k = "merged_count"
    · subst hm
      obtain ⟨q, hq⟩ := WFe_mc e he
      rw [hg] at hq
      obtain rfl := (Option.some.injEq _ _).mp hq
      simp [Value.isNum]
    · rw [if_neg (by simp [hc, hm])]
      by_cases hs : k = "sources"
      · subst hs
        obtain ⟨l, hl⟩ := WFe_src e he
        rw [hg] at hl
        obtain rfl := (Option.some.injEq _ _).mp hl
        simp [Value.isList]
      · by_cases hh : k = "match_history"
        · subst hh
          obtain ⟨l, hl⟩ := WFe_mh e he
          rw [hg] at hl
          obtain rfl := (Option.some.injEq _ _).mp hl
          simp [Value.isList]
        · rw [if_neg (by simp [hs, hh])]
          by_cases hch : hasCHSuffix k = true
          · rw [if_pos hch]
            rcases WFe_ch e he k hch with hn | ⟨l, hl⟩
            · rw [hg] at hn; exact absurd hn (by simp)
            · rw [hg] at hl
              obtain rfl := (Option.some.injEq _ _).mp hl
              simp [Value.isList]
          · rw [if_neg hch]

theorem resolve_conflict_ok (ev nv : Value) (ce cn : Rat) :
    ∃ rv rc rs, resolve_conflict ev nv (.num ce) (.num cn) = some (rv, rc, rs) ∧
      (rv = ev ∨ rv = nv) := by
  rw [resolve_conflict]
  by_cases h : ev = nv
  · rw [if_pos h]
    exact ⟨ev, .num (ratDiv (ratAdd ce cn) (mkRat 2 1)), "identical",
      by simp [pyAdd, pyHalf], Or.inl rfl⟩
  · rw [if_neg h]
    by_cases h1 : ev.truthy = true
    · rw [if_neg (by simp [h1])]
      by_cases h2 : nv.truthy = true
      · rw [if_neg (by simp [h2])]
        rcases hgt : pyGT (Value.num cn) (Value.num ce) with _ | b
        · simp [pyGT] at hgt
        · cases b
          · exact ⟨ev, .num ce, "confidence_based", by simp [hgt], Or.inl rfl⟩
          · exact ⟨nv, .num cn, "confidence_based", by simp [hgt], Or.inr rfl⟩
      · rw [if_pos (by simp at h2 ⊢; exact h2)]
        exact ⟨ev, .num ce, "existing_value", rfl, Or.inl rfl⟩
    · rw [if_pos (by simp at h1 ⊢; exact h1)]
      exact ⟨nv, .num cn, "new_value", rfl, Or.inr rfl⟩

theorem mergeStep_ok (ncq : Rat) (e : AttrMap) (he : WFe e = true) (k : String)
    (v : Value) (ht : keyTyped k v = true) :
    ∃ e1, mergeStep (.num ncq) e (k, v) = some e1 ∧ WFe e1 = true := by
  simp only [mergeStep]
  cases hg : amGet e k with
  | none => exact ⟨_, rfl, WFe_amSet e k v he ht⟩
  | some existing =>
    dsimp only
    by_cases hcond : existing.truthy = true ∧ existing ≠ v
    · rw [if_pos hcond]
      obtain ⟨cq, hcq⟩ := WFe_conf e he
      have hce : dgetD e "confidence" (.num 1) = .num cq := by
        rw [dgetD, hcq]; rfl
      rw [hce]
      obtain ⟨rv, rc, rs, hres, hrv⟩ := resolve_conflict_ok existing v cq ncq
      rw [hres]
      simp only [Option.bind_eq_bind, Option.some_bind]
      have hkty : keyTyped k rv = true := by
        rcases hrv with h1 | h1
        · subst h1; exact keyTyped_stored e k rv he hg
        · subst h1; exact ht
      have he1 : WFe (amSet e k rv) = true := WFe_amSet e k rv he hkty
      rcases WFe_ch (amSet e k rv) he1 (k ++ "_conflict_history")
          (hasCHSuffix_append k) with hn | ⟨l, hl⟩
      · rw [show dgetD (amSet e k rv) (k ++ "_conflict_history") (.list [])
            = Value.list [] from by rw [dgetD, hn]; rfl]
        simp only [pyAppend, Option.some_bind]
        exact ⟨_, rfl, WFe_amSet _ _ _ he1
          (keyTyped_of_ch _ _ (hasCHSuffix_append k) rfl)⟩
      · rw [show dgetD (amSet e k rv) (k ++ "_conflict_history") (.list [])
            = Value.list l from by rw [dgetD, hl]; rfl]
        simp only [pyAppend, Option.some_bind]
        exact ⟨_, rfl, WFe_amSet _ _ _ he1
          (keyTyped_of_ch _ _ (hasCHSuffix_append k) rfl)⟩
    · rw [if_neg hcond]
      by_cases h2 : existing.truthy = false ∧ v.truthy = true
      · rw [if_pos h2]
        exact ⟨_, rfl, WFe_amSet e k v he ht⟩
      · rw [if_neg h2]
        exact ⟨e, rfl, he⟩

theorem mergeLoop_ok (ncq : Rat) (e : AttrMap) (he : WFe e = true)
    (d : List (String × Value)) (hd : ∀ kv ∈ d, keyTyped kv.1 kv.2 = true) :
    ∃ e1, mergeLoop (.num ncq) e d = some e1 ∧ WFe e1 = true := by
  induction d generalizing e with
  | nil => exact ⟨e, rfl, he⟩
  | cons kv rest ih =>
    obtain ⟨k, v⟩ := kv
    obtain ⟨e1, hs, he1⟩ := mergeStep_ok ncq e he k v (hd (k, v) (List.mem_cons_self _ _))
    obtain ⟨e2, hs2, he2⟩ := ih e1 he1 (fun kv hkv => hd kv (List.mem_cons_of_mem _ hkv))
    refine ⟨e2, ?_, he2⟩
    rw [mergeLoop]
    rw [hs]
    simpa using hs2

theorem keyTyped_last_updated (v : Value) : keyTyped "last_updated" v = true := by
  rw [keyTyped]
  rw [if_neg (by decide), if_neg (by decide), if_neg (by decide)]

theorem merge_attrs_ok (e d : AttrMap) (info : Value) (now : String)
    (he : WFe e = true) (hd : WFd d = true) :
    ∃ e6, merge_attrs e d info now = some e6 ∧ WFe e6 = true := by
  rw [WFd] at hd
  rw [merge_attrs]
  have hnc : ∃ q, dgetD d "confidence" (.num 1) = .num q := by
    rcases hg : amGet d "confidence" with _ | v
    · exact ⟨1, by rw [dgetD, hg]; rfl⟩
    · have h1 := (List.all_eq_true.mp hd) _ (alGet_mem d _ v hg)
      rw [keyTyped, if_pos (by simp)] at h1
      obtain ⟨q, rfl⟩ := (isNum_iff v).mp h1
      exact ⟨q, by rw [dgetD, hg]; rfl⟩
  obtain ⟨ncq, hncq⟩ := hnc
  rw [hncq]
  obtain ⟨e1, hL, he1⟩ := mergeLoop_ok ncq e he d
    (fun kv hkv => (List.all_eq_true.mp hd) kv hkv)
  rw [hL]
  simp only [Option.bind_eq_bind, Option.some_bind]
  obtain ⟨sl, hsl⟩ := WFe_src e1 he1
  rw [hsl]
  simp only [pyContains, Option.some_bind]
  have hstep2 : ∀ e2 : AttrMap, WFe e2 = true →
      ∃ e6, (do
        let mc ← amGet e2 "merged_count"
        let mc1 ← pyInc mc
        let e3 := amSet e2 "merged_count" mc1
        let mh ← amGet e3 "match_history"
        let mh1 ← pyAppend mh info
        let e4 := amSet e3 "match_history" mh1
        let e5 := amSet e4 "last_updated" (.str now)
        let cur ← amGet e5 "confidence"
        let t1 ← pyScale (mkRat 3 10) (.num ncq)
        let t2 ← pyScale (mkRat 7 10) cur
        let conf ← pyAdd t1 t2
        some (amSet e5 "confidence" conf) : Option AttrMap) = some e6
        ∧ WFe e6 = true := by
    intro e2 he2
    obtain ⟨mq, hmq⟩ := WFe_mc e2 he2
    rw [hmq]
    simp only [pyInc, Option.bind_eq_bind, Option.some_bind]
    have he3 : WFe (amSet e2 "merged_count" (.num (ratAdd mq (mkRat 1 1)))) = true :=
      WFe_amSet _ _ _ he2 (by rw [keyTyped, if_pos (by simp)]; rfl)
    obtain ⟨ml, hml⟩ := WFe_mh _ he3
    rw [hml]
    simp only [pyAppend, Option.some_bind]
    have he4 : WFe (amSet (amSet e2 "merged_count" (.num (ratAdd mq (mkRat 1 1))))
        "match_history" (.list (ml ++ [info]))) = true :=
      WFe_amSet _ _ _ he3 (by rw [keyTyped, if_neg (by decide), if_pos (by simp)]; rfl)
    have he5 : WFe (amSet (amSet (amSet e2 "merged_count"
        (.num (ratAdd mq (mkRat 1 1)))) "match_history" (.list (ml ++ [info])))
        "last_updated" (.str now)) = true :=
      WFe_amSet _ _ _ he4 (keyTyped_last_updated _)
    obtain ⟨cq2, hcq2⟩ := WFe_conf _ he5
    rw [hcq2]
    simp only [pyScale, pyAdd, Option.some_bind]
    exact ⟨_, rfl, WFe_amSet _ _ _ he5 (by rw [keyTyped, if_pos (by simp)]; rfl)⟩
  by_cases hmem : (decide ((dgetD d "source" (.str "unknown")) ∈ sl)) = true
  · rw [hmem]
    simp only [if_true]
    exact hstep2 e1 he1
  · rw [Bool.not_eq_true] at hmem
    rw [hmem]
    simp only [Bool.false_eq_true, if_false, pyAppend, Option.some_bind]
    exact hstep2 (amSet e1 "sources"
        (.list (sl ++ [dgetD d "source" (.str "unknown")])))
      (WFe_amSet _ _ _ he1
        (by rw [keyTyped, if_neg (by decide), if_pos (by simp)]; rfl))

theorem WFreg_entity (reg : Registry) (hreg : WFreg reg = true) (id : String)
    (ent : AttrMap) (h : alGet reg.entities id = some ent) : WFe ent = true := by
  rw [WFreg] at hreg
  simp only [Bool.and_eq_true, List.all_eq_true] at hreg
  exact hreg.1 (id, ent) (alGet_mem _ _ _ h)

theorem WFreg_target (reg : Registry) (hreg : WFreg reg = true) (n id : String)
    (h : (n, id) ∈ reg.phone_index ∨ (n, id) ∈ reg.name_index ∨
      (n, id) ∈ reg.wechat_index ∨ (n, id) ∈ reg.idcard_index ∨
      (n, id) ∈ reg.account_index) :
    (alGet reg.entities id).isSome = true := by
  rw [WFreg] at hreg
  simp only [Bool.and_eq_true, List.all_eq_true] at hreg
  refine hreg.2 (n, id) ?_
  simp only [List.mem_append]
  tauto

theorem merge_entity_ok (reg : Registry) (id : String) (d : AttrMap) (info : Value)
    (now : String) (hreg : WFreg reg = true) (hd : WFd d = true)
    (hid : (alGet reg.entities id).isSome = true) :
    ∃ reg1, merge_entity reg id d info now = some reg1 := by
  obtain ⟨ent, hent⟩ := Option.isSome_iff_exists.mp hid
  obtain ⟨e6, hm, _⟩ := merge_attrs_ok ent d info now
    (WFreg_entity reg hreg id ent hent) hd
  refine ⟨{ reg with entities := alSet reg.entities id e6 }, ?_⟩
  rw [merge_entity, hent]
  simp only [Option.bind_eq_bind, Option.some_bind]
  rw [hm]
  rfl

theorem bestStep_shape (nn : String) (b : Option String × Rat)
    (p : String × String) :
    (bestStep nn b p).1 = some p.2 ∨ bestStep nn b p = b := by
  rw [bestStep]
  repeat' split
  all_goals first | exact Or.inl rfl | exact Or.inr rfl

theorem foldBest_mem (nn : String) (l : List (String × String))
    (b : Option String × Rat) (id : String)
    (h : (l.foldl (bestStep nn) b).1 = some id) :
    (∃ n, (n, id) ∈ l) ∨ b.1 = some id := by
  induction l generalizing b with
  | nil => exact Or.inr h
  | cons p t ih =>
    rw [List.foldl_cons] at h
    rcases ih _ h with ⟨n, hn⟩ | hb
    · exact Or.inl ⟨n, List.mem_cons_of_mem _ hn⟩
    · rcases bestStep_shape nn b p with h1 | h1
      · rw [h1] at hb
        simp only [Option.some.injEq] at hb
        subst hb
        exact Or.inl ⟨p.1, by simpa using List.mem_cons_self p t⟩
      · rw [h1] at hb
        exact Or.inr hb

theorem find_best_target (reg : Registry) (nn : String) (id : String)
    (h : (find_best_name_match reg nn).1 = some id) :
    ∃ n, (n, id) ∈ reg.name_index := by
  rw [find_best_name_match] at h
  split at h
  · simp at h
  · rcases foldBest_mem nn reg.name_index (.none, 0) id h with h1 | h1
    · exact h1
    · simp at h1

theorem crossStep_shape (d : AttrMap) (nn : String) (b : Option String × Rat)
    (p : String × AttrMap) :
    (crossStep d nn b p).1 = some p.1 ∨ crossStep d nn b p = b := by
  rw [crossStep]
  try dsimp only
  repeat' split
  all_goals first | exact Or.inl rfl | exact Or.inr rfl

theorem foldCross_mem (d : AttrMap) (nn : String)
    (l : List (String × AttrMap)) (b : Option String × Rat) (id : String)
    (h : (l.foldl (crossStep d nn) b).1 = some id) :
    (∃ e, (id, e) ∈ l) ∨ b.1 = some id := by
  induction l generalizing b with
  | nil => exact Or.inr h
  | cons p t ih =>
    rw [List.foldl_cons] at h
    rcases ih _ h with ⟨e, he⟩ | hb
    · exact Or.inl ⟨e, List.mem_cons_of_mem _ he⟩
    · rcases crossStep_shape d nn b p with h1 | h1
      · rw [h1] at hb
        simp only [Option.some.injEq] at hb
        subst hb
        exact Or.inl ⟨p.2, by simpa using List.mem_cons_self p t⟩
      · rw [h1] at hb
        exact Or.inr hb

theorem cross_modal_target (reg : Registry) (d : AttrMap) (id : String) (c : Rat)
    (h : find_cross_modal_match reg d = some (id, c)) :
    (alGet reg.entities id).isSome = true := by
  rw [find_cross_modal_match] at h
  split at h
  · exact absurd h (by simp)
  · rcases hb : reg.entities.foldl
        (crossStep d (normalize_name (dget d "name"))) (.none, 0) with ⟨optId, conf⟩
    rw [hb] at h
    cases optId with
    | none => simp at h
    | some id1 =>
      dsimp only at h
      have hid1 : id1 = id := by
        by_cases hcc : conf ≥ mkRat 75 100
        · rw [if_pos hcc] at h
          exact ((Prod.mk.injEq _ _ _ _).mp ((Option.some.injEq _ _).mp h)).1
        · rw [if_neg hcc] at h
          exact absurd h (by simp)
      subst hid1
      have hm := foldCross_mem d (normalize_name (dget d "name")) reg.entities
        (.none, 0) id1 (by rw [hb])
      rcases hm with ⟨e, he⟩ | hbad
      · exact mem_alGet_isSome _ _ _ he
      · simp at hbad

theorem phoneHit_mem (reg : Registry) (d : AttrMap) (id : String)
    (h : phoneHit reg d = some id) : ∃ n, (n, id) ∈ reg.phone_index := by
  rw [phoneHit] at h
  split at h
  · exact ⟨_, alGet_mem _ _ _ h⟩
  · exact absurd h (by simp)

theorem wechatHit_mem (reg : Registry) (d : AttrMap) (id : String)
    (h : wechatHit reg d = some id) : ∃ n, (n, id) ∈ reg.wechat_index := by
  rw [wechatHit] at h
  split at h
  · exact ⟨_, alGet_mem _ _ _ h⟩
  · exact absurd h (by simp)

theorem idcardHit_mem (reg : Registry) (d : AttrMap) (id : String)
    (h : idcardHit reg d = some id) : ∃ n, (n, id) ∈ reg.idcard_index := by
  rw [idcardHit] at h
  split at h
  · exact ⟨_, alGet_mem _ _ _ h⟩
  · exact absurd h (by simp)

theorem accountHit_mem (reg : Registry) (d : AttrMap) (id : String)
    (h : accountHit reg d = some id) : ∃ n, (n, id) ∈ reg.account_index := by
  rw [accountHit] at h
  split at h
  · exact ⟨_, alGet_mem _ _ _ h⟩
  · exact absurd h (by simp)

theorem tier1_target (reg : Registry) (d : AttrMap) (f id : String) (c : Rat)
    (hreg : WFreg reg = true) (h : tier1 reg d = some (f, id, c)) :
    (alGet reg.entities id).isSome = true := by
  rw [tier1] at h
  cases hp : phoneHit reg d with
  | some i =>
    rw [hp] at h
    obtain ⟨n, hn⟩ := phoneHit_mem reg d i hp
    have : i = id := congrArg (fun x : String × String × Rat => x.2.1)
      ((Option.some.injEq _ _).mp h)
    subst this
    exact WFreg_target reg hreg n i (Or.inl hn)
  | none =>
    rw [hp] at h
    dsimp only at h
    cases hw : wechatHit reg d with
    | some i =>
      rw [hw] at h
      obtain ⟨n, hn⟩ := wechatHit_mem reg d i hw
      have : i = id := congrArg (fun x : String × String × Rat => x.2.1)
        ((Option.some.injEq _ _).mp h)
      subst this
      exact WFreg_target reg hreg n i (Or.inr (Or.inr (Or.inl hn)))
    | none =>
      rw [hw] at h
      dsimp only at h
      cases hi : idcardHit reg d with
      | some i =>
        rw [hi] at h
        obtain ⟨n, hn⟩ := idcardHit_mem reg d i hi
        have : i = id := congrArg (fun x : String × String × Rat => x.2.1)
          ((Option.some.injEq _ _).mp h)
        subst this
        exact WFreg_target reg hreg n i (Or.inr (Or.inr (Or.inr (Or.inl hn))))
      | none =>
        rw [hi] at h
        dsimp only at h
        cases ha : accountHit reg d with
        | some i =>
          rw [ha] at h
          obtain ⟨n, hn⟩ := accountHit_mem reg d i ha
          have : i = id := congrArg (fun x : String × String × Rat => x.2.1)
            ((Option.some.injEq _ _).mp h)
          subst this
          exact WFreg_target reg hreg n i (Or.inr (Or.inr (Or.inr (Or.inr hn))))
        | none =>
          rw [ha] at h
          simp at h

/-- A well-typed registration never fails: every tier either merges
into a stored entity (whose bookkeeping fields are well-typed) or
creates a fresh entity. -/
theorem register_entity_total (reg : Registry) (d : AttrMap) (now : String)
    (hreg : WFreg reg = true) (hd : WFd d = true) :
    ∃ r, register_entity reg d now = some r := by
  rw [register_entity]
  cases ht : tier1 reg d with
  | some fic =>
    obtain ⟨f, id, c⟩ := fic
    dsimp only
    obtain ⟨reg1, hm⟩ := merge_entity_ok reg id d
      (mkMatchInfo (.num 1) (.str id) (.num c) (.str f) (.str "deterministic")) now
      hreg hd (tier1_target reg d f id c hreg ht)
    rw [hm]
    exact ⟨_, rfl⟩
  | none =>
    dsimp only
    rcases hb : (if (dget d "name").truthy = true then
        match find_best_name_match reg (normalize_name (dget d "name")) with
        | (some id, score) => if mkRat 85 100 ≤ score then some (id, score) else .none
        | _ => .none
      else (.none : Option (String × Rat))) with _ | p
    · rw [hb]
      cases hc : find_cross_modal_match reg d with
      | some ic =>
        obtain ⟨id, conf⟩ := ic
        dsimp only
        by_cases hcc : mkRat 75 100 ≤ conf
        · rw [if_pos hcc]
          obtain ⟨reg1, hm⟩ := merge_entity_ok reg id d
            (mkMatchInfo (.num 3) (.str id) (.num conf) (.str "cross_modal")
              (.str "cross_modal")) now hreg hd
            (cross_modal_target reg d id conf hc)
          rw [hm]
          exact ⟨_, rfl⟩
        · rw [if_neg hcc]
          exact ⟨_, rfl⟩
      | none => exact ⟨_, rfl⟩
    · obtain ⟨id, score⟩ := p
      rw [hb]
      dsimp only
      have hfb : (find_best_name_match reg (normalize_name (dget d "name"))).1
          = some id := by
        by_cases hn : (dget d "name").truthy = true
        · rw [if_pos hn] at hb
          rcases hq : find_best_name_match reg (normalize_name (dget d "name"))
            with ⟨optId, sc⟩
          rw [hq] at hb
          cases optId with
          | none => simp at hb
          | some i =>
            dsimp only at hb
            split at hb
            · have hieq : i = id := congrArg (fun x : String × Rat => x.1)
                ((Option.some.injEq _ _).mp hb)
              simp [hieq]
            · exact absurd hb (by simp)
        · rw [if_neg hn] at hb
          exact absurd hb (by simp)
      obtain ⟨n, hn⟩ := find_best_target reg _ id hfb
      obtain ⟨reg1, hm⟩ := merge_entity_ok reg id d
        (mkMatchInfo (.num 2) (.str id) (.num score) (.str "name") (.str "semantic"))
        now hreg hd (WFreg_target reg hreg n id (Or.inr (Or.inl hn)))
      rw [hm]
      exact ⟨_, rfl⟩

/-- C5 counterexample: register_entity CAN raise.  A bundle carrying a
string-valued confidence is stored as such; re-registering the same
name then reaches the confidence blend `0.3*new + 0.7*stored`, whose
multiplication of a float by a string raises a TypeError (modelled by
`none`). -/
theorem C5_never_raises_counterexample :
    register_entity emptyRegistry
        [("name", .str "bob"), ("confidence", .str "high")] "T0"
      = some (create_entity emptyRegistry
        [("name", .str "bob"), ("confidence", .str "high")] "T0") ∧
    register_entity (create_entity emptyRegistry
        [("name", .str "bob"), ("confidence", .str "high")] "T0").2.2
      [("name", .str "bob")] "T1" = .none :=
  ⟨register_emptyRegistry _ _, by decide⟩

/-- C5 amended: register_entity never raises on inputs whose
bookkeeping-typed fields are well-typed (numeric confidence and
merged_count, list-valued sources, match_history and conflict
histories), against a registry whose stored entities satisfy the same
typing and whose index targets exist; moreover any bundle whose
identifier fields are all falsy — in particular the empty mapping —
always creates a new entity. -/
theorem C5_total_on_wellformed :
    (∀ (reg : Registry) (d : AttrMap) (now : String),
        WFreg reg = true → WFd d = true →
        ∃ r, register_entity reg d now = some r)
    ∧ (∀ (reg : Registry) (d : AttrMap) (now : String),
        (phoneVal d).truthy = false → (wechatVal d).truthy = false →
        (idcardVal d).truthy = false → (accountVal d).truthy = false →
        (dget d "name").truthy = false →
        register_entity reg d now = some (create_entity reg d now) ∧
          infoGet (create_entity reg d now).2.1 "match_level" = .num 0 ∧
          infoGet (create_entity reg d now).2.1 "strategy" = .str "new_entity" ∧
          (create_entity reg d now).1 = entityName reg.next_id)
    ∧ (∀ (reg : Registry) (now : String),
        register_entity reg [] now = some (create_entity reg [] now)) := by
  have hsecond : ∀ (reg : Registry) (d : AttrMap) (now : String),
      (phoneVal d).truthy = false → (wechatVal d).truthy = false →
      (idcardVal d).truthy = false → (accountVal d).truthy = false →
      (dget d "name").truthy = false →
      register_entity reg d now = some (create_entity reg d now) ∧
        infoGet (create_entity reg d now).2.1 "match_level" = .num 0 ∧
        infoGet (create_entity reg d now).2.1 "strategy" = .str "new_entity" ∧
        (create_entity reg d now).1 = entityName reg.next_id := by
    intro reg d now hp hw hi ha hn
    have ht1 : tier1 reg d = .none := by
      have h1 : phoneHit reg d = .none := by rw [phoneHit, hp]; simp
      have h2 : wechatHit reg d = .none := by rw [wechatHit, hw]; simp
      have h3 : idcardHit reg d = .none := by rw [idcardHit, hi]; simp
      have h4 : accountHit reg d = .none := by rw [accountHit, ha]; simp
      simp [tier1, h1, h2, h3, h4]
    refine ⟨register_no_name_all_miss reg d now ht1 hn
      (find_cross_modal_no_name reg d hn), ?_, ?_, rfl⟩ <;>
      simp [create_entity, infoGet, mkMatchInfo, Value.asDict, dget, amGet, alGet]
  refine ⟨fun reg d now hreg hd => register_entity_total reg d now hreg hd,
    hsecond, ?_⟩
  intro reg now
  exact (hsecond reg [] now (by decide) (by decide) (by decide) (by decide)
    (by decide)).1

/-- Concrete instantiation of C5 amended: a well-typed bundle registers
without error against a well-formed registry, and a bundle with no
identifiers creates a new entity. -/
theorem C5_total_on_wellformed_witness :
    (∃ r, register_entity emptyRegistry
      [("phone", .str "13800000000"), ("confidence", .num (mkRat 9 10))] "T0"
      = some r) ∧
    register_entity emptyRegistry [("gender", .str "m")] "T0"
      = some (create_entity emptyRegistry [("gender", .str "m")] "T0") ∧
    register_entity emptyRegistry [] "T0"
      = some (create_entity emptyRegistry [] "T0") := by
  refine ⟨C5_total_on_wellformed.1 emptyRegistry _ "T0" (by decide) (by decide),
    (C5_total_on_wellformed.2.1 emptyRegistry [("gender", .str "m")] "T0"
      (by decide) (by decide) (by decide) (by decide) (by decide)).1,
    C5_total_on_wellformed.2.2 emptyRegistry "T0"⟩

theorem seedEntity_eq (d : AttrMap) (id now : String) (info : Value) :
    seedEntity d id now info =
      amSet (amSet (amSet (amSet (amSet (amSet (amSet d
        "entity_id" (.str id))
        "sources" (.list [dgetD d "source" (.str "unknown")]))
        "merged_count" (.num 1))
        "confidence" (dgetD d "confidence" (.num 1)))
        "match_history" (.list [info]))
        "created_at" (.str now))
        "last_updated" (.str now) := rfl

theorem amGet_seed_sources (d : AttrMap) (id now : String) (info : Value) :
    amGet (seedEntity d id now info) "sources"
      = some (.list [dgetD d "source" (.str "unknown")]) := by
  rw [seedEntity_eq]
  rw [amGet_amSet_ne _ _ _ _ (by decide), amGet_amSet_ne _ _ _ _ (by decide),
    amGet_amSet_ne _ _ _ _ (by decide), amGet_amSet_ne _ _ _ _ (by decide),
    amGet_amSet_ne _ _ _ _ (by decide), amGet_amSet_self]

theorem amGet_seed_mc (d : AttrMap) (id now : String) (info : Value) :
    amGet (seedEntity d id now info) "merged_count" = some (.num 1) := by
  rw [seedEntity_eq]
  rw [amGet_amSet_ne _ _ _ _ (by decide), amGet_amSet_ne _ _ _ _ (by decide),
    amGet_amSet_ne _ _ _ _ (by decide), amGet_amSet_ne _ _ _ _ (by decide),
    amGet_amSet_self]

theorem amGet_seed_conf (d : AttrMap) (id now : String) (info : Value) :
    amGet (seedEntity d id now info) "confidence"
      = some (dgetD d "confidence" (.num 1)) := by
  rw [seedEntity_eq]
  rw [amGet_amSet_ne _ _ _ _ (by decide), amGet_amSet_ne _ _ _ _ (by decide),
    amGet_amSet_ne _ _ _ _ (by decide), amGet_amSet_self]

theorem amGet_seed_mh (d : AttrMap) (id now : String) (info : Value) :
    amGet (seedEntity d id now info) "match_history" = some (.list [info]) := by
  rw [seedEntity_eq]
  rw [amGet_amSet_ne _ _ _ _ (by decide), amGet_amSet_ne _ _ _ _ (by decide),
    amGet_amSet_self]

theorem amGet_seed_other (d : AttrMap) (id now : String) (info : Value)
    (k : String) (h1 : k ≠ "entity_id") (h2 : k ≠ "sources")
    (h3 : k ≠ "merged_count") (h4 : k ≠ "confidence") (h5 : k ≠ "match_history")
    (h6 : k ≠ "created_at") (h7 : k ≠ "last_updated") :
    amGet (seedEntity d id now info) k = amGet d k := by
  rw [seedEntity_eq]
  rw [amGet_amSet_ne _ _ _ _ h7, amGet_amSet_ne _ _ _ _ h6,
    amGet_amSet_ne _ _ _ _ h5, amGet_amSet_ne _ _ _ _ h4,
    amGet_amSet_ne _ _ _ _ h3, amGet_amSet_ne _ _ _ _ h2,
    amGet_amSet_ne _ _ _ _ h1]

theorem alGet_of_mem_nodup {κ α : Type} [DecidableEq κ] (m : List (κ × α))
    (k : κ) (v : α) (hnd : (m.map Prod.fst).Nodup) (h : (k, v) ∈ m) :
    alGet m k = some v := by
  induction m with
  | nil => simp at h
  | cons p t ih =>
    obtain ⟨k1, v1⟩ := p
    rw [List.map_cons, List.nodup_cons] at hnd
    rcases List.mem_cons.mp h with h1 | h1
    · injection h1 with ha hb
      subst ha
      rw [alGet, if_pos rfl, hb]
    · have hk : k1 ≠ k := by
        intro hc
        subst hc
        exact hnd.1 (by simpa using List.mem_map_of_mem Prod.fst h1)
      rw [alGet, if_neg hk]
      exact ih hnd.2 h1

theorem mergeLoop_identical (nc : Value) (e : AttrMap)
    (l : List (String × Value)) (h : ∀ kv ∈ l, amGet e kv.1 = some kv.2) :
    mergeLoop nc e l = some e := by
  induction l with
  | nil => rfl
  | cons kv rest ih =>
    obtain ⟨k, v⟩ := kv
    have hk := h (k, v) (List.mem_cons_self _ _)
    have hstep : mergeStep nc e (k, v) = some e := by
      simp only [mergeStep, hk]
      rw [if_neg (by simp), if_neg (by simp)]
    rw [mergeLoop, hstep]
    simpa using ih (fun kv hkv => h kv (List.mem_cons_of_mem _ hkv))

theorem merge_attrs_self (d : AttrMap) (id now1 now2 : String) (info0 info : Value)
    (hnodup : (amKeys d).Nodup)
    (hres : ∀ kv ∈ d, kv.1 ≠ "entity_id" ∧ kv.1 ≠ "sources" ∧ kv.1 ≠ "merged_count"
      ∧ kv.1 ≠ "match_history" ∧ kv.1 ≠ "created_at" ∧ kv.1 ≠ "last_updated")
    (hconf : amGet d "confidence" = .none ∨
      ∃ q, amGet d "confidence" = some (.num q)) :
    ∃ e6, merge_attrs (seedEntity d id now1 info0) d info now2 = some e6 ∧
      amGet e6 "merged_count" = some (.num 2) ∧
      (∀ k, hasCHSuffix k = true → amGet e6 k = amGet d k) := by
  have hloop : mergeLoop (dgetD d "confidence" (.num 1))
      (seedEntity d id now1 info0) d = some (seedEntity d id now1 info0) := by
    apply mergeLoop_identical
    intro kv hkv
    obtain ⟨k, v⟩ := kv
    obtain ⟨h1, h2, h3, h5, h6, h7⟩ := hres (k, v) hkv
    by_cases h4 : k = "confidence"
    · subst h4
      rw [amGet_seed_conf]
      have hdk : amGet d "confidence" = some v := alGet_of_mem_nodup d _ v hnodup hkv
      rw [dgetD, hdk]
      rfl
    · rw [amGet_seed_other d id now1 info0 k h1 h2 h3 h4 h5 h6 h7]
      exact alGet_of_mem_nodup d k v hnodup hkv
  have hcq : ∃ cq, dgetD d "confidence" (.num 1) = .num cq := by
    rcases hconf with h | ⟨q, h⟩
    · exact ⟨1, by rw [dgetD, h]; rfl⟩
    · exact ⟨q, by rw [dgetD, h]; rfl⟩
  obtain ⟨cq, hcqe⟩ := hcq
  rw [merge_attrs, hloop]
  simp only [Option.bind_eq_bind, Option.some_bind]
  rw [amGet_seed_sources]
  simp only [pyContains, Option.some_bind]
  rw [show decide ((dgetD d "source" (.str "unknown"))
      ∈ [dgetD d "source" (.str "unknown")]) = true by simp]
  simp only [if_true]
  rw [amGet_seed_mc]
  simp only [pyInc, Option.some_bind]
  rw [show ratAdd 1 (mkRat 1 1) = (2 : Rat) by decide]
  rw [show amGet (amSet (seedEntity d id now1 info0) "merged_count" (.num 2))
      "match_history" = some (.list [info0]) from by
    rw [amGet_amSet_ne _ _ _ _ (by decide)]
    exact amGet_seed_mh d id now1 info0]
  simp only [pyAppend, Option.some_bind]
  rw [show amGet (amSet (amSet (amSet (seedEntity d id now1 info0)
      "merged_count" (.num 2)) "match_history" (.list ([info0] ++ [info])))
      "last_updated" (.str now2)) "confidence"
      = some (.num cq) from by
    rw [amGet_amSet_ne _ _ _ _ (by decide), amGet_amSet_ne _ _ _ _ (by decide),
      amGet_amSet_ne _ _ _ _ (by decide), amGet_seed_conf, hcqe]]
  simp only [pyScale, Option.some_bind, pyAdd, hcqe]
  refine ⟨_, rfl, ?_, ?_⟩
  · rw [amGet_amSet_ne _ _ _ _ (by decide), amGet_amSet_ne _ _ _ _ (by decide),
      amGet_amSet_ne _ _ _ _ (by decide), amGet_amSet_self]
  · intro k hk
    have hk1 : k ≠ "confidence" := by
      intro hc; subst hc; exact absurd hk (by decide)
    have hk2 : k ≠ "last_updated" := by
      intro hc; subst hc; exact absurd hk (by decide)
    have hk3 : k ≠ "match_history" := by
      intro hc; subst hc; exact absurd hk (by decide)
    have hk4 : k ≠ "merged_count" := by
      intro hc; subst hc; exact absurd hk (by decide)
    rw [amGet_amSet_ne _ _ _ _ hk1, amGet_amSet_ne _ _ _ _ hk2,
      amGet_amSet_ne _ _ _ _ hk3, amGet_amSet_ne _ _ _ _ hk4]
    refine amGet_seed_other d id now1 info0 k ?_ ?_ ?_ hk1 hk3 ?_ hk2
    · intro hc; subst hc; exact absurd hk (by decide)
    · intro hc; subst hc; exact absurd hk (by decide)
    · intro hc; subst hc; exact absurd hk (by decide)
    · intro hc; subst hc; exact absurd hk (by decide)

theorem runLenF_le (a b : List Char) (ahi bhi : Nat) :
    ∀ (fuel i j : Nat), runLenF a b ahi bhi fuel i j ≤ fuel := by
  intro fuel
  induction fuel with
  | zero => intro i j; rw [runLenF]
  | succ f ih =>
    intro i j
    rw [runLenF]
    split
    · have := ih (i+1) (j+1)
      omega
    · exact Nat.zero_le _

theorem runLenF_self (a : List Char) :
    ∀ (f i : Nat), i + f = a.length → runLenF a a a.length a.length f i i = f := by
  intro f
  induction f with
  | zero => intro i _; rw [runLenF]
  | succ g ih =>
    intro i hi
    rw [runLenF]
    rw [if_pos]
    · rw [ih (i+1) (by omega)]
      omega
    · have hilt : i < a.length := by omega
      simp [hilt]

theorem flm_fold_keep (a b : List Char) (ahi bhi : Nat)
    (l : List (Nat × Nat)) (best : Nat × Nat × Nat)
    (h : ∀ p ∈ l, runLenF a b ahi bhi (ahi - p.1) p.1 p.2 ≤ best.2.2) :
    l.foldl (fun best p =>
      let k := runLenF a b ahi bhi (ahi - p.1) p.1 p.2
      if k > best.2.2 then (p.1, p.2, k) else best) best = best := by
  induction l with
  | nil => rfl
  | cons p t ih =>
    rw [List.foldl_cons]
    have hp := h p (List.mem_cons_self _ _)
    rw [if_neg (by omega)]
    exact ih (fun q hq => h q (List.mem_cons_of_mem _ hq))

theorem flmPairs_head (alo ahi blo bhi : Nat) (h1 : alo < ahi) (h2 : blo < bhi) :
    ∃ rest, flmPairs alo ahi blo bhi = (alo, blo) :: rest := by
  rw [flmPairs]
  obtain ⟨n, hn⟩ := Nat.exists_eq_succ_of_ne_zero (by omega : ahi - alo ≠ 0)
  obtain ⟨m, hm⟩ := Nat.exists_eq_succ_of_ne_zero (by omega : bhi - blo ≠ 0)
  rw [hn, hm]
  rw [List.range_succ_eq_map, List.range_succ_eq_map]
  refine ⟨List.map (fun dj => (alo, blo + dj)) (List.map Nat.succ (List.range m))
    ++ ((List.map Nat.succ (List.range n)).flatMap
      fun di => List.map (fun dj => (alo + di, blo + dj))
        (0 :: List.map Nat.succ (List.range m))), ?_⟩
  rw [List.flatMap_cons]
  try dsimp only
  rw [List.map_cons]
  simp only [Nat.add_zero, List.cons_append]

theorem find_longest_match_self (a : List Char) (h : a ≠ []) :
    find_longest_match a a 0 a.length 0 a.length = (0, 0, a.length) := by
  have hlen : 0 < a.length := List.length_pos.mpr h
  obtain ⟨rest, hr⟩ := flmPairs_head 0 a.length 0 a.length hlen hlen
  rw [find_longest_match, hr, List.foldl_cons]
  have h00 : runLenF a a a.length a.length (a.length - 0) 0 0 = a.length := by
    rw [Nat.sub_zero]
    exact runLenF_self a a.length 0 (by omega)
  rw [if_pos (by rw [h00]; exact hlen)]
  rw [h00]
  apply flm_fold_keep
  intro p _
  calc runLenF a a a.length a.length (a.length - p.1) p.1 p.2
      ≤ a.length - p.1 := runLenF_le a a a.length a.length _ p.1 p.2
    _ ≤ a.length := Nat.sub_le _ _

theorem flmPairs_empty_left (ahi blo bhi : Nat) :
    flmPairs ahi ahi blo bhi = [] := by
  simp [flmPairs]

theorem find_longest_match_empty (a b : List Char) (x blo bhi : Nat) :
    find_longest_match a b x x blo bhi = (x, blo, 0) := by
  rw [find_longest_match, flmPairs_empty_left]
  rfl

theorem matchSizeF_empty (a b : List Char) (fuel x blo bhi : Nat) :
    matchSizeF a b fuel x x blo bhi = 0 := by
  cases fuel with
  | zero => rw [matchSizeF]
  | succ f =>
    rw [matchSizeF, find_longest_match_empty]
    simp

theorem matchSize_self (a : List Char) (h : a ≠ []) : matchSize a a = a.length := by
  have hlen : 0 < a.length := List.length_pos.mpr h
  rw [matchSize, matchSizeF]
  rw [find_longest_match_self a h]
  dsimp only
  rw [if_neg (by omega)]
  simp [matchSizeF_empty]

theorem seqRatio_self (s : String) : seqRatio s s = 1 := by
  rw [seqRatio]
  by_cases h : s.length = 0
  · rw [if_pos (by omega)]
  · rw [if_neg (by omega)]
    have hnz : s.toList ≠ [] := by
      intro hc
      exact h (congrArg List.length hc)
    have hlen : s.toList.length = s.length := rfl
    rw [matchSize_self s.toList hnz, hlen]
    rw [Rat.mkRat_eq_div]
    push_cast
    have hq : ((s.length : Nat) : Rat) ≠ 0 := by exact_mod_cast h
    field_simp
    ring

theorem levenshtein_list_self (l : List Char) :
    levenshtein Levenshtein.defaultCost l l = 0 := by
  induction l with
  | nil => simp [levenshtein_nil_nil]
  | cons x xs ih =>
    rw [levenshtein_cons_cons]
    simp [Levenshtein.defaultCost_substitute, Levenshtein.defaultCost_delete,
      Levenshtein.defaultCost_insert, ih]

theorem levenshtein_distance_self (s : String) : levenshtein_distance s s = 0 := by
  rw [levenshtein_distance]
  exact levenshtein_list_self _

theorem eraseDups_loop_extends {α : Type} [BEq α] (as : List α) :
    ∀ bs : List α, ∃ t, List.eraseDups.loop as bs = bs.reverse ++ t := by
  induction as with
  | nil => exact fun bs => ⟨[], by rw [List.eraseDups.loop]; simp⟩
  | cons a as ih =>
    intro bs
    rw [List.eraseDups.loop]
    cases h : bs.elem a with
    | true => simpa using ih bs
    | false =>
      obtain ⟨t, ht⟩ := ih (a :: bs)
      refine ⟨a :: t, ?_⟩
      rw [ht]
      simp

theorem charSet_ne_nil (a : String) (h : a.toList ≠ []) : charSet a ≠ [] := by
  rw [charSet]
  cases hl : a.toList with
  | nil => exact absurd hl h
  | cons c cs =>
    rw [List.eraseDups]
    rw [List.eraseDups.loop]
    obtain ⟨t, ht⟩ := eraseDups_loop_extends cs [c]
    simp only [List.elem_nil, ht]
    simp

theorem jaccard_self (a : String) (h : a.toList ≠ []) : jaccard a a = 1 := by
  rw [jaccard]
  try dsimp only
  have h1 : (charSet a).filter (fun c => decide (c ∈ charSet a)) = charSet a := by
    rw [List.filter_eq_self]
    intro c hc
    simpa using hc
  have h2 : (charSet a).filter (fun c => decide (c ∉ charSet a)) = [] := by
    rw [List.filter_eq_nil]
    intro c hc
    simpa using hc
  rw [h1, h2, List.append_nil]
  obtain ⟨c, t, hct⟩ := List.exists_cons_of_ne_nil (charSet_ne_nil a h)
  rw [hct]
  rw [if_neg (by simp)]
  rw [Rat.mkRat_eq_div]
  apply div_self
  push_cast
  intro hc
  have h0 : (0 : Rat) ≤ ((t.length : Int) : Rat) := by positivity
  rw [List.length_cons] at hc
  push_cast at h0 hc
  linarith

theorem mkRat_zero_num (n : Nat) : mkRat 0 n = 0 := by
  rw [Rat.mkRat_eq_div]
  simp

theorem combinedScore_self (s : String) (h : s.toList ≠ []) :
    combinedScore s s = 1 := by
  rw [combinedScore]
  try dsimp only
  have hlen : 0 < s.length := by
    cases hl : s.toList with
    | nil => exact absurd hl h
    | cons c cs =>
      have : s.toList.length = cs.length + 1 := by rw [hl]; rfl
      have hsl : s.length = s.toList.length := rfl
      omega
  rw [seqRatio_self, jaccard_self s h, levenshtein_distance_self]
  simp only [Nat.max_self]
  rw [if_pos hlen]
  rw [show (-(0 : Nat) : Int) = 0 by simp, mkRat_zero_num]
  rw [ratMul_eq, ratMul_eq, ratMul_eq, ratAdd_eq, ratAdd_eq, ratAdd_eq]
  rw [Rat.mkRat_eq_div, Rat.mkRat_eq_div, Rat.mkRat_eq_div, Rat.mkRat_eq_div]
  push_cast
  norm_num

theorem alGet_cons_self {κ α : Type} [DecidableEq κ] (k : κ) (v : α)
    (t : List (κ × α)) : alGet ((k, v) :: t) k = some v := by
  rw [alGet, if_pos rfl]

theorem alSet_cons_self {κ α : Type} [DecidableEq κ] (k : κ) (v w : α)
    (t : List (κ × α)) : alSet ((k, v) :: t) k w = (k, w) :: t := by
  rw [alSet, if_pos rfl]

theorem isEmpty_false_of_toList_ne (s : String) (h : s.toList ≠ []) :
    s.isEmpty = false := by
  rw [Bool.eq_false_iff]
  intro hc
  have hs := (String.isEmpty_iff s).mp hc
  subst hs
  exact h rfl

theorem tier1_none_of_falsy (reg : Registry) (d : AttrMap)
    (h1 : (phoneVal d).truthy = false) (h2 : (wechatVal d).truthy = false)
    (h3 : (idcardVal d).truthy = false) (h4 : (accountVal d).truthy = false) :
    tier1 reg d = none := by
  rw [tier1, phoneHit, if_neg (by simp [h1]), wechatHit, if_neg (by simp [h2]),
    idcardHit, if_neg (by simp [h3]), accountHit, if_neg (by simp [h4])]

theorem create_entity_entities (reg : Registry) (d : AttrMap) (now : String) :
    (create_entity reg d now).2.2.entities =
      alSet reg.entities (entityName reg.next_id)
        (seedEntity d (entityName reg.next_id) now
          (mkMatchInfo (.num 0) .none (.num 1) .none (.str "new_entity"))) := rfl

theorem create_entity_name_index (reg : Registry) (d : AttrMap) (now : String)
    (h : (dget d "name").truthy = true) :
    (create_entity reg d now).2.2.name_index =
      alSet reg.name_index (normalize_name (dget d "name")) (entityName reg.next_id) := by
  simp [create_entity, h]

theorem create_entity_wechat_index (reg : Registry) (d : AttrMap) (now : String)
    (h : (wechatVal d).truthy = false) :
    (create_entity reg d now).2.2.wechat_index = reg.wechat_index := by
  simp [create_entity, h]

theorem create_entity_idcard_index (reg : Registry) (d : AttrMap) (now : String)
    (h : (idcardVal d).truthy = false) :
    (create_entity reg d now).2.2.idcard_index = reg.idcard_index := by
  simp [create_entity, h]

theorem create_entity_account_index (reg : Registry) (d : AttrMap) (now : String)
    (h : (accountVal d).truthy = false) :
    (create_entity reg d now).2.2.account_index = reg.account_index := by
  simp [create_entity, h]

theorem register_tier2 (reg : Registry) (d : AttrMap) (now id : String) (score : Rat)
    (h1 : tier1 reg d = none) (hname : (dget d "name").truthy = true)
    (h2 : find_best_name_match reg (normalize_name (dget d "name")) = (some id, score))
    (hgate : score ≥ mkRat 85 100) :
    register_entity reg d now =
      (merge_entity reg id d
        (mkMatchInfo (.num 2) (.str id) (.num score) (.str "name") (.str "semantic")) now).map
        (fun r => (id,
          mkMatchInfo (.num 2) (.str id) (.num score) (.str "name") (.str "semantic"), r)) := by
  rw [register_entity, h1]
  dsimp only
  rw [if_pos hname, h2]
  dsimp only
  rw [if_pos hgate]

theorem find_best_singleton_self (norm id : String) (reg : Registry)
    (h : norm.toList ≠ []) (hidx : reg.name_index = [(norm, id)]) :
    find_best_name_match reg norm = (some id, 1) := by
  rw [find_best_name_match]
  rw [if_neg (by rw [isEmpty_false_of_toList_ne norm h]; exact Bool.false_ne_true)]
  rw [hidx, List.foldl_cons, List.foldl_nil, bestStep]
  dsimp only
  rw [combinedScore_self norm h]
  have hadapt : (1 : Rat) ≥ ratSub (mkRat 85 100)
      (if norm.length ≤ 3 then mkRat 1 10 else mkRat 0 1) := by
    by_cases h3 : norm.length ≤ 3
    · rw [if_pos h3]; decide
    · rw [if_neg h3]; decide
  rw [if_pos ⟨by decide, hadapt⟩]

theorem register_second_identical (d : AttrMap) (now1 now2 : String)
    (hnodup : (amKeys d).Nodup)
    (hres : ∀ kv ∈ d, kv.1 ≠ "entity_id" ∧ kv.1 ≠ "sources" ∧ kv.1 ≠ "merged_count"
      ∧ kv.1 ≠ "match_history" ∧ kv.1 ≠ "created_at" ∧ kv.1 ≠ "last_updated")
    (hconf : amGet d "confidence" = .none ∨ ∃ q, amGet d "confidence" = some (.num q))
    (hid : (phoneVal d).truthy = true ∨
      ((phoneVal d).truthy = false ∧ (wechatVal d).truthy = false ∧
       (idcardVal d).truthy = false ∧ (accountVal d).truthy = false ∧
       (dget d "name").truthy = true ∧ (normalize_name (dget d "name")).toList ≠ [])) :
    ∃ i2 e, register_entity (create_entity emptyRegistry d now1).2.2 d now2
        = some (entityName 1, i2,
            { (create_entity emptyRegistry d now1).2.2 with
                entities := [(entityName 1, e)] }) ∧
      amGet e "merged_count" = some (.num 2) ∧
      (∀ k, hasCHSuffix k = true → amGet e k = amGet d k) := by
  have hent1 : (create_entity emptyRegistry d now1).2.2.entities
      = [(entityName 1, seedEntity d (entityName 1) now1
          (mkMatchInfo (.num 0) .none (.num 1) .none (.str "new_entity")))] := rfl
  rcases hid with hph | ⟨hph, hwc, hic, hac, hnm, hnn⟩
  · obtain ⟨e6, he6, hmc, hch⟩ := merge_attrs_self d (entityName 1) now1 now2
      (mkMatchInfo (.num 0) .none (.num 1) .none (.str "new_entity"))
      (mkMatchInfo (.num 1) (.str (entityName 1)) (.num (mkRat 1 1))
        (.str "phone") (.str "deterministic")) hnodup hres hconf
    have hpidx : (create_entity emptyRegistry d now1).2.2.phone_index
        = [(normalize_phone (phoneVal d), entityName 1)] := by
      rw [create_entity_phone_index emptyRegistry d now1 hph]
      rfl
    have htier : tier1 (create_entity emptyRegistry d now1).2.2 d
        = some ("phone", entityName 1, mkRat 1 1) := by
      rw [tier1, phoneHit, if_pos hph, hpidx, alGet_cons_self]
    have hmerge : merge_entity (create_entity emptyRegistry d now1).2.2 (entityName 1) d
        (mkMatchInfo (.num 1) (.str (entityName 1)) (.num (mkRat 1 1))
          (.str "phone") (.str "deterministic")) now2
        = some { (create_entity emptyRegistry d now1).2.2 with
            entities := [(entityName 1, e6)] } := by
      rw [merge_entity, hent1, alGet_cons_self]
      simp only [Option.bind_eq_bind, Option.some_bind]
      rw [he6]
      simp only [Option.some_bind]
      rw [alSet_cons_self]
    refine ⟨mkMatchInfo (.num 1) (.str (entityName 1)) (.num (mkRat 1 1))
      (.str "phone") (.str "deterministic"), e6, ?_, hmc, hch⟩
    rw [register_tier1 _ _ _ _ _ _ htier, hmerge]
    rfl
  · obtain ⟨e6, he6, hmc, hch⟩ := merge_attrs_self d (entityName 1) now1 now2
      (mkMatchInfo (.num 0) .none (.num 1) .none (.str "new_entity"))
      (mkMatchInfo (.num 2) (.str (entityName 1)) (.num 1)
        (.str "name") (.str "semantic")) hnodup hres hconf
    have htier : tier1 (create_entity emptyRegistry d now1).2.2 d =
        none := tier1_none_of_falsy _ _ hph hwc hic hac
    have hnidx : (create_entity emptyRegistry d now1).2.2.name_index
        = [(normalize_name (dget d "name"), entityName 1)] := by
      rw [create_entity_name_index emptyRegistry d now1 hnm]
      rfl
    have hbest : find_best_name_match (create_entity emptyRegistry d now1).2.2
        (normalize_name (dget d "name")) = (some (entityName 1), 1) :=
      find_best_singleton_self _ _ _ hnn hnidx
    have hmerge : merge_entity (create_entity emptyRegistry d now1).2.2 (entityName 1) d
        (mkMatchInfo (.num 2) (.str (entityName 1)) (.num 1)
          (.str "name") (.str "semantic")) now2
        = some { (create_entity emptyRegistry d now1).2.2 with
            entities := [(entityName 1, e6)] } := by
      rw [merge_entity, hent1, alGet_cons_self]
      simp only [Option.bind_eq_bind, Option.some_bind]
      rw [he6]
      simp only [Option.some_bind]
      rw [alSet_cons_self]
    refine ⟨mkMatchInfo (.num 2) (.str (entityName 1)) (.num 1)
      (.str "name") (.str "semantic"), e6, ?_, hmc, hch⟩
    rw [register_tier2 _ _ _ _ _ htier hnm hbest (by decide), hmerge]
    rfl

/-- C3: the spec claims that registering the same attribute bundle twice is
idempotent for every bundle.  That fails in general (see the counterexample:
an identifier-free bundle is registered as two distinct entities, and a
bundle carrying the reserved key `merged_count` produces a spurious
merged_count_conflict_history entry on its own re-registration).  The
corrected statement proved here: for a bundle with duplicate-free keys, no
reserved bookkeeping keys, a confidence that is absent or numeric, and a
usable identifier (a truthy phone field, or no truthy deterministic
identifier but a truthy name whose normalisation is nonempty), registering
it twice from the fresh registry returns the same entity id both times,
leaves `merged_count` at 2 (incremented by exactly one by the second call),
and appends no conflict-history entry to any attribute. -/
theorem C3_idempotent_on_wellformed (d : AttrMap) (now1 now2 : String)
    (hnodup : (amKeys d).Nodup)
    (hres : ∀ kv ∈ d, kv.1 ≠ "entity_id" ∧ kv.1 ≠ "sources" ∧ kv.1 ≠ "merged_count"
      ∧ kv.1 ≠ "match_history" ∧ kv.1 ≠ "created_at" ∧ kv.1 ≠ "last_updated")
    (hconf : amGet d "confidence" = .none ∨ ∃ q, amGet d "confidence" = some (.num q))
    (hid : (phoneVal d).truthy = true ∨
      ((phoneVal d).truthy = false ∧ (wechatVal d).truthy = false ∧
       (idcardVal d).truthy = false ∧ (accountVal d).truthy = false ∧
       (dget d "name").truthy = true ∧ (normalize_name (dget d "name")).toList ≠ [])) :
    ∃ id i1 reg1 i2 reg2 e,
      register_entity emptyRegistry d now1 = some (id, i1, reg1) ∧
      register_entity reg1 d now2 = some (id, i2, reg2) ∧
      alGet reg2.entities id = some e ∧
      amGet e "merged_count" = some (.num 2) ∧
      (∀ k, hasCHSuffix k = true → amGet e k = amGet d k) := by
  obtain ⟨i2, e, hsec, hmc, hch⟩ :=
    register_second_identical d now1 now2 hnodup hres hconf hid
  refine ⟨entityName 1, (create_entity emptyRegistry d now1).2.1,
    (create_entity emptyRegistry d now1).2.2, i2,
    { (create_entity emptyRegistry d now1).2.2 with
        entities := [(entityName 1, e)] },
    e, ?_, hsec, alGet_cons_self _ _ _, hmc, hch⟩
  exact register_emptyRegistry d now1

theorem C3_idempotent_on_wellformed_witness :
    ∃ id i1 reg1 i2 reg2 e,
      register_entity emptyRegistry [("phone", .str "13800000000")] "T0"
        = some (id, i1, reg1) ∧
      register_entity reg1 [("phone", .str "13800000000")] "T1"
        = some (id, i2, reg2) ∧
      alGet reg2.entities id = some e ∧
      amGet e "merged_count" = some (.num 2) ∧
      (∀ k, hasCHSuffix k = true →
        amGet e k = amGet [("phone", .str "13800000000")] k) :=
  C3_idempotent_on_wellformed [("phone", .str "13800000000")] "T0" "T1"
    (by decide) (by decide) (Or.inl (by decide)) (Or.inl (by decide))

/-- C3 counterexample to the literal claim "for every attribute bundle":
the empty bundle is registered twice as two distinct entity ids, and a
bundle carrying the reserved key `merged_count` merges with itself yet
appends a merged_count_conflict_history entry (an identical second
registration is not conflict-free). -/
theorem C3_idempotence_counterexample :
    ((do
        let r1 ← register_entity emptyRegistry [] "T0"
        let r2 ← register_entity r1.2.2 [] "T1"
        some (r1.1, r2.1)) = some ("ENTITY_000001", "ENTITY_000002")) ∧
    ((do
        let r1 ← register_entity emptyRegistry
          [("phone", .str "13800000000"), ("merged_count", .num 5)] "T0"
        let r2 ← register_entity r1.2.2
          [("phone", .str "13800000000"), ("merged_count", .num 5)] "T1"
        let e ← alGet r2.2.2.entities r2.1
        some (decide (r1.1 = r2.1), (amGet e "merged_count_conflict_history").isSome))
      = some (true, true)) := by decide

theorem append_ch_ne (k : String) : k ++ "_conflict_history" ≠ k := by
  intro hc
  have hl := congrArg String.length hc
  rw [String.length_append] at hl
  have h17 : ("_conflict_history" : String).length = 17 := rfl
  omega

theorem mergeStep_absent (nc : Value) (entity : AttrMap) (k : String) (v : Value)
    (h : amGet entity k = none) :
    mergeStep nc entity (k, v) = some (amSet entity k v) := by
  rw [mergeStep]
  dsimp only
  rw [h]

theorem mergeStep_empty_existing (nc : Value) (entity : AttrMap) (k : String)
    (v ex : Value) (hget : amGet entity k = some ex) (hex : ex.truthy = false)
    (hv : v.truthy = true) :
    mergeStep nc entity (k, v) = some (amSet entity k v) ∧
      amGet (amSet entity k v) (k ++ "_conflict_history")
        = amGet entity (k ++ "_conflict_history") := by
  constructor
  · rw [mergeStep]
    dsimp only
    rw [hget]
    dsimp only
    rw [if_neg (by rw [hex]; simp), if_pos ⟨hex, hv⟩]
  · exact amGet_amSet_ne entity k (k ++ "_conflict_history") v (append_ch_ne k)

theorem mergeStep_conflict (entity : AttrMap) (k : String) (v ex : Value)
    (qe qn : Rat) (hist0 : List Value)
    (hget : amGet entity k = some ex) (hex : ex.truthy = true) (hne : ex ≠ v)
    (hv : v.truthy = true)
    (hqe : dgetD entity "confidence" (.num 1) = .num qe)
    (hh : dgetD entity (k ++ "_conflict_history") (.list []) = .list hist0) :
    mergeStep (.num qn) entity (k, v)
      = some (amSet (amSet entity k (if qe < qn then v else ex))
          (k ++ "_conflict_history")
          (.list (hist0 ++ [.dict [("existing", ex), ("new", v),
            ("resolved", if qe < qn then v else ex),
            ("strategy", .str "confidence_based")]]))) := by
  have hh1 : ∀ w : Value, dgetD (amSet entity k w) (k ++ "_conflict_history") (.list [])
      = .list hist0 := by
    intro w
    rw [dgetD, amGet_amSet_ne entity k (k ++ "_conflict_history") w (append_ch_ne k)]
    rw [dgetD] at hh
    exact hh
  rw [mergeStep]
  dsimp only
  rw [hget]
  dsimp only
  rw [if_pos ⟨hex, hne⟩, hqe]
  rw [resolve_conflict, if_neg hne, hex, hv]
  simp only [Bool.not_true, Option.bind_eq_bind]
  rw [if_neg Bool.false_ne_true, if_neg Bool.false_ne_true]
  simp only [pyGT, Option.some_bind]
  by_cases hlt : qe < qn
  · rw [if_pos (decide_eq_true hlt)]
    simp only [Option.some_bind]
    rw [hh1 v]
    simp only [pyAppend, Option.some_bind]
    rw [if_pos hlt]
  · rw [if_neg (by rw [decide_eq_false hlt]; exact Bool.false_ne_true)]
    simp only [Option.some_bind]
    rw [hh1 ex]
    simp only [pyAppend, Option.some_bind]
    rw [if_neg hlt]

theorem merge_attrs_blend (entity d : AttrMap) (info : Value) (now : String)
    (e1 : AttrMap) (qn qs mc : Rat) (ss mh : List Value)
    (hqn : dgetD d "confidence" (.num 1) = .num qn)
    (hloop : mergeLoop (.num qn) entity d = some e1)
    (hcs : amGet e1 "confidence" = some (.num qs))
    (hs : amGet e1 "sources" = some (.list ss))
    (hmc : amGet e1 "merged_count" = some (.num mc))
    (hmh : amGet e1 "match_history" = some (.list mh)) :
    ∃ e, merge_attrs entity d info now = some e ∧
      amGet e "confidence"
        = some (.num (ratAdd (ratMul (mkRat 3 10) qn) (ratMul (mkRat 7 10) qs))) := by
  rw [merge_attrs, hqn, hloop]
  simp only [Option.bind_eq_bind, Option.some_bind]
  rw [hs]
  simp only [pyContains, Option.some_bind]
  by_cases hsrc : dgetD d "source" (.str "unknown") ∈ ss
  · rw [if_pos (decide_eq_true hsrc)]
    try simp only [Option.some_bind]
    rw [hmc]
    simp only [pyInc, Option.some_bind]
    rw [show amGet (amSet e1 "merged_count" (.num (ratAdd mc (mkRat 1 1))))
        "match_history" = some (.list mh) from by
      rw [amGet_amSet_ne _ _ _ _ (by decide)]; exact hmh]
    simp only [pyAppend, Option.some_bind]
    rw [show amGet (amSet (amSet (amSet e1 "merged_count"
        (.num (ratAdd mc (mkRat 1 1)))) "match_history" (.list (mh ++ [info])))
        "last_updated" (.str now)) "confidence" = some (.num qs) from by
      rw [amGet_amSet_ne _ _ _ _ (by decide), amGet_amSet_ne _ _ _ _ (by decide),
        amGet_amSet_ne _ _ _ _ (by decide)]
      exact hcs]
    simp only [pyScale, Option.some_bind, pyAdd]
    exact ⟨_, rfl, amGet_amSet_self _ _ _⟩
  · rw [if_neg (by rw [decide_eq_false hsrc]; exact Bool.false_ne_true)]
    simp only [pyAppend, Option.some_bind]
    rw [show amGet (amSet e1 "sources"
        (.list (ss ++ [dgetD d "source" (.str "unknown")]))) "merged_count"
        = some (.num mc) from by
      rw [amGet_amSet_ne _ _ _ _ (by decide)]; exact hmc]
    simp only [pyInc, Option.some_bind]
    rw [show amGet (amSet (amSet e1 "sources"
        (.list (ss ++ [dgetD d "source" (.str "unknown")]))) "merged_count"
        (.num (ratAdd mc (mkRat 1 1)))) "match_history" = some (.list mh) from by
      rw [amGet_amSet_ne _ _ _ _ (by decide), amGet_amSet_ne _ _ _ _ (by decide)]
      exact hmh]
    simp only [pyAppend, Option.some_bind]
    rw [show amGet (amSet (amSet (amSet (amSet e1 "sources"
        (.list (ss ++ [dgetD d "source" (.str "unknown")]))) "merged_count"
        (.num (ratAdd mc (mkRat 1 1)))) "match_history" (.list (mh ++ [info])))
        "last_updated" (.str now)) "confidence" = some (.num qs) from by
      rw [amGet_amSet_ne _ _ _ _ (by decide), amGet_amSet_ne _ _ _ _ (by decide),
        amGet_amSet_ne _ _ _ _ (by decide), amGet_amSet_ne _ _ _ _ (by decide)]
      exact hcs]
    simp only [pyScale, Option.some_bind, pyAdd]
    exact ⟨_, rfl, amGet_amSet_self _ _ _⟩

/-- C4: the merge policy of _merge_entity, corrected on two points.  As
claimed: a key the entity lacks is set to the incoming value; and for two
truthy differing values with numeric confidences the resolver keeps the
incoming value exactly when the incoming confidence is strictly higher
(ties keep the existing value) and appends the losing value and decision
to the key's conflict history.  Contrary to the claim: a falsy existing
value is simply overwritten by a truthy incoming value with NO
conflict-history entry (the resolver is never consulted); and the final
confidence blend is 0.3 times the new confidence plus 0.7 times the
POST-LOOP stored confidence, which differs from the pre-merge confidence
whenever the per-key pass itself resolved a `confidence` conflict (see
the counterexample). -/
theorem C4_merge_policy :
    (∀ (nc : Value) (entity : AttrMap) (k : String) (v : Value),
      amGet entity k = none →
      mergeStep nc entity (k, v) = some (amSet entity k v)) ∧
    (∀ (nc : Value) (entity : AttrMap) (k : String) (v ex : Value),
      amGet entity k = some ex → ex.truthy = false → v.truthy = true →
      mergeStep nc entity (k, v) = some (amSet entity k v) ∧
        amGet (amSet entity k v) (k ++ "_conflict_history")
          = amGet entity (k ++ "_conflict_history")) ∧
    (∀ (entity : AttrMap) (k : String) (v ex : Value) (qe qn : Rat)
        (hist0 : List Value),
      amGet entity k = some ex → ex.truthy = true → ex ≠ v → v.truthy = true →
      dgetD entity "confidence" (.num 1) = .num qe →
      dgetD entity (k ++ "_conflict_history") (.list []) = .list hist0 →
      mergeStep (.num qn) entity (k, v)
        = some (amSet (amSet entity k (if qe < qn then v else ex))
            (k ++ "_conflict_history")
            (.list (hist0 ++ [.dict [("existing", ex), ("new", v),
              ("resolved", if qe < qn then v else ex),
              ("strategy", .str "confidence_based")]])))) ∧
    (∀ (entity d : AttrMap) (info : Value) (now : String) (e1 : AttrMap)
        (qn qs mc : Rat) (ss mh : List Value),
      dgetD d "confidence" (.num 1) = .num qn →
      mergeLoop (.num qn) entity d = some e1 →
      amGet e1 "confidence" = some (.num qs) →
      amGet e1 "sources" = some (.list ss) →
      amGet e1 "merged_count" = some (.num mc) →
      amGet e1 "match_history" = some (.list mh) →
      ∃ e, merge_attrs entity d info now = some e ∧
        amGet e "confidence"
          = some (.num (ratAdd (ratMul (mkRat 3 10) qn) (ratMul (mkRat 7 10) qs)))) :=
  ⟨fun nc entity k v h => mergeStep_absent nc entity k v h,
   fun nc entity k v ex hget hex hv => mergeStep_empty_existing nc entity k v ex hget hex hv,
   fun entity k v ex qe qn hist0 hget hex hne hv hqe hh =>
     mergeStep_conflict entity k v ex qe qn hist0 hget hex hne hv hqe hh,
   fun entity d info now e1 qn qs mc ss mh hqn hloop hcs hs hmc hmh =>
     merge_attrs_blend entity d info now e1 qn qs mc ss mh hqn hloop hcs hs hmc hmh⟩

theorem C4_merge_policy_witness :
    (mergeStep (.num 1) [] ("a", .str "x") = some (amSet [] "a" (.str "x"))) ∧
    (mergeStep (.num 1) [("a", .str "")] ("a", .str "x")
        = some (amSet [("a", .str "")] "a" (.str "x")) ∧
      amGet (amSet [("a", .str "")] "a" (.str "x")) ("a" ++ "_conflict_history")
        = amGet [("a", .str "")] ("a" ++ "_conflict_history")) ∧
    (mergeStep (.num (mkRat 9 10))
        [("a", .str "y"), ("confidence", .num (mkRat 1 2))] ("a", .str "x")
      = some (amSet (amSet [("a", .str "y"), ("confidence", .num (mkRat 1 2))]
          "a" (if mkRat 1 2 < mkRat 9 10 then .str "x" else .str "y"))
          ("a" ++ "_conflict_history")
          (.list ([] ++ [.dict [("existing", .str "y"), ("new", .str "x"),
            ("resolved", if mkRat 1 2 < mkRat 9 10 then .str "x" else .str "y"),
            ("strategy", .str "confidence_based")]])))) ∧
    (∃ e, merge_attrs
        [("sources", .list []), ("merged_count", .num 1),
         ("match_history", .list []), ("confidence", .num (mkRat 1 2))]
        [] (.str "I") "T1" = some e ∧
      amGet e "confidence" = some (.num (ratAdd (ratMul (mkRat 3 10) 1)
        (ratMul (mkRat 7 10) (mkRat 1 2))))) :=
  ⟨C4_merge_policy.1 (.num 1) [] "a" (.str "x") (by decide),
   C4_merge_policy.2.1 (.num 1) [("a", .str "")] "a" (.str "x") (.str "")
     (by decide) (by decide) (by decide),
   C4_merge_policy.2.2.1 [("a", .str "y"), ("confidence", .num (mkRat 1 2))]
     "a" (.str "x") (.str "y") (mkRat 1 2) (mkRat 9 10) []
     (by decide) (by decide) (by decide) (by decide) (by decide) (by decide),
   C4_merge_policy.2.2.2
     [("sources", .list []), ("merged_count", .num 1),
      ("match_history", .list []), ("confidence", .num (mkRat 1 2))]
     [] (.str "I") "T1"
     [("sources", .list []), ("merged_count", .num 1),
      ("match_history", .list []), ("confidence", .num (mkRat 1 2))]
     1 (mkRat 1 2) 1 [] []
     (by decide) (by decide) (by decide) (by decide) (by decide) (by decide)⟩

/-- C4 counterexample to the claimed merge policy: merging
`{k: "x", confidence: 0.9}` into an entity with a falsy value for `k`
and stored confidence 0.5 overwrites `k` without appending any
`k_conflict_history` entry (the spec claims the resolver records the
empty-value resolution), and the final confidence is 0.9 — the blend
`0.3*new + 0.7*stored` evaluated against the post-loop stored
confidence 0.9 — not the claimed `0.3*0.9 + 0.7*0.5 = 0.62` against the
pre-merge confidence. -/
theorem C4_blend_counterexample :
    ((do
        let e ← merge_attrs
          [("k", .str ""), ("confidence", .num (mkRat 1 2)),
           ("sources", .list []), ("merged_count", .num 1),
           ("match_history", .list [])]
          [("k", .str "x"), ("confidence", .num (mkRat 9 10))]
          (.str "I") "T1"
        some (amGet e "k", amGet e "k_conflict_history", amGet e "confidence"))
      = some (some (.str "x"), Option.none, some (.num (mkRat 9 10)))) ∧
    mkRat 9 10
      ≠ ratAdd (ratMul (mkRat 3 10) (mkRat 9 10)) (ratMul (mkRat 7 10) (mkRat 1 2)) := by
  decide

theorem lexLe_antisymm : ∀ (a b : List Char), lexLe a b = true → lexLe b a = true → a = b
  | [], [] => fun _ _ => rfl
  | [], _::_ => fun _ h2 => absurd h2 (by rw [lexLe]; exact Bool.false_ne_true)
  | _::_, [] => fun h1 _ => absurd h1 (by rw [lexLe]; exact Bool.false_ne_true)
  | a::as, b::bs => fun h1 h2 => by
      rw [lexLe] at h1 h2
      by_cases hab : a = b
      · subst hab
        rw [if_pos rfl] at h1
        rw [if_pos rfl] at h2
        rw [lexLe_antisymm as bs h1 h2]
      · rw [if_neg hab, charLt] at h1
        rw [if_neg (fun hc => hab hc.symm), charLt] at h2
        have g1 := of_decide_eq_true h1
        have g2 := of_decide_eq_true h2
        omega

theorem strLe_antisymm (a b : String) (h1 : strLe a b = true)
    (h2 : strLe b a = true) : a = b := by
  have h := lexLe_antisymm a.toList b.toList h1 h2
  cases a
  cases b
  exact congrArg String.mk h

theorem edgeKey_comm (a b : String) : edgeKey a b = edgeKey b a := by
  rw [edgeKey, edgeKey]
  cases hab : strLe a b <;> cases hba : strLe b a
  · rcases strLe_total a b with h | h
    · rw [hab] at h; exact absurd h Bool.false_ne_true
    · rw [hba] at h; exact absurd h Bool.false_ne_true
  · rw [if_neg Bool.false_ne_true, if_pos rfl]
  · rw [if_pos rfl, if_neg Bool.false_ne_true]
  · rw [if_pos rfl, if_pos rfl, strLe_antisymm a b hab hba]

theorem addNode_edge_map (g : RelationshipGraph) (n : String) :
    (addNode g n).edge_map = g.edge_map := rfl

theorem addNode_edges (g : RelationshipGraph) (n : String) :
    (addNode g n).edges = g.edges := rfl

theorem addEdge_fresh_em (g : RelationshipGraph) (s t rt : String) (w : Rat)
    (ts : String) (hts : ts.isEmpty = false) (md : AttrMap) (now : String)
    (h : alGet g.edge_map (edgeKey s t) = none) :
    (addEdge g s t rt w (some ts) md now).edge_map
      = alSet g.edge_map (edgeKey s t)
          { source := s, target := t, relation_type := rt, weight := w,
            timestamp := ts, metadata := md, frequency := 1 } ∧
    (addEdge g s t rt w (some ts) md now).edges = g.edges ++ [edgeKey s t] := by
  rw [addEdge]
  dsimp only
  simp only [addNode_edge_map, addNode_edges]
  rw [h]
  dsimp only
  rw [hts]
  exact ⟨rfl, rfl⟩

theorem addEdge_existing_em (g : RelationshipGraph) (s t rt : String) (w : Rat)
    (ts : String) (hts : ts.isEmpty = false) (md : AttrMap) (now : String)
    (e : EdgeData) (h : alGet g.edge_map (edgeKey s t) = some e) :
    (addEdge g s t rt w (some ts) md now).edge_map
      = alSet g.edge_map (edgeKey s t)
          { e with weight := ratAdd e.weight w, frequency := e.frequency + 1,
                   timestamp := strMin e.timestamp ts } ∧
    (addEdge g s t rt w (some ts) md now).edges = g.edges := by
  rw [addEdge]
  dsimp only
  simp only [addNode_edge_map, addNode_edges]
  rw [h]
  dsimp only
  rw [hts]
  rw [strMin, strLt]
  cases hle : strLe e.timestamp ts
  · exact ⟨rfl, rfl⟩
  · exact ⟨rfl, rfl⟩

/-- C6: edge accumulation in add_edge.  Starting from any graph with no
edge for the unordered pair of a and b, three calls for that pair with
weight 1 and nonempty timestamps — the second one with the endpoints
swapped and all three with arbitrary relation types — leave exactly one
edge object for the pair: the two orders produce the same unordered edge
key, the edge list grows by that single key, and the stored edge has
frequency 3, accumulated weight 3, the relation type of the first call
and the earliest of the three timestamps. -/
theorem C6_edge_accumulation (g : RelationshipGraph) (a b r1 r2 r3 : String)
    (ts1 ts2 ts3 : String) (m1 m2 m3 : AttrMap) (n1 n2 n3 : String)
    (hfresh : alGet g.edge_map (edgeKey a b) = none)
    (h1 : ts1.isEmpty = false) (h2 : ts2.isEmpty = false)
    (h3 : ts3.isEmpty = false) :
    edgeKey b a = edgeKey a b ∧
    (∃ e, alGet (addEdge (addEdge (addEdge g a b r1 1 (some ts1) m1 n1)
            b a r2 1 (some ts2) m2 n2) a b r3 1 (some ts3) m3 n3).edge_map
          (edgeKey a b) = some e ∧
      e.frequency = 3 ∧ e.weight = 3 ∧ e.relation_type = r1 ∧
      e.timestamp = strMin (strMin ts1 ts2) ts3) ∧
    (addEdge (addEdge (addEdge g a b r1 1 (some ts1) m1 n1)
        b a r2 1 (some ts2) m2 n2) a b r3 1 (some ts3) m3 n3).edges
      = g.edges ++ [edgeKey a b] := by
  obtain ⟨hm1, he1⟩ := addEdge_fresh_em g a b r1 1 ts1 h1 m1 n1 hfresh
  have hl1 : alGet (addEdge g a b r1 1 (some ts1) m1 n1).edge_map (edgeKey b a)
      = some { source := a, target := b, relation_type := r1, weight := 1,
               timestamp := ts1, metadata := m1, frequency := 1 } := by
    rw [← edgeKey_comm, hm1]
    exact alGet_alSet_self _ _ _
  obtain ⟨hm2, he2⟩ := addEdge_existing_em (addEdge g a b r1 1 (some ts1) m1 n1)
    b a r2 1 ts2 h2 m2 n2 _ hl1
  have hl2 : alGet (addEdge (addEdge g a b r1 1 (some ts1) m1 n1)
        b a r2 1 (some ts2) m2 n2).edge_map (edgeKey a b)
      = some { source := a, target := b, relation_type := r1,
               weight := ratAdd 1 1, timestamp := strMin ts1 ts2,
               metadata := m1, frequency := 2 } := by
    rw [hm2, edgeKey_comm]
    exact alGet_alSet_self _ _ _
  obtain ⟨hm3, he3⟩ := addEdge_existing_em (addEdge (addEdge g a b r1 1 (some ts1) m1 n1)
    b a r2 1 (some ts2) m2 n2) a b r3 1 ts3 h3 m3 n3 _ hl2
  refine ⟨(edgeKey_comm a b).symm,
    ⟨{ source := a, target := b, relation_type := r1,
       weight := ratAdd (ratAdd 1 1) 1, timestamp := strMin (strMin ts1 ts2) ts3,
       metadata := m1, frequency := 3 }, ?_, rfl, ?_, rfl, rfl⟩, ?_⟩
  · rw [hm3]
    exact alGet_alSet_self _ _ _
  · show ratAdd (ratAdd 1 1) 1 = 3
    rw [ratAdd_eq, ratAdd_eq]
    norm_num
  · rw [he3, he2, he1]

theorem C6_edge_accumulation_witness :
    edgeKey "B" "A" = edgeKey "A" "B" ∧
    (∃ e, alGet (addEdge (addEdge (addEdge graphInit "A" "B" "knows" 1
            (some "2024-01-03") [] "T0") "B" "A" "calls" 1 (some "2024-01-01") [] "T1")
            "A" "B" "pays" 1 (some "2024-01-02") [] "T2").edge_map
          (edgeKey "A" "B") = some e ∧
      e.frequency = 3 ∧ e.weight = 3 ∧ e.relation_type = "knows" ∧
      e.timestamp = strMin (strMin "2024-01-03" "2024-01-01") "2024-01-02") ∧
    (addEdge (addEdge (addEdge graphInit "A" "B" "knows" 1
        (some "2024-01-03") [] "T0") "B" "A" "calls" 1 (some "2024-01-01") [] "T1")
        "A" "B" "pays" 1 (some "2024-01-02") [] "T2").edges
      = graphInit.edges ++ [edgeKey "A" "B"] :=
  C6_edge_accumulation graphInit "A" "B" "knows" "calls" "pays"
    "2024-01-03" "2024-01-01" "2024-01-02" [] [] [] "T0" "T1" "T2"
    (by decide) (by decide) (by decide) (by decide)

/-- The structural invariant of RelationshipGraph maintained by add_node
and add_edge: the edge-key list is duplicate-free and coincides with the
edge_map domain, every endpoint of an edge key is a registered node, and
every non-loop edge is recorded in the adjacency lists of both
endpoints. -/
def graphInv (g : RelationshipGraph) : Prop :=
  g.edges.Nodup ∧
  (∀ k, k ∈ g.edges ↔ (alGet g.edge_map k).isSome = true) ∧
  (∀ k ∈ g.edges, k.1 ∈ g.nodes ∧ k.2 ∈ g.nodes) ∧
  (∀ k ∈ g.edges, k.1 ≠ k.2 →
    (k.2, k) ∈ (alGet g.adjacency k.1).getD [] ∧
    (k.1, k) ∈ (alGet g.adjacency k.2).getD [])

theorem graphInv_init : graphInv graphInit := by
  refine ⟨List.nodup_nil, ?_, ?_, ?_⟩
  · intro k
    simp [graphInit, alGet]
  · intro k hk
    simp [graphInit] at hk
  · intro k hk
    simp [graphInit] at hk

theorem addNode_nodes_mono (g : RelationshipGraph) (n x : String)
    (h : x ∈ g.nodes) : x ∈ (addNode g n).nodes := by
  rw [addNode]
  dsimp only
  split
  · exact h
  · exact List.mem_append_left _ h

theorem mem_addNode_self (g : RelationshipGraph) (n : String) :
    n ∈ (addNode g n).nodes := by
  rw [addNode]
  dsimp only
  split
  · assumption
  · exact List.mem_append_right _ (List.mem_singleton.mpr rfl)

theorem addNode_adj_getD (g : RelationshipGraph) (n u : String) :
    (alGet (addNode g n).adjacency u).getD [] = (alGet g.adjacency u).getD [] := by
  rw [addNode]
  dsimp only
  split
  · rfl
  · rename_i hns
    by_cases hu : u = n
    · subst hu
      rw [alGet_alSet_self]
      cases hcur : alGet g.adjacency u
      · rfl
      · rw [hcur] at hns
        exact absurd rfl hns
    · rw [alGet_alSet_ne _ _ _ _ hu]

theorem graphInv_addNode (g : RelationshipGraph) (n : String)
    (h : graphInv g) : graphInv (addNode g n) := by
  obtain ⟨h1, h2, h3, h4⟩ := h
  refine ⟨h1, h2, ?_, ?_⟩
  · intro k hk
    exact ⟨addNode_nodes_mono g n _ (h3 k hk).1, addNode_nodes_mono g n _ (h3 k hk).2⟩
  · intro k hk hne
    rw [addNode_adj_getD, addNode_adj_getD]
    exact h4 k hk hne

theorem adjAppend_getD_self (adj : List (String × List (String × (String × String))))
    (n : String) (e : String × (String × String)) :
    (alGet (adjAppend adj n e) n).getD [] = (alGet adj n).getD [] ++ [e] := by
  rw [adjAppend, alGet_alSet_self]
  rfl

theorem adjAppend_getD_ne (adj : List (String × List (String × (String × String))))
    (n u : String) (e : String × (String × String)) (h : u ≠ n) :
    (alGet (adjAppend adj n e) u).getD [] = (alGet adj u).getD [] := by
  rw [adjAppend, alGet_alSet_ne _ _ _ _ h]

theorem adjAppend_mem (adj : List (String × List (String × (String × String))))
    (n u : String) (e x : String × (String × String))
    (h : x ∈ (alGet adj u).getD []) :
    x ∈ (alGet (adjAppend adj n e) u).getD [] := by
  by_cases hu : u = n
  · subst hu
    rw [adjAppend_getD_self]
    exact List.mem_append_left _ h
  · rw [adjAppend, alGet_alSet_ne _ _ _ _ hu]
    exact h

theorem addEdge_core_existing (g : RelationshipGraph) (s t rt : String) (w : Rat)
    (ts : Option String) (md : AttrMap) (now : String) (e : EdgeData)
    (hkey : alGet g.edge_map (edgeKey s t) = some e) :
    ∃ e2, (addEdge g s t rt w ts md now).nodes = (addNode (addNode g s) t).nodes ∧
      (addEdge g s t rt w ts md now).edges = (addNode (addNode g s) t).edges ∧
      (addEdge g s t rt w ts md now).edge_map
        = alSet (addNode (addNode g s) t).edge_map (edgeKey s t) e2 ∧
      (addEdge g s t rt w ts md now).adjacency
        = (addNode (addNode g s) t).adjacency := by
  rw [addEdge.eq_def]
  dsimp only
  simp only [addNode_edge_map]
  rw [hkey]
  dsimp only
  cases ts with
  | none => exact ⟨_, rfl, rfl, rfl, rfl⟩
  | some u =>
    dsimp only
    split
    · split
      · exact ⟨_, rfl, rfl, rfl, rfl⟩
      · exact ⟨_, rfl, rfl, rfl, rfl⟩
    · split
      · exact ⟨_, rfl, rfl, rfl, rfl⟩
      · exact ⟨_, rfl, rfl, rfl, rfl⟩

theorem addEdge_core_fresh (g : RelationshipGraph) (s t rt : String) (w : Rat)
    (ts : Option String) (md : AttrMap) (now : String)
    (hkey : alGet g.edge_map (edgeKey s t) = none) :
    ∃ enew, (addEdge g s t rt w ts md now).nodes = (addNode (addNode g s) t).nodes ∧
      (addEdge g s t rt w ts md now).edges
        = (addNode (addNode g s) t).edges ++ [edgeKey s t] ∧
      (addEdge g s t rt w ts md now).edge_map
        = alSet (addNode (addNode g s) t).edge_map (edgeKey s t) enew ∧
      (addEdge g s t rt w ts md now).adjacency
        = (if s ≠ t then
            adjAppend (adjAppend (addNode (addNode g s) t).adjacency s
              (t, edgeKey s t)) t (s, edgeKey s t)
          else adjAppend (addNode (addNode g s) t).adjacency s (t, edgeKey s t)) := by
  rw [addEdge.eq_def]
  dsimp only
  simp only [addNode_edge_map]
  rw [hkey]
  dsimp only
  cases ts with
  | none => exact ⟨_, rfl, rfl, rfl, rfl⟩
  | some u =>
    dsimp only
    split
    · exact ⟨_, rfl, rfl, rfl, rfl⟩
    · exact ⟨_, rfl, rfl, rfl, rfl⟩

theorem edgeKey_cases (s t : String) : edgeKey s t = (s, t) ∨ edgeKey s t = (t, s) := by
  rw [edgeKey]
  split
  · exact Or.inl rfl
  · exact Or.inr rfl

theorem graphInv_addEdge (g : RelationshipGraph) (s t rt : String) (w : Rat)
    (ts : Option String) (md : AttrMap) (now : String)
    (h : graphInv g) : graphInv (addEdge g s t rt w ts md now) := by
  have hg' : graphInv (addNode (addNode g s) t) :=
    graphInv_addNode _ _ (graphInv_addNode _ _ h)
  obtain ⟨h1, h2, h3, h4⟩ := hg'
  cases hkey : alGet g.edge_map (edgeKey s t) with
  | some e =>
    obtain ⟨e2, hn, he, hm, ha⟩ := addEdge_core_existing g s t rt w ts md now e hkey
    refine ⟨?_, ?_, ?_, ?_⟩
    · rw [he]; exact h1
    · intro k
      rw [he, hm]
      by_cases hk : k = edgeKey s t
      · subst hk
        rw [alGet_alSet_self]
        constructor
        · intro _; rfl
        · intro _
          exact (h2 _).mpr (by rw [addNode_edge_map, addNode_edge_map, hkey]; rfl)
      · rw [alGet_alSet_ne _ _ _ _ hk]
        exact h2 k
    · intro k hk
      rw [he] at hk
      rw [hn]
      exact h3 k hk
    · intro k hk hne
      rw [he] at hk
      rw [ha]
      exact h4 k hk hne
  | none =>
    obtain ⟨enew, hn, he, hm, ha⟩ := addEdge_core_fresh g s t rt w ts md now hkey
    have hnotmem : edgeKey s t ∉ (addNode (addNode g s) t).edges := by
      intro hc
      have hs := (h2 _).mp hc
      rw [addNode_edge_map, addNode_edge_map, hkey] at hs
      exact Bool.false_ne_true hs
    refine ⟨?_, ?_, ?_, ?_⟩
    · rw [he]
      refine List.nodup_append.mpr ⟨h1, List.nodup_singleton _, ?_⟩
      intro x hx hx1
      rw [List.mem_singleton] at hx1
      subst hx1
      exact hnotmem hx
    · intro k
      rw [he, hm]
      by_cases hk : k = edgeKey s t
      · subst hk
        rw [alGet_alSet_self]
        exact ⟨fun _ => rfl,
          fun _ => List.mem_append_right _ (List.mem_singleton.mpr rfl)⟩
      · rw [alGet_alSet_ne _ _ _ _ hk, List.mem_append, List.mem_singleton]
        constructor
        · rintro (hmem | hc)
          · exact (h2 k).mp hmem
          · exact absurd hc hk
        · intro hs
          exact Or.inl ((h2 k).mpr hs)
    · intro k hk
      rw [he, List.mem_append, List.mem_singleton] at hk
      rw [hn]
      rcases hk with hk | hk
      · exact h3 k hk
      · subst hk
        have hsn : s ∈ (addNode (addNode g s) t).nodes :=
          addNode_nodes_mono _ _ _ (mem_addNode_self g s)
        have htn : t ∈ (addNode (addNode g s) t).nodes := mem_addNode_self _ t
        rcases edgeKey_cases s t with hek | hek
        · rw [hek]; exact ⟨hsn, htn⟩
        · rw [hek]; exact ⟨htn, hsn⟩
    · intro k hk hne
      rw [he, List.mem_append, List.mem_singleton] at hk
      rw [ha]
      rcases hk with hk | hk
      · have hold := h4 k hk hne
        split
        · exact ⟨adjAppend_mem _ _ _ _ _ (adjAppend_mem _ _ _ _ _ hold.1),
                 adjAppend_mem _ _ _ _ _ (adjAppend_mem _ _ _ _ _ hold.2)⟩
        · exact ⟨adjAppend_mem _ _ _ _ _ hold.1, adjAppend_mem _ _ _ _ _ hold.2⟩
      · subst hk
        have hst : s ≠ t := by
          intro hc
          subst hc
          rcases edgeKey_cases s s with hek | hek <;> (rw [hek] at hne; exact hne rfl)
        rw [if_pos hst]
        rcases edgeKey_cases s t with hek | hek
        · rw [hek]
          dsimp only
          constructor
          · rw [adjAppend_getD_ne _ _ _ _ hst, adjAppend_getD_self]
            exact List.mem_append_right _ (List.mem_singleton.mpr rfl)
          · rw [adjAppend_getD_self]
            exact List.mem_append_right _ (List.mem_singleton.mpr rfl)
        · rw [hek]
          dsimp only
          constructor
          · rw [adjAppend_getD_self]
            exact List.mem_append_right _ (List.mem_singleton.mpr rfl)
          · rw [adjAppend_getD_ne _ _ _ _ hst, adjAppend_getD_self]
            exact List.mem_append_right _ (List.mem_singleton.mpr rfl)

theorem graphInv_applyOps : ∀ (ops : List GraphOp) (g : RelationshipGraph),
    graphInv g → graphInv (applyOps g ops)
  | [], g, h => h
  | op :: rest, g, h => by
      rw [applyOps, List.foldl_cons]
      have hstep : graphInv (applyOp g op) := by
        cases op with
        | node id => exact graphInv_addNode g id h
        | edge s t rt w ts md now => exact graphInv_addEdge g s t rt w ts md now h
      exact graphInv_applyOps rest (applyOp g op) hstep

/-- C7: after any sequence of add_node and add_edge calls against the
fresh graph, the graph is simple (the unordered edge-key list is
duplicate-free, so at most one edge object exists per unordered pair),
every endpoint of every edge key is a registered node, and every
non-loop edge is visible from both of its endpoints through
get_neighbors. -/
theorem C7_graph_invariants (ops : List GraphOp) :
    (applyOps graphInit ops).edges.Nodup ∧
    (∀ k ∈ (applyOps graphInit ops).edges,
      k.1 ∈ (applyOps graphInit ops).nodes ∧ k.2 ∈ (applyOps graphInit ops).nodes) ∧
    (∀ k ∈ (applyOps graphInit ops).edges, k.1 ≠ k.2 →
      k.2 ∈ (get_neighbors (applyOps graphInit ops) k.1).map Prod.fst ∧
      k.1 ∈ (get_neighbors (applyOps graphInit ops) k.2).map Prod.fst) := by
  obtain ⟨h1, _, h3, h4⟩ := graphInv_applyOps ops graphInit graphInv_init
  refine ⟨h1, h3, ?_⟩
  intro k hk hne
  obtain ⟨ha, hb⟩ := h4 k hk hne
  constructor
  · rw [get_neighbors, List.map_map]
    exact List.mem_map.mpr ⟨(k.2, k), ha, rfl⟩
  · rw [get_neighbors, List.map_map]
    exact List.mem_map.mpr ⟨(k.1, k), hb, rfl⟩

theorem C7_graph_invariants_witness :
    (applyOps graphInit [.node "C",
        .edge "A" "B" "knows" 1 (some "2024-01-01") [] "T0",
        .edge "B" "A" "calls" 1 .none [] "T1",
        .edge "B" "C" "pays" 1 .none [] "T2"]).edges.Nodup ∧
    (∀ k ∈ (applyOps graphInit [.node "C",
        .edge "A" "B" "knows" 1 (some "2024-01-01") [] "T0",
        .edge "B" "A" "calls" 1 .none [] "T1",
        .edge "B" "C" "pays" 1 .none [] "T2"]).edges,
      k.1 ∈ (applyOps graphInit [.node "C",
        .edge "A" "B" "knows" 1 (some "2024-01-01") [] "T0",
        .edge "B" "A" "calls" 1 .none [] "T1",
        .edge "B" "C" "pays" 1 .none [] "T2"]).nodes ∧
      k.2 ∈ (applyOps graphInit [.node "C",
        .edge "A" "B" "knows" 1 (some "2024-01-01") [] "T0",
        .edge "B" "A" "calls" 1 .none [] "T1",
        .edge "B" "C" "pays" 1 .none [] "T2"]).nodes) ∧
    (∀ k ∈ (applyOps graphInit [.node "C",
        .edge "A" "B" "knows" 1 (some "2024-01-01") [] "T0",
        .edge "B" "A" "calls" 1 .none [] "T1",
        .edge "B" "C" "pays" 1 .none [] "T2"]).edges, k.1 ≠ k.2 →
      k.2 ∈ (get_neighbors (applyOps graphInit [.node "C",
        .edge "A" "B" "knows" 1 (some "2024-01-01") [] "T0",
        .edge "B" "A" "calls" 1 .none [] "T1",
        .edge "B" "C" "pays" 1 .none [] "T2"]) k.1).map Prod.fst ∧
      k.1 ∈ (get_neighbors (applyOps graphInit [.node "C",
        .edge "A" "B" "knows" 1 (some "2024-01-01") [] "T0",
        .edge "B" "A" "calls" 1 .none [] "T1",
        .edge "B" "C" "pays" 1 .none [] "T2"]) k.2).map Prod.fst) :=
  C7_graph_invariants [.node "C",
    .edge "A" "B" "knows" 1 (some "2024-01-01") [] "T0",
    .edge "B" "A" "calls" 1 .none [] "T1",
    .edge "B" "C" "pays" 1 .none [] "T2"]

theorem processPair_temporal_case (parse : String → Option Rat)
    (render : Rat → String) (now : String) (g : RelationshipGraph)
    (st : FusionStats) (e1 e2 : AttrMap) (i1 i2 : String) (l2 : List Value)
    (sa sb : String)
    (h1 : amGet e1 "entity_id" = some (.str i1))
    (h2 : amGet e2 "entity_id" = some (.str i2))
    (hs1 : amGet e1 "sources" = some (.list []))
    (hs2 : amGet e2 "sources" = some (.list l2))
    (hm : dget e1 "modality" = Value.none)
    (ht1 : dget e1 "timestamp" = .str sa) (ht2 : dget e2 "timestamp" = .str sb)
    (hne1 : sa.isEmpty = false) (hne2 : sb.isEmpty = false) :
    processPair parse render now (g, st) e1 e2 = some (
      match parse sa, parse sb with
      | some t1, some t2 =>
          let diff := ratAbs (ratSub t1 t2)
          if 0 < diff ∧ diff < mkRat 86400 1 then
            (addEdge g i1 i2 "temporal"
              (ratDiv (mkRat 1 1) (ratAdd (mkRat 1 1) (ratDiv diff (mkRat 3600 1))))
              (some (render (if t1 ≤ t2 then t1 else t2))) [] now,
             { st with temporal := st.temporal + 1 })
          else (g, st)
      | _, _ => (g, st)) := by
  rw [processPair, h1, h2]
  simp only [Option.bind_eq_bind, Option.some_bind]
  rw [hs1, hs2]
  simp only [Option.some_bind]
  rw [ht1, ht2, hm]
  dsimp only
  simp only [Value.truthy, hne1, hne2, Bool.not_false, Bool.and_true,
    Bool.true_and, Bool.false_and, Bool.and_false]
  rw [if_neg Bool.false_ne_true]
  rw [show (List.filter (fun v => decide (v ∈ l2)) ([] : List Value).eraseDups)
      = [] from rfl]
  simp only [List.isEmpty_nil, Bool.not_true]
  rw [if_pos trivial, if_neg Bool.false_ne_true]

/-- A concrete timestamp parser used to exercise the temporal-edge rule
on known instants (three fixed ISO strings mapped to second offsets). -/
def probeParse : String → Option Rat
  | "2024-01-01T00:00:00" => some 0
  | "2024-01-02T00:00:00" => some (mkRat 86400 1)
  | "2024-01-01T01:00:00" => some (mkRat 3600 1)
  | _ => none

/-- A concrete renderer for `str(min(dt1, dt2))` over the probe
instants. -/
def probeRender (q : Rat) : String :=
  if q = 0 then "2024-01-01T00:00:00" else "LATER"

/-- C8: the temporal-edge rule of build_relationship_graph, corrected at
the boundary: for a pair of resolved entities with truthy string
timestamps, both parseable, a temporal edge weighted `1/(1 + delta/3600)`
and timestamped at the earlier instant is added — and the temporal
counter stepped — exactly when the absolute delta lies in the OPEN
interval (0, 86400); a delta of exactly 86400 seconds does NOT qualify
(see the counterexample), and an unparseable timestamp on either side
skips the pair without aborting the pass. -/
theorem C8_temporal_edge_rule (parse : String → Option Rat)
    (render : Rat → String) (now : String) (g : RelationshipGraph)
    (st : FusionStats) (e1 e2 : AttrMap) (i1 i2 : String) (l2 : List Value)
    (sa sb : String)
    (h1 : amGet e1 "entity_id" = some (.str i1))
    (h2 : amGet e2 "entity_id" = some (.str i2))
    (hs1 : amGet e1 "sources" = some (.list []))
    (hs2 : amGet e2 "sources" = some (.list l2))
    (hm : dget e1 "modality" = Value.none)
    (ht1 : dget e1 "timestamp" = .str sa) (ht2 : dget e2 "timestamp" = .str sb)
    (hne1 : sa.isEmpty = false) (hne2 : sb.isEmpty = false) :
    (∀ t1 t2, parse sa = some t1 → parse sb = some t2 →
      (0 < ratAbs (ratSub t1 t2) ∧ ratAbs (ratSub t1 t2) < mkRat 86400 1 →
        processPair parse render now (g, st) e1 e2
          = some (addEdge g i1 i2 "temporal"
              (ratDiv (mkRat 1 1) (ratAdd (mkRat 1 1)
                (ratDiv (ratAbs (ratSub t1 t2)) (mkRat 3600 1))))
              (some (render (if t1 ≤ t2 then t1 else t2))) [] now,
             { st with temporal := st.temporal + 1 })) ∧
      (¬(0 < ratAbs (ratSub t1 t2) ∧ ratAbs (ratSub t1 t2) < mkRat 86400 1) →
        processPair parse render now (g, st) e1 e2 = some (g, st))) ∧
    (parse sa = none →
      processPair parse render now (g, st) e1 e2 = some (g, st)) ∧
    (parse sb = none →
      processPair parse render now (g, st) e1 e2 = some (g, st)) := by
  have hc := processPair_temporal_case parse render now g st e1 e2 i1 i2 l2 sa sb
    h1 h2 hs1 hs2 hm ht1 ht2 hne1 hne2
  refine ⟨?_, ?_, ?_⟩
  · intro t1 t2 hp1 hp2
    rw [hp1, hp2] at hc
    constructor
    · intro hin
      rw [hc]
      dsimp only
      rw [if_pos hin]
    · intro hout
      rw [hc]
      dsimp only
      rw [if_neg hout]
  · intro hp1
    rw [hp1] at hc
    rw [hc]
  · intro hp2
    rw [hp2] at hc
    rw [hc]
    cases parse sa <;> rfl

theorem C8_temporal_edge_rule_witness :
    (∀ t1 t2, probeParse "2024-01-01T00:00:00" = some t1 →
      probeParse "2024-01-01T01:00:00" = some t2 →
      (0 < ratAbs (ratSub t1 t2) ∧ ratAbs (ratSub t1 t2) < mkRat 86400 1 →
        processPair probeParse probeRender "T" (graphInit, ⟨0, 0, 0⟩)
            [("entity_id", .str "E1"), ("sources", .list []),
             ("timestamp", .str "2024-01-01T00:00:00")]
            [("entity_id", .str "E2"), ("sources", .list []),
             ("timestamp", .str "2024-01-01T01:00:00")]
          = some (addEdge graphInit "E1" "E2" "temporal"
              (ratDiv (mkRat 1 1) (ratAdd (mkRat 1 1)
                (ratDiv (ratAbs (ratSub t1 t2)) (mkRat 3600 1))))
              (some (probeRender (if t1 ≤ t2 then t1 else t2))) [] "T",
             { (⟨0, 0, 0⟩ : FusionStats) with temporal := (0 : Nat) + 1 })) ∧
      (¬(0 < ratAbs (ratSub t1 t2) ∧ ratAbs (ratSub t1 t2) < mkRat 86400 1) →
        processPair probeParse probeRender "T" (graphInit, ⟨0, 0, 0⟩)
            [("entity_id", .str "E1"), ("sources", .list []),
             ("timestamp", .str "2024-01-01T00:00:00")]
            [("entity_id", .str "E2"), ("sources", .list []),
             ("timestamp", .str "2024-01-01T01:00:00")]
          = some (graphInit, ⟨0, 0, 0⟩))) ∧
    (probeParse "2024-01-01T00:00:00" = none →
      processPair probeParse probeRender "T" (graphInit, ⟨0, 0, 0⟩)
          [("entity_id", .str "E1"), ("sources", .list []),
           ("timestamp", .str "2024-01-01T00:00:00")]
          [("entity_id", .str "E2"), ("sources", .list []),
           ("timestamp", .str "2024-01-01T01:00:00")]
        = some (graphInit, ⟨0, 0, 0⟩)) ∧
    (probeParse "2024-01-01T01:00:00" = none →
      processPair probeParse probeRender "T" (graphInit, ⟨0, 0, 0⟩)
          [("entity_id", .str "E1"), ("sources", .list []),
           ("timestamp", .str "2024-01-01T00:00:00")]
          [("entity_id", .str "E2"), ("sources", .list []),
           ("timestamp", .str "2024-01-01T01:00:00")]
        = some (graphInit, ⟨0, 0, 0⟩)) :=
  C8_temporal_edge_rule probeParse probeRender "T" graphInit ⟨0, 0, 0⟩
    [("entity_id", .str "E1"), ("sources", .list []),
     ("timestamp", .str "2024-01-01T00:00:00")]
    [("entity_id", .str "E2"), ("sources", .list []),
     ("timestamp", .str "2024-01-01T01:00:00")]
    "E1" "E2" [] "2024-01-01T00:00:00" "2024-01-01T01:00:00"
    (by decide) (by decide) (by decide) (by decide) (by decide)
    (by decide) (by decide) (by decide) (by decide)

/-- C8 counterexample to the closed upper bound: two entities whose
parseable timestamps are exactly 86400 seconds apart get NO temporal
edge — the whole pass returns the graph unchanged with a temporal count
of 0, because the source guard is the strict `0 < time_diff < 86400` —
and an unparseable timestamp also skips the pair without aborting. -/
theorem C8_boundary_counterexample :
    (build_relationship_graph probeParse probeRender "T"
        [[("entity_id", .str "E1"), ("sources", .list []),
          ("timestamp", .str "2024-01-01T00:00:00")],
         [("entity_id", .str "E2"), ("sources", .list []),
          ("timestamp", .str "2024-01-02T00:00:00")]]
        graphInit ⟨0, 0, 0⟩
      = some (graphInit, ⟨0, 0, 0⟩)) ∧
    probeParse "2024-01-02T00:00:00" = some (mkRat 86400 1) ∧
    ratAbs (ratSub (mkRat 86400 1) 0) = mkRat 86400 1 ∧
    (build_relationship_graph probeParse probeRender "T"
        [[("entity_id", .str "E1"), ("sources", .list []),
          ("timestamp", .str "NOT-A-DATE")],
         [("entity_id", .str "E2"), ("sources", .list []),
          ("timestamp", .str "2024-01-02T00:00:00")]]
        graphInit ⟨0, 0, 0⟩
      = some (graphInit, ⟨0, 0, 0⟩)) := by decide

theorem timeline_fold (minConf : Rat) :
    ∀ (l : List (String × AttrMap)) (acc : List TimelineEvent),
    (∀ p ∈ l, ∃ q, dgetD p.2 "confidence" (.num 1) = .num q) →
    l.foldlM
      (fun acc p => do
        let e := p.2
        let conf ← (match dgetD e "confidence" (.num 1) with
          | .num q => some q
          | _ => (.none : Option Rat))
        if minConf ≤ conf then
          if (dget e "timestamp").truthy then some (acc ++ [mkEvent e])
          else some acc
        else some acc)
      acc
    = some (acc ++ (l.filter (fun p => timelineEligible minConf p.2)).map
        (fun p => mkEvent p.2))
  | [], acc, _ => by simp
  | p :: t, acc, h => by
      obtain ⟨q, hq⟩ := h p (List.mem_cons_self _ _)
      have hrest := timeline_fold minConf t
      dsimp only at hrest
      simp only [Option.bind_eq_bind] at hrest
      rw [List.foldlM_cons]
      dsimp only
      rw [hq]
      dsimp only
      simp only [Option.bind_eq_bind, Option.some_bind]
      rw [List.filter_cons]
      by_cases hel : timelineEligible minConf p.2 = true
      · have hel2 := hel
        rw [timelineEligible, hq] at hel2
        simp only [Bool.and_eq_true, decide_eq_true_eq] at hel2
        rw [if_pos hel, if_pos hel2.1, if_pos hel2.2]
        simp only [Option.bind_eq_bind, Option.some_bind]
        rw [hrest (acc ++ [mkEvent p.2]) (fun kv hkv => h kv (List.mem_cons_of_mem _ hkv))]
        simp
      · have hel2 := hel
        rw [timelineEligible, hq] at hel2
        rw [if_neg hel]
        rcases Bool.and_eq_false_iff.mp (Bool.eq_false_iff.mpr hel2) with hle | htr
        · rw [if_neg (fun hc => Bool.false_ne_true (hle ▸ decide_eq_true hc))]
          simp only [Option.bind_eq_bind, Option.some_bind]
          exact hrest acc (fun kv hkv => h kv (List.mem_cons_of_mem _ hkv))
        · by_cases hle2 : minConf ≤ q
          · rw [if_pos hle2, if_neg (fun hc => Bool.false_ne_true (htr ▸ hc))]
            simp only [Option.bind_eq_bind, Option.some_bind]
            exact hrest acc (fun kv hkv => h kv (List.mem_cons_of_mem _ hkv))
          · rw [if_neg hle2]
            simp only [Option.bind_eq_bind, Option.some_bind]
            exact hrest acc (fun kv hkv => h kv (List.mem_cons_of_mem _ hkv))

/-- C9: under the typed domain (every stored entity has an absent or
numeric confidence, and a string timestamp), generate_timeline succeeds
and returns exactly one event per entity whose confidence (defaulting
to 1.0) is at least min_confidence and whose timestamp is truthy — a
permutation of the filtered entity list mapped to events — sorted
non-decreasing by timestamp key for all adjacent pairs; every returned
event carries a confidence at least min_confidence, so entities below
the threshold never appear. -/
theorem C9_timeline_filter_sorted (reg : Registry) (minConf : Rat)
    (hconf : ∀ p ∈ reg.entities, ∃ q, dgetD p.2 "confidence" (.num 1) = .num q)
    (hts : ∀ p ∈ reg.entities, ∃ s, dget p.2 "timestamp" = .str s) :
    ∃ tl, generate_timeline reg minConf = some tl ∧
      tl.Perm ((reg.entities.filter
        (fun p => timelineEligible minConf p.2)).map (fun p => mkEvent p.2)) ∧
      List.Pairwise (fun a b => strLe (eventKey a) (eventKey b) = true) tl ∧
      (∀ ev ∈ tl, ∃ q, ev.confidence = .num q ∧ minConf ≤ q) := by
  have hf := timeline_fold minConf reg.entities [] hconf
  dsimp only at hf
  simp only [Option.bind_eq_bind] at hf
  rw [generate_timeline]
  simp only [Option.bind_eq_bind]
  rw [hf]
  simp only [Option.some_bind, List.nil_append]
  have hall : ((reg.entities.filter (fun p => timelineEligible minConf p.2)).map
      (fun p => mkEvent p.2)).all
        (fun ev => match ev.timestamp with | .str _ => true | _ => false) = true := by
    rw [List.all_eq_true]
    intro ev hev
    obtain ⟨p, hp, hevp⟩ := List.mem_map.mp hev
    obtain ⟨s, hs⟩ := hts p (List.mem_filter.mp hp).1
    rw [← hevp]
    show (match dget p.2 "timestamp" with | .str _ => true | _ => false) = true
    rw [hs]
  rw [if_pos hall]
  refine ⟨_, rfl, pySort_perm _ _, ?_, ?_⟩
  · exact pySort_sorted (fun a b => strLe (eventKey a) (eventKey b))
      (fun a b => strLe_total _ _)
      (fun x y z h1 h2 => strLe_trans _ _ _ h1 h2) _
  · intro ev hev
    have hmem := (pySort_perm (fun a b => strLe (eventKey a) (eventKey b)) _).mem_iff.mp hev
    obtain ⟨p, hp, hevp⟩ := List.mem_map.mp hmem
    obtain ⟨hpe, hel⟩ := List.mem_filter.mp hp
    obtain ⟨q, hq⟩ := hconf p hpe
    rw [timelineEligible, hq] at hel
    simp only [Bool.and_eq_true, decide_eq_true_eq] at hel
    refine ⟨q, ?_, hel.1⟩
    rw [← hevp]
    show dgetD p.2 "confidence" (.num 1) = .num q
    exact hq

theorem C9_timeline_filter_sorted_witness :
    ∃ tl, generate_timeline
        { emptyRegistry with entities :=
            [("E1", [("timestamp", .str "2024-02-01"),
                     ("confidence", .num (mkRat 9 10))]),
             ("E2", [("timestamp", .str "2024-01-01")]),
             ("E3", [("timestamp", .str "2024-03-01"),
                     ("confidence", .num (mkRat 2 10))])] }
        (mkRat 5 10) = some tl ∧
      tl.Perm ((({ emptyRegistry with entities :=
            [("E1", [("timestamp", .str "2024-02-01"),
                     ("confidence", .num (mkRat 9 10))]),
             ("E2", [("timestamp", .str "2024-01-01")]),
             ("E3", [("timestamp", .str "2024-03-01"),
                     ("confidence", .num (mkRat 2 10))])] } : Registry).entities.filter
        (fun p => timelineEligible (mkRat 5 10) p.2)).map (fun p => mkEvent p.2)) ∧
      List.Pairwise (fun a b => strLe (eventKey a) (eventKey b) = true) tl ∧
      (∀ ev ∈ tl, ∃ q, ev.confidence = .num q ∧ mkRat 5 10 ≤ q) :=
  C9_timeline_filter_sorted
    { emptyRegistry with entities :=
        [("E1", [("timestamp", .str "2024-02-01"),
                 ("confidence", .num (mkRat 9 10))]),
         ("E2", [("timestamp", .str "2024-01-01")]),
         ("E3", [("timestamp", .str "2024-03-01"),
                 ("confidence", .num (mkRat 2 10))])] }
    (mkRat 5 10)
    (by
      intro p hp
      fin_cases hp
      · exact ⟨mkRat 9 10, rfl⟩
      · exact ⟨1, rfl⟩
      · exact ⟨mkRat 2 10, rfl⟩)
    (by
      intro p hp
      fin_cases hp
      · exact ⟨"2024-02-01", rfl⟩
      · exact ⟨"2024-01-01", rfl⟩
      · exact ⟨"2024-03-01", rfl⟩)
